import Mathlib

/-!
software-update-manager: version matching, metadata parsing, record building

A shallow embedding of the Go sources

* `validate/version/version.go` (`Compare`, `validateVersion`,
  `GetCompatibileVersionInfo`),
* `utils/rpm/rpm.go` (`ParseMetaData`, `IsInstalled`, `Install`, `Uninstall`),
* `repo/list.go` (`ListRPMFilesInfo`, `List`),
* `update/update.go` (`Commit`, `Install`, `Reboot`, `Rollback`, `runCmdFromRPM`,
  the dispatch of `ScanCommandOptions`),
* `validate/validate.go` (`fileExists`, `isRPMCompatibile`, `isSigned`,
  `verifySign`, `validateSignature`),
* `repo/remove.go` (`Remove`),

followed by the properties proved about them.

Conventions of the embedding.

* A Go `string` is a `Str`, a list of characters (the text is taken to be valid
  UTF-8, so that the runes seen by `regexp` and `strings.TrimSpace` are the
  characters of the list).
* A Go `map[string]string` is a function `Str → Option Str`; `none` is an absent
  key, and reading an absent key gives the zero value `""` (`FieldMap.get`).
* A Go function returning `(T, error)` returns a pair `T × Option Str`, the
  second component being the error text (`none` is `nil`).
* Logging calls are omitted: they do not influence any returned value.
* Library functions (`strings.Split`, `strings.Join`, `strings.TrimSpace`,
  `regexp.MatchString`) are modelled from their documented behaviour; decoders
  and process invocations (`json.Unmarshal`, `yaml.Unmarshal`, `rpm -q -p --info`)
  are parameters.
* The operations of `update.go` act on the outside world. They take the list of
  calls made so far (the trace) and return it extended; the answers of the
  outside world are given by a `World`, each answer depending on the trace.
  `logutil.PrintNLogError` is taken to return the formatted text as the error.
-/

set_option autoImplicit false

namespace SUM

/-! ## Strings -/

/-- A Go string, as its list of characters. -/
abbrev Str := List Char

/-- Go `strings.Split(s, sep)` for a one-character separator, on the characters
after the current piece `cur` (kept in reverse): always returns one piece more
than there are separators. -/
def splitAux (sep : Char) : Str → Str → List Str
  | [], cur => [cur.reverse]
  | c :: cs, cur =>
    if c = sep then cur.reverse :: splitAux sep cs [] else splitAux sep cs (c :: cur)

/-- Go `strings.Split(s, string(sep))`. -/
def Split (s : Str) (sep : Char) : List Str := splitAux sep s []

/-- Go `strings.Join(parts, string(sep))`. -/
def Join : List Str → Char → Str
  | [], _ => []
  | [p], _ => p
  | p :: q :: rest, sep => p ++ sep :: Join (q :: rest) sep

/-! ## validate/version/version.go -/

/-- The Go struct `V1VersionInfo`; the nested `Estimate` struct is flattened into
the three fields `Hours`, `Minutes`, `Seconds`. -/
structure V1VersionInfo where
  Version : Str
  Reboot : Str
  Hours : Str
  Minutes : Str
  Seconds : Str
deriving DecidableEq, Repr

/-- The zero value `V1VersionInfo{}`. -/
def V1VersionInfo.zero : V1VersionInfo := ⟨[], [], [], [], []⟩

/-- The body of the `for i := 0; i < maxLen; i++` loop of `Compare`: the first
argument counts the iterations still to run (`maxLen - i`), the second is `i`.
`productVersionNums.getD i "0"` is `num1` after the two bounds tests. -/
def compareLoop (productVersionNums versionNums : List Str) : Nat → Nat → Bool
  | 0, _ => true
  | k + 1, i =>
    let num1 := productVersionNums.getD i "0".toList
    let num2 := versionNums.getD i "0".toList
    if num2 = "*".toList then true
    else if num1 ≠ num2 then false
    else compareLoop productVersionNums versionNums k (i + 1)

/-- Go `Compare(productVersion, version)`. -/
def Compare (productVersion version : Str) : Bool :=
  let productVersionNums := Split productVersion '.'
  let versionNums := Split version '.'
  let maxLen := productVersionNums.length
  let maxLen := if versionNums.length > maxLen then versionNums.length else maxLen
  compareLoop productVersionNums versionNums maxLen 0

/-- The error built by both failure paths of `validateVersion`:
`"Update version is not compatible for the product version <v>."`. -/
def incompatibleError (productVersion : Str) : Str :=
  "Update version is not compatible for the product version ".toList ++ productVersion ++ ".".toList

/-- The first loop of `validateVersion`. `versionSet` lists the keys of the Go
map `versionSet` (every key stored there maps to `true`). The result is `true`
when the loop returns the error, `false` when it runs to completion. -/
def duplicateLoop : List V1VersionInfo → List Str → Bool
  | [], _ => false
  | versionInfo :: rest, versionSet =>
    if versionInfo.Version ∈ versionSet then true
    else duplicateLoop rest (versionInfo.Version :: versionSet)

/-- How the second loop of `validateVersion` ends: by its `return` inside the
body, or by running off the end of the slice with the current `info`. -/
inductive ScanExit where
  | returned (versionInfo : V1VersionInfo)
  | completed (info : V1VersionInfo)
deriving DecidableEq, Repr

/-- The second loop of `validateVersion`, started with the current `info`. -/
def scanLoop (productVersion : Str) : List V1VersionInfo → V1VersionInfo → ScanExit
  | [], info => ScanExit.completed info
  | versionInfo :: rest, info =>
    if productVersion = versionInfo.Version then ScanExit.returned versionInfo
    else if Compare productVersion versionInfo.Version then scanLoop productVersion rest versionInfo
    else scanLoop productVersion rest info

/-- Go `validateVersion(productVersion, versionInfoArray)`. -/
def validateVersion (productVersion : Str) (versionInfoArray : List V1VersionInfo) :
    V1VersionInfo × Option Str :=
  let info := V1VersionInfo.zero
  if duplicateLoop versionInfoArray [] then (info, some (incompatibleError productVersion))
  else
    match scanLoop productVersion versionInfoArray info with
    | ScanExit.returned versionInfo => (versionInfo, none)
    | ScanExit.completed info =>
      if info = V1VersionInfo.zero then (V1VersionInfo.zero, some (incompatibleError productVersion))
      else (info, none)

/-- Go `validateJSONFormat`; `jsonUnmarshal` stands for `json.Unmarshal` into a
`[]V1VersionInfo` (the decoded slice and the decoding error). -/
def validateJSONFormat (jsonUnmarshal : Str → List V1VersionInfo × Option Str)
    (versionInfoString : Str) : List V1VersionInfo × Option Str :=
  let r := jsonUnmarshal versionInfoString
  match r.2 with
  | some err => (r.1, some ("RPM V1VersionInfo is not in valid JSON format: ".toList ++ err))
  | none => (r.1, none)

/-- Go `GetCompatibileVersionInfo(productVersion, versionInfoString)`. -/
def GetCompatibileVersionInfo (jsonUnmarshal : Str → List V1VersionInfo × Option Str)
    (productVersion versionInfoString : Str) : V1VersionInfo × Option Str :=
  let info := V1VersionInfo.zero
  let r := validateJSONFormat jsonUnmarshal versionInfoString
  match r.2 with
  | some err => (info, some err)
  | none =>
    let r2 := validateVersion productVersion r.1
    match r2.2 with
    | some err => (r2.1, some err)
    | none => (r2.1, none)

/-! ## utils/rpm/rpm.go -/

/-- Go `unicode.IsSpace`: the Latin-1 spaces `\t \n \v \f \r`, space, U+0085,
U+00A0, and the other code points with the White_Space property. -/
def unicodeIsSpace (c : Char) : Bool :=
  let n := c.toNat
  (9 ≤ n && n ≤ 13) || n = 32 || n = 133 || n = 160 || n = 5760 ||
  (8192 ≤ n && n ≤ 8202) || n = 8232 || n = 8233 || n = 8239 || n = 8287 || n = 12288

/-- Go `strings.TrimSpace`: drop the leading and the trailing white space. -/
def TrimSpace (s : Str) : Str :=
  ((s.dropWhile unicodeIsSpace).reverse.dropWhile unicodeIsSpace).reverse

/-- The regular expressions needed for the pattern of `ParseMetaData`, with the
two extra forms (`empty`, `alt`) that derivatives produce. -/
inductive Regex where
  | empty : Regex
  | eps : Regex
  | cls (p : Char → Bool) : Regex
  | seq (r s : Regex) : Regex
  | alt (r s : Regex) : Regex
  | star (r : Regex) : Regex

/-- Whether the expression matches the empty text. -/
def Regex.nullable : Regex → Bool
  | Regex.empty => false
  | Regex.eps => true
  | Regex.cls _ => false
  | Regex.seq r s => r.nullable && s.nullable
  | Regex.alt r s => r.nullable || s.nullable
  | Regex.star _ => true

/-- Brzozowski derivative: what remains to be matched after reading `c`. -/
def Regex.deriv : Regex → Char → Regex
  | Regex.empty, _ => Regex.empty
  | Regex.eps, _ => Regex.empty
  | Regex.cls p, c => if p c then Regex.eps else Regex.empty
  | Regex.seq r s, c =>
    if r.nullable then Regex.alt (Regex.seq (r.deriv c) s) (s.deriv c)
    else Regex.seq (r.deriv c) s
  | Regex.alt r s, c => Regex.alt (r.deriv c) (s.deriv c)
  | Regex.star r, c => Regex.seq (r.deriv c) (Regex.star r)

/-- Go `regexp.MatchString` for a pattern that starts with `^` (no flags): the
pattern after the `^` has to match some initial part of the text. -/
def MatchString : Regex → Str → Bool
  | r, [] => r.nullable
  | r, c :: cs => r.nullable || MatchString (r.deriv c) cs

/-- The class `\w` of Go regular expressions: `[0-9A-Za-z_]`. -/
def perlWord (c : Char) : Bool :=
  let n := c.toNat
  (48 ≤ n && n ≤ 57) || (65 ≤ n && n ≤ 90) || n = 95 || (97 ≤ n && n ≤ 122)

/-- The class `\s` of Go regular expressions: `[\t\n\f\r ]`. -/
def perlSpace (c : Char) : Bool :=
  c.toNat = 9 || c.toNat = 10 || c.toNat = 12 || c.toNat = 13 || c.toNat = 32

/-- The pattern of `ParseMetaData` after its leading anchor:
`\w+(\s*\w*)*\s*:`. -/
def pattern : Regex :=
  Regex.seq (Regex.seq (Regex.cls perlWord) (Regex.star (Regex.cls perlWord)))
    (Regex.seq
      (Regex.star (Regex.seq (Regex.star (Regex.cls perlSpace)) (Regex.star (Regex.cls perlWord))))
      (Regex.seq (Regex.star (Regex.cls perlSpace)) (Regex.cls (fun c => c = ':'))))

/-- A Go `map[string]string`. -/
abbrev FieldMap := Str → Option Str

/-- The empty map `map[string]string{}`. -/
def FieldMap.empty : FieldMap := fun _ => none

/-- Reading `m[k]`: the zero value `""` for an absent key. -/
def FieldMap.get (m : FieldMap) (k : Str) : Str := (m k).getD []

/-- The assignment `m[k] = v`. -/
def FieldMap.set (m : FieldMap) (k v : Str) : FieldMap :=
  fun k2 => if k2 = k then some v else m k2

/-- One iteration of the loop of `ParseMetaData` on `line`; the state is the map
`parsedData` and the variable `key`. (`regexp.MatchString` cannot fail here: the
pattern is a constant that compiles.) -/
def parseLine (st : FieldMap × Str) (line : Str) : FieldMap × Str :=
  if MatchString pattern line then
    let fields := Split line ':'
    let key := TrimSpace (fields.headD [])
    if fields.length > 1 then (st.1.set key (TrimSpace (Join fields.tail ':')), key)
    else (st.1, key)
  else (st.1.set st.2 (st.1.get st.2 ++ TrimSpace line), st.2)

/-- The loop of `ParseMetaData` over the lines, from a given state. -/
def parseLines (lines : List Str) (st : FieldMap × Str) : FieldMap × Str :=
  lines.foldl parseLine st

/-- Go `ParseMetaData(metaData)`. -/
def ParseMetaData (metaData : Str) : FieldMap :=
  (parseLines (Split metaData '\n') (FieldMap.empty, [])).1

/-! ## repo/list.go -/

/-- The constant `FormatVersionName`. -/
def FormatVersionName : Str := "ASUM RPM Format Version".toList

/-- The `Install` member of `v2productVersion`. -/
structure V2Install where
  ConfirmationMessage : List Str
  EstimatedMinutes : Nat
  RequiresRestart : Bool
  SupportsRollback : Bool
deriving DecidableEq, Repr

/-- The `Rollback` member of `v2productVersion`. -/
structure V2Rollback where
  ConfirmationMessage : List Str
  EstimatedMinutes : Nat
  RequiresRestart : Bool
deriving DecidableEq, Repr

/-- The `Commit` member of `v2productVersion`. -/
structure V2Commit where
  ConfirmationMessage : List Str
  EstimatedMinutes : Nat
deriving DecidableEq, Repr

/-- The Go struct `v2productVersion`. -/
structure v2productVersion where
  Install : V2Install
  Rollback : V2Rollback
  Commit : V2Commit
deriving DecidableEq, Repr

/-- The zero value `v2productVersion{}`. -/
def v2productVersion.zero : v2productVersion :=
  ⟨⟨[], 0, false, false⟩, ⟨[], 0, false⟩, ⟨[], 0⟩⟩

/-- The Go struct `v2RPMInfo`; the embedded `v2productVersion` is the field
`stages`, and the Go field `Type` is `RPMType`. -/
structure v2RPMInfo where
  Name : Str
  FileName : Str
  Description : List Str
  RPMType : Str
  URL : Str
  Version : Str
  Release : Str
  matchedVersion : Str
  stages : v2productVersion
deriving DecidableEq, Repr

/-- The Go struct `v1RPMInfo`; the nested `Estimate` struct is flattened, and
the Go field `Type` is `RPMType`. -/
structure v1RPMInfo where
  Description : Str
  Hours : Str
  Minutes : Str
  Seconds : Str
  FileName : Str
  Name : Str
  matchedVersion : Str
  Reboot : Str
  Summary : Str
  RPMType : Str
  URL : Str
  Version : Str
deriving DecidableEq, Repr

/-- The two implementations of the Go interface `RPMInfo`. -/
inductive RPMInfo where
  | v1 (listData : v1RPMInfo)
  | v2 (listData : v2RPMInfo)
deriving DecidableEq, Repr

/-- Go method `GetMatchedVersion`. -/
def RPMInfo.GetMatchedVersion : RPMInfo → Str
  | RPMInfo.v1 d => d.matchedVersion
  | RPMInfo.v2 d => d.matchedVersion

/-- Go method `GetRPMName`. -/
def RPMInfo.GetRPMName : RPMInfo → Str
  | RPMInfo.v1 d => d.Name
  | RPMInfo.v2 d => d.Name

/-- Go method `GetRPMRelease`: a V1 record has no release. -/
def RPMInfo.GetRPMRelease : RPMInfo → Str
  | RPMInfo.v1 _ => []
  | RPMInfo.v2 d => d.Release

/-- Go method `GetRPMType`. -/
def RPMInfo.GetRPMType : RPMInfo → Str
  | RPMInfo.v1 d => d.RPMType
  | RPMInfo.v2 d => d.RPMType

/-- Go method `GetRPMVersion`. -/
def RPMInfo.GetRPMVersion : RPMInfo → Str
  | RPMInfo.v1 d => d.Version
  | RPMInfo.v2 d => d.Version

/-- An element of the anonymous slice `allVersionsInfo.VersionInfo`: the
`product-version` string and the inlined `v2productVersion`. -/
structure V2VersionEntry where
  Version : Str
  stages : v2productVersion
deriving DecidableEq, Repr

/-- What `ListRPMFilesInfo` obtains from outside the repository.
* `GetRPMPackageInfo file`: the output of `rpm -q -p --info` and its error.
* `jsonUnmarshal`: `json.Unmarshal` into a `[]V1VersionInfo`.
* `yamlUnmarshalInfo text d`: `yaml.Unmarshal` of `text` into the record `d`.
* `yamlUnmarshalCompat text`: `yaml.Unmarshal` of `text` into
  `allVersionsInfo`, giving its `compatibility-info` slice.
* `Base`: `filepath.Base`. -/
structure Externals where
  GetRPMPackageInfo : Str → Str × Option Str
  jsonUnmarshal : Str → List V1VersionInfo × Option Str
  yamlUnmarshalInfo : Str → v2RPMInfo → v2RPMInfo
  yamlUnmarshalCompat : Str → List V2VersionEntry
  Base : Str → Str

/-- The V1 branch of the loop body of `ListRPMFilesInfo` (`list.go` 281-309). -/
def buildV1 (ext : Externals) (file : Str) (parsedData : FieldMap) (productVersion : Str) :
    v1RPMInfo :=
  let listData : v1RPMInfo :=
    { Description := parsedData.get "Description".toList
      FileName := ext.Base file
      Name := ext.Base file
      Summary := parsedData.get "Summary".toList
      RPMType := parsedData.get "Type".toList
      URL := parsedData.get "URL".toList
      Version := parsedData.get "Version".toList
      Reboot := "n/a".toList
      Hours := "0".toList
      Minutes := "0".toList
      Seconds := "0".toList
      matchedVersion := [] }
  if productVersion ≠ [] then
    let versionInfo :=
      (GetCompatibileVersionInfo ext.jsonUnmarshal productVersion
        (parsedData.get "VersionInfo".toList)).1
    { listData with
      matchedVersion := versionInfo.Version
      Reboot := versionInfo.Reboot
      Hours := versionInfo.Hours
      Minutes := versionInfo.Minutes
      Seconds := versionInfo.Seconds }
  else listData

/-- The body of the first loop over `allVersionsInfo.VersionInfo` (347-352). -/
def exactStep (productVersion : Str) (listData : v2RPMInfo) (vInfo : V2VersionEntry) :
    v2RPMInfo :=
  if productVersion = vInfo.Version then
    { listData with stages := vInfo.stages, matchedVersion := vInfo.Version }
  else listData

/-- The body of the second loop over `allVersionsInfo.VersionInfo` (354-359). -/
def patternStep (productVersion : Str) (listData : v2RPMInfo) (vInfo : V2VersionEntry) :
    v2RPMInfo :=
  if Compare productVersion vInfo.Version then
    { listData with stages := vInfo.stages, matchedVersion := vInfo.Version }
  else listData

/-- Lines 345-360 of `list.go`: the selection among the decoded compatibility
entries, applied to the record built so far. -/
def selectV2 (productVersion : Str) (versionInfo : List V2VersionEntry) (listData : v2RPMInfo) :
    v2RPMInfo :=
  let listData := versionInfo.foldl (exactStep productVersion) listData
  if listData.matchedVersion = [] then versionInfo.foldl (patternStep productVersion) listData
  else listData

/-- The V2 branch of the loop body of `ListRPMFilesInfo` (`list.go` 311-363).
`yaml.Unmarshal` cannot assign the unexported field `matchedVersion`, which
therefore keeps its value across the decoding; the parsed build date is only
logged. -/
def buildV2 (ext : Externals) (file : Str) (parsedData : FieldMap) (productVersion : Str) :
    v2RPMInfo :=
  let listData : v2RPMInfo :=
    { FileName := ext.Base file
      Name := parsedData.get "Name".toList
      Version := parsedData.get "Version".toList
      Release := parsedData.get "Release".toList
      URL := parsedData.get "URL".toList
      Description := []
      RPMType := []
      matchedVersion := []
      stages := v2productVersion.zero }
  let rpmInfo := parsedData.get "RPM Info".toList
  let listData :=
    { ext.yamlUnmarshalInfo rpmInfo listData with matchedVersion := listData.matchedVersion }
  if productVersion ≠ [] then
    selectV2 productVersion (ext.yamlUnmarshalCompat rpmInfo) listData
  else listData

/-- The loop body of `ListRPMFilesInfo` after the metadata has been parsed: the
test on the presence of `FormatVersionName` and the two branches. -/
def buildRPMInfo (ext : Externals) (file : Str) (parsedData : FieldMap) (productVersion : Str) :
    RPMInfo :=
  match parsedData FormatVersionName with
  | none => RPMInfo.v1 (buildV1 ext file parsedData productVersion)
  | some _ => RPMInfo.v2 (buildV2 ext file parsedData productVersion)

/-- The loop of `ListRPMFilesInfo` over the remaining files, with the slice
`info` built so far. -/
def listLoop (ext : Externals) (productVersion : Str) : List Str → List RPMInfo →
    List RPMInfo × Option Str
  | [], info => (info, none)
  | file :: rest, info =>
    match (ext.GetRPMPackageInfo file).2 with
    | some _ => (info, some "Failed to get software details.".toList)
    | none =>
      let parsedData := ParseMetaData (ext.GetRPMPackageInfo file).1
      listLoop ext productVersion rest (info ++ [buildRPMInfo ext file parsedData productVersion])

/-- Go `ListRPMFilesInfo(files, productVersion)`. -/
def ListRPMFilesInfo (ext : Externals) (files : List Str) (productVersion : Str) :
    List RPMInfo × Option Str :=
  listLoop ext productVersion files []

/-! ## Specification vocabulary -/

/-- The texts matched in full by a regular expression (the usual denotation). -/
def Regex.Matches : Regex → Str → Prop
  | Regex.empty, _ => False
  | Regex.eps, x => x = []
  | Regex.cls p, x => ∃ c, x = [c] ∧ p c = true
  | Regex.seq r s, x => ∃ a b, x = a ++ b ∧ r.Matches a ∧ s.Matches b
  | Regex.alt r s, x => r.Matches x ∨ s.Matches x
  | Regex.star r, x => ∃ L : List Str, x = L.flatten ∧ ∀ y, y ∈ L → r.Matches y

/-- The text of a line before its first colon, trimmed. -/
def keyText (line : Str) : Str := TrimSpace (line.takeWhile (fun c => c ≠ ':'))

/-- The text of a line after its first colon, trimmed. -/
def valueText (line : Str) : Str := TrimSpace (line.dropWhile (fun c => c ≠ ':')).tail

/-- The grammar of key lines in the words of the spec: one or more word
characters, then repeated groups of white space followed by word characters,
then optional white space, then a colon: `\w+(\s+\w+)*\s*:`. -/
def specPattern : Regex :=
  Regex.seq (Regex.seq (Regex.cls perlWord) (Regex.star (Regex.cls perlWord)))
    (Regex.seq
      (Regex.star
        (Regex.seq (Regex.seq (Regex.cls perlSpace) (Regex.star (Regex.cls perlSpace)))
          (Regex.seq (Regex.cls perlWord) (Regex.star (Regex.cls perlWord)))))
      (Regex.seq (Regex.star (Regex.cls perlSpace)) (Regex.cls (fun c => c = ':'))))

/-- A line that starts with a word character and has a colon before which only
word characters and `\s` characters stand. -/
def IsKeyLine (line : Str) : Prop :=
  ∃ c mid post, line = c :: mid ++ ':' :: post ∧ perlWord c = true ∧
    ∀ d, d ∈ mid → perlWord d = true ∨ perlSpace d = true

/-- A compatibility list in which two entries carry the version `1.0`, with
different install estimates. -/
def duplicateEntries : List V2VersionEntry :=
  [⟨"1.0".toList, ⟨⟨[], 10, false, false⟩, ⟨[], 0, false⟩, ⟨[], 0⟩⟩⟩,
   ⟨"1.0".toList, ⟨⟨[], 20, true, false⟩, ⟨[], 0, false⟩, ⟨[], 0⟩⟩⟩]

/-- Collaborators for one V2 package whose `RPM Info` decodes to
`duplicateEntries` and to no other field. -/
def duplicateExternals : Externals where
  GetRPMPackageInfo := fun _ =>
    ("Name : pkg\nASUM RPM Format Version : 2\nRPM Info : x".toList, none)
  jsonUnmarshal := fun _ => ([], none)
  yamlUnmarshalInfo := fun _ d => d
  yamlUnmarshalCompat := fun _ => duplicateEntries
  Base := fun file => file

/-! ## update/update.go: the environment -/

/-- Modelled from the spec: the type `pm.RunStatus` of the plugin-manager module,
which this repository imports and does not declare. The spec's data model
gives it the outcome of one stage invocation and its captured output text. -/
structure RunStatus where
  Status : Str
  StdOutErr : Str
deriving DecidableEq, Repr

/-- The zero value `pm.RunStatus{}`. -/
def RunStatus.zero : RunStatus := ⟨[], []⟩

set_option linter.dupNamespace false in
/-- The Go struct `Status` of `update.go`. -/
structure Status where
  Install : List RunStatus
  Reboot : List RunStatus
  Rollback : List RunStatus
  Commit : List RunStatus
  Status : Str
  StdOutErr : Str
deriving DecidableEq, Repr

/-- The zero value of `Status` (`var status Status`). -/
def Status.zero : SUM.Status := ⟨[], [], [], [], [], []⟩

/-- The calls that leave the program, in the order they are made.
* `pmRun pluginType library`: `config.SetPluginsLibrary(library)` followed by
  `pm.Run(result, pluginType)`.
* `exec cmd args`: `exec.Command(cmd, args...).CombinedOutput()`.
* `stat path`: `os.Stat(path)`.
* `listRepo swName swRepo swType`: the directory traversal of `listRepo`.
* `removeAll path`: `osutils.OsRemoveAll(path)`.
* `writeStatus`, `writeInfo`: `output.Write` of a status or of a listing. -/
inductive Call where
  | pmRun (pluginType library : Str)
  | exec (cmd : Str) (args : List Str)
  | stat (path : Str)
  | listRepo (swName swRepo swType : Str)
  | removeAll (path : Str)
  | writeStatus (status : Status)
  | writeInfo (info : List RPMInfo)
deriving DecidableEq, Repr

/-- The three outcomes of `os.Stat` the code tells apart: no error, an error for
which `os.IsNotExist` holds, any other error. -/
inductive StatResult where
  | ok
  | notExist
  | failed
deriving DecidableEq, Repr

/-- The environment of a run. Every answer may depend on the calls made so far
(the first argument), so that an environment with state is covered.
* `pmRun`: the `pm.RunStatus` written by `pm.Run` and its error.
* `exec`: the combined output and the error of a command.
* `stat`: the outcome of `os.Stat`.
* `listRepo`: the files found by `listRepo` and its error.
* `removeAll`: the error of `osutils.OsRemoveAll`.
* `Clean`, `ToLower`: `filepath.Clean`, `strings.ToLower`.
* `Errorf`: the text of `fmt.Errorf(format, a...)` for a format and string
  operands. It is used where the code builds the format itself from a path or a
  command, so that a `%` of the path is read as a verb.
* `outputFile`, `outputFormat`: `output.GetFile()`, `output.GetFormat()`. -/
structure World where
  pmRun : List Call → Str → Str → RunStatus × Option Str
  exec : List Call → Str → List Str → Str × Option Str
  stat : List Call → Str → StatResult
  listRepo : List Call → FieldMap → List Str × Option Str
  removeAll : List Call → Str → Option Str
  Clean : Str → Str
  ToLower : Str → Str
  Errorf : Str → List Str → Str
  outputFile : Str
  outputFormat : Str

/-! ## update/update.go: the staged operations -/

/-- The constant `RPMInstallRepoPath`. -/
def RPMInstallRepoPath : Str := "/system/upgrade/repository/".toList

/-- The constant `dStatusFail`. -/
def dStatusFail : Str := "Failed".toList

/-- The constant `dStatusOk`. -/
def dStatusOk : Str := "Succeeded".toList

/-- The constant `repo.SoftwareRepoPath`. -/
def SoftwareRepoPath : Str := "/system/software/repository/".toList

/-- Go `runPM(result, pluginType, library)` on a fresh `pm.RunStatus{}`: the
run status written through the pointer, the error, and the extended trace. -/
def runPM (w : World) (tr : List Call) (pluginType library : Str) :
    (RunStatus × Option Str) × List Call :=
  (w.pmRun tr pluginType library, tr ++ [Call.pmRun pluginType library])

/-- The loop of `Commit` over the remaining plugin types; the Boolean is the
value returned (`false` from inside the loop, `true` after it). -/
def commitLoop (w : World) (library : Str) : List Str → Status → List Call →
    Bool × Status × List Call
  | [], result, tr => (true, result, tr)
  | pt :: rest, result, tr =>
    let r := runPM w tr pt library
    let result := { result with Commit := result.Commit ++ [r.1.1] }
    match r.1.2 with
    | some _ => (false, result, r.2)
    | none => commitLoop w library rest result r.2

/-- Go `Commit(result, library)`. -/
def Commit (w : World) (result : Status) (library : Str) (tr : List Call) :
    Bool × Status × List Call :=
  commitLoop w library ["commit-precheck".toList, "commit".toList] result tr

/-- The loop of `Install` over the remaining plugin types; the middle component
is the variable `err` when the loop is left. -/
def installLoop (w : World) (library : Str) : List Str → Status → List Call →
    Status × Option Str × List Call
  | [], result, tr => (result, none, tr)
  | pt :: rest, result, tr =>
    let r := runPM w tr pt library
    let result := { result with Install := result.Install ++ [r.1.1] }
    match r.1.2 with
    | some err => ({ result with Status := dStatusFail }, some err, r.2)
    | none => installLoop w library rest result r.2

/-- Go `Install(result, library)`. -/
def Install (w : World) (result : Status) (library : Str) (tr : List Call) :
    Bool × Status × List Call :=
  let l := installLoop w library ["preinstall".toList, "install".toList] result tr
  match l.2.1 with
  | some _ =>
    let r := runPM w l.2.2 "rollback".toList library
    (false, { l.1 with Install := l.1.Install ++ [r.1.1] }, r.2)
  | none => (true, { l.1 with Status := dStatusOk }, l.2.2)

/-- The loop of `Reboot` over the remaining plugin types; the Boolean tells
whether the loop ran to its end (`false`: the function returned `false` from
inside the loop). -/
def rebootLoop (w : World) (library : Str) : List Str → Status → List Call →
    Bool × Status × List Call
  | [], result, tr => (true, result, tr)
  | pt :: rest, result, tr =>
    let r := runPM w tr pt library
    let result := { result with Reboot := result.Reboot ++ [r.1.1] }
    match r.1.2 with
    | some err =>
      let result := { result with Status := dStatusFail, StdOutErr := err }
      let r2 := runPM w r.2 "rollback".toList library
      (false, { result with Reboot := result.Reboot ++ [r2.1.1] }, r2.2)
    | none => rebootLoop w library rest result r.2

/-- Go `Reboot(result, library)`. -/
def Reboot (w : World) (result : Status) (library : Str) (tr : List Call) :
    Bool × Status × List Call :=
  let l := rebootLoop w library ["prereboot".toList] result tr
  if l.1 then
    let r := w.exec l.2.2 "systemctl".toList ["reboot".toList]
    let tr := l.2.2 ++ [Call.exec "systemctl".toList ["reboot".toList]]
    match r.2 with
    | some _ => (false, { l.2.1 with StdOutErr := "Failed to reboot the system.".toList }, tr)
    | none => (true, l.2.1, tr)
  else (false, l.2.1, l.2.2)

/-- The loop of `Rollback` over the remaining plugin types; the Boolean tells
whether the loop ran to its end. -/
def rollbackLoop (w : World) (library : Str) : List Str → Status → List Call →
    Bool × Status × List Call
  | [], result, tr => (true, result, tr)
  | pt :: rest, result, tr =>
    let r := runPM w tr pt library
    let result := { result with Rollback := result.Rollback ++ [r.1.1] }
    match r.1.2 with
    | some _ => (false, result, r.2)
    | none => rollbackLoop w library rest result r.2

/-- Go `Rollback(result, library)`. -/
def Rollback (w : World) (result : Status) (library : Str) (tr : List Call) :
    Bool × Status × List Call :=
  let l := rollbackLoop w library ["rollback-precheck".toList, "prerollback".toList] result tr
  if l.1 then (true, { l.2.1 with Status := dStatusOk }, l.2.2)
  else (false, l.2.1, l.2.2)

/-! ## utils/rpm/rpm.go: the package-manager commands -/

/-- The constant `rpm.Cmd`. -/
def rpmCmd : Str := "/usr/bin/rpm".toList

/-- Go `rpm.IsInstalled(rpmName)`: whether `rpm -q rpmName` succeeds. -/
def rpmIsInstalled (w : World) (tr : List Call) (rpmName : Str) : Bool × List Call :=
  ((w.exec tr rpmCmd ["-q".toList, rpmName]).2.isNone,
    tr ++ [Call.exec rpmCmd ["-q".toList, rpmName]])

/-- Go `rpm.Install(rpmPath)`: `rpm -Uvh rpmPath`, returning its error. -/
def rpmInstall (w : World) (tr : List Call) (rpmPath : Str) : Option Str × List Call :=
  ((w.exec tr rpmCmd ["-Uvh".toList, rpmPath]).2,
    tr ++ [Call.exec rpmCmd ["-Uvh".toList, rpmPath]])

/-- Go `rpm.Uninstall(rpmName)`: `rpm -e rpmName`. -/
def rpmUninstall (w : World) (tr : List Call) (rpmName : Str) : Option Str × List Call :=
  (match (w.exec tr rpmCmd ["-e".toList, rpmName]).2 with
    | some _ => some ("Failed to uninstall ".toList ++ rpmName ++ " software.".toList)
    | none => none,
    tr ++ [Call.exec rpmCmd ["-e".toList, rpmName]])

/-! ## repo/list.go: `List` -/

/-- Go `repo.List(params)`. The traversal `listRepo` is answered by the
environment; the package queries of `ListRPMFilesInfo` are those of `ext`. -/
def repoList (w : World) (ext : Externals) (params : FieldMap) (tr : List Call) :
    (List RPMInfo × Option Str) × List Call :=
  let productVersion := params.get "productVersion".toList
  let l := w.listRepo tr params
  let tr := tr ++ [Call.listRepo (params.get "softwareName".toList)
    (params.get "softwareRepo".toList) (params.get "softwareType".toList)]
  match l.2 with
  | some err => (([], some err), tr)
  | none =>
    let r := ListRPMFilesInfo ext l.1 productVersion
    match r.2 with
    | some err => ((r.1, some err), tr)
    | none => ((r.1, none), tr ++ [Call.writeInfo r.1])

/-! ## update/update.go: the direct path and the dispatch -/

/-- The string `script` of `runCmdFromRPM` (lines 166-169); the path separator
is `/`. -/
def scriptOf (action swType : Str) (rpmInfo : RPMInfo) : Str :=
  RPMInstallRepoPath ++ swType ++ "/".toList ++
    (rpmInfo.GetRPMName ++ "-".toList ++ rpmInfo.GetRPMVersion ++ "-".toList ++
      rpmInfo.GetRPMRelease) ++
    "/".toList ++ action

/-- Lines 166-190 of `runCmdFromRPM`: the script is run with `/bin/sh`; when it
fails during `install` the package is uninstalled. -/
def runScript (w : World) (action swType : Str) (rpmInfo : RPMInfo) (tr : List Call) :
    Option Str × List Call :=
  let script := scriptOf action swType rpmInfo
  let cmdParams := [script, "-output-file".toList, w.outputFile, "-output-format".toList,
    w.outputFormat]
  let r := w.exec tr "/bin/sh".toList cmdParams
  let tr := tr ++ [Call.exec "/bin/sh".toList cmdParams]
  match r.2 with
  | some _ =>
    let tr := if "install".toList = action then (rpmUninstall w tr rpmInfo.GetRPMName).2 else tr
    (some ("Failed to ".toList ++ action ++ " software.".toList), tr)
  | none => (none, tr)

/-- Lines 155-190 of `runCmdFromRPM`, once the record `rpmInfo` is known. -/
def runAction (w : World) (action swType absSwPath : Str) (rpmInfo : RPMInfo)
    (tr : List Call) : Option Str × List Call :=
  if "install".toList = action then
    let q := rpmIsInstalled w tr rpmInfo.GetRPMName
    let tr := if q.1 then (rpmUninstall w q.2 rpmInfo.GetRPMName).2 else q.2
    let i := rpmInstall w tr absSwPath
    match i.1 with
    | some _ => (some "Failed to install software.".toList, i.2)
    | none => runScript w action swType rpmInfo i.2
  else runScript w action swType rpmInfo tr

/-- The path `absSwPath` of `runCmdFromRPM` (lines 110-117); the path separator
is `/`. -/
def absSwPathOf (w : World) (params : FieldMap) (swType swName : Str) : Str :=
  let swRepo := params.get "softwareRepo".toList
  let swRepo := if swRepo = [] then SoftwareRepoPath else swRepo
  w.Clean (swRepo ++ "/".toList ++ swType ++ "/".toList ++ swName)

/-- The map `params` after lines 133-134 of `runCmdFromRPM`. -/
def lookupParams (params : FieldMap) (swName swType : Str) : FieldMap :=
  (params.set "softwareName".toList swName).set "softwareType".toList swType

/-- Go `runCmdFromRPM(action, swName, swType, params)`. The test
`1 != len(listInfo)` followed by `listInfo[0]` is the match on a one-element
list. -/
def runCmdFromRPM (w : World) (ext : Externals) (action swName swType : Str)
    (params : FieldMap) (tr : List Call) : Option Str × List Call :=
  if swName = [] then (some "Invalid usage. Software name must be specified.".toList, tr)
  else if swType = [] then (some "Invalid usage. Software type must be specified.".toList, tr)
  else
    let absSwPath := absSwPathOf w params swType swName
    let tr1 := tr ++ [Call.stat absSwPath]
    match w.stat tr absSwPath with
    | StatResult.ok =>
      let params := lookupParams params swName swType
      let l := repoList w ext params tr1
      match l.1.2 with
      | some err => (some err, l.2)
      | none =>
        match l.1.1 with
        | [rpmInfo] => runAction w action swType absSwPath rpmInfo l.2
        | _ => (some ("Failed to get details of ".toList ++ swName ++ " software.".toList), l.2)
    | _ =>
      (some ("Unable to install ".toList ++ swType ++ " software ".toList ++ swName ++
        ". Specified software not found.".toList), tr1)

/-- The variable `cmdOptions` of `update.go` after the flags were parsed. -/
structure CmdOptions where
  softwareName : Str
  softwareRepo : Str
  softwareType : Str
deriving DecidableEq, Repr

/-- Lines 424-454 of `ScanCommandOptions`: what runs once the flags of the
command `cmd` were parsed without error, `library` being `options["library"]`. -/
def ScanCommandOptions (w : World) (ext : Externals) (cmd : Str) (cmdOptions : CmdOptions)
    (library : Str) (tr : List Call) : Option Str × List Call :=
  if cmdOptions.softwareName ≠ [] then
    let params := FieldMap.empty.set "softwareRepo".toList cmdOptions.softwareRepo
    runCmdFromRPM w ext cmd cmdOptions.softwareName cmdOptions.softwareType params tr
  else
    let r : Bool × Status × List Call :=
      if cmd = "commit".toList then Commit w Status.zero library tr
      else if cmd = "install".toList then Install w Status.zero library tr
      else if cmd = "reboot".toList then Reboot w Status.zero library tr
      else if cmd = "rollback".toList then Rollback w Status.zero library tr
      else (false, Status.zero, tr)
    if r.1 then
      (none, r.2.2 ++ [Call.writeStatus { r.2.1 with Status := dStatusOk }])
    else
      let err := "Failed to ".toList ++ cmd ++ " the update.".toList
      (some err, r.2.2 ++ [Call.writeStatus { r.2.1 with Status := dStatusFail, StdOutErr := err }])

/-! ## validate/validate.go -/

/-- Go `fileExists(filePath)`. The path is part of the format of `fmt.Errorf`,
which has no operand. -/
def fileExists (w : World) (tr : List Call) (filePath : Str) : Option Str × List Call :=
  (match w.stat tr filePath with
    | StatResult.notExist => some (w.Errorf (filePath ++ " file does not exist".toList) [])
    | _ => none,
    tr ++ [Call.stat filePath])

/-- Go `isRPMCompatibile(productVersion, rpmFile)`. (`info[0]` exists whenever
`ListRPMFilesInfo` returns no error for one file; the last case stands for the
index panic.) -/
def isRPMCompatibile (w : World) (ext : Externals) (productVersion rpmFile : Str)
    (tr : List Call) : Option Str × List Call :=
  let f := fileExists w tr rpmFile
  match f.1 with
  | some err => (some err, f.2)
  | none =>
    let l := ListRPMFilesInfo ext [rpmFile] productVersion
    match l.2 with
    | some err => (some err, f.2)
    | none =>
      match l.1 with
      | curInfo :: _ =>
        if !Compare productVersion curInfo.GetMatchedVersion then
          (some ("The ".toList ++ ext.Base rpmFile ++ " software file is not compatibile for ".toList
            ++ productVersion ++ " version.".toList), f.2)
        else (none, f.2)
      | [] => (some "index out of range".toList, f.2)

/-- Go `strings.Contains(s, substr)`. -/
def Contains : Str → Str → Bool
  | [], substr => substr.isPrefixOf []
  | c :: cs, substr => substr.isPrefixOf (c :: cs) || Contains cs substr

/-- The string `signCommand` of `isSigned`. -/
def signCommand (rpmFile : Str) : Str :=
  "rpm -qip '".toList ++ rpmFile ++ "' | grep Signature | cut -d ':' -f 2-".toList

/-- Go `isSigned(rpmFile)`; `execCommand` is `exec.Command`. When the query
fails, `signCommand` is part of the format of `fmt.Errorf`, whose one operand is
the text of the error. -/
def isSigned (w : World) (tr : List Call) (rpmFile : Str) : Option Str × List Call :=
  let r := w.exec tr "sh".toList ["-c".toList, signCommand rpmFile]
  let tr := tr ++ [Call.exec "sh".toList ["-c".toList, signCommand rpmFile]]
  match r.2 with
  | some err =>
    (some (w.Errorf ("Failed to execute RPM command ".toList ++ signCommand rpmFile ++
      ". Error %v".toList) [err]), tr)
  | none =>
    let rpmSign := TrimSpace r.1
    if Contains rpmSign "(none)".toList then
      (some ("RPM file ".toList ++ rpmFile ++ (" is not signed. Only install updates that " ++
        "have been downloaded from or provided by Veritas").toList), tr)
    else (none, tr)

/-- Go `verifySign(rpmFile)`. -/
def verifySign (w : World) (tr : List Call) (rpmFile : Str) : Option Str × List Call :=
  let r := w.exec tr "rpm".toList ["-Kv".toList, rpmFile]
  let tr := tr ++ [Call.exec "rpm".toList ["-Kv".toList, rpmFile]]
  match r.2 with
  | some err =>
    (some ("Signature validation failed for ".toList ++ rpmFile ++
      (". Only install updates that have been downloaded from or provided by " ++
        "Veritas. Error ").toList ++ err), tr)
  | none => (none, tr)

/-- Go `validateSignature(rpmFile)`. -/
def validateSignature (w : World) (rpmFile : Str) (tr : List Call) : Option Str × List Call :=
  let f := fileExists w tr rpmFile
  match f.1 with
  | some err => (some err, f.2)
  | none =>
    let s := isSigned w f.2 rpmFile
    match s.1 with
    | some err => (some err, s.2)
    | none =>
      let v := verifySign w s.2 rpmFile
      match v.1 with
      | some err => (some err, v.2)
      | none => (none, v.2)

/-! ## repo/remove.go -/

/-- Go `Remove(swName, swType, swRepo)`. -/
def Remove (w : World) (swName swType swRepo : Str) (tr : List Call) :
    Option Str × List Call :=
  if swRepo = [] then
    (some ("Unable to remove ".toList ++ swType ++ " software ".toList ++ swName ++
      ". Failed to determine software repository.".toList), tr)
  else if swName ≠ [] ∧ swType = [] then
    (some ("Invalid usage. Software type must be specified when software name " ++
      "is specified.").toList, tr)
  else
    let absSwPath := w.Clean (swRepo ++ "/".toList ++ w.ToLower swType ++ "/".toList ++ swName)
    let tr1 := tr ++ [Call.stat absSwPath]
    match w.stat tr absSwPath with
    | StatResult.ok =>
      let tr2 := tr1 ++ [Call.removeAll absSwPath]
      match w.removeAll tr1 absSwPath with
      | some _ =>
        (some ("Failed to remove ".toList ++ swType ++ " software ".toList ++ swName ++
          ".".toList), tr2)
      | none => (none, tr2)
    | _ =>
      (some ("Unable to remove ".toList ++ swType ++ " software ".toList ++ swName ++
        ". Specified software not found.".toList), tr1)

/-! ## Specification vocabulary for the records and the operations -/

/-- A string with no white space at its start and none at its end. -/
def Trimmed (s : Str) : Prop :=
  (∀ c, s.head? = some c → unicodeIsSpace c = false) ∧
    (∀ c, s.getLast? = some c → unicodeIsSpace c = false)

/-- The shape of the keys that `ParseMetaData` can store: the empty string, or a
trimmed string without colon that starts with a word character. -/
def KeyShaped (k : Str) : Prop :=
  k = [] ∨ ((∃ c rest, k = c :: rest ∧ perlWord c = true) ∧ ':' ∉ k ∧ Trimmed k)

/-- The two assignments made when an entry of the V2 compatibility list is
selected (`list.go` 349-350 and 356-357). -/
def applyEntry (listData : v2RPMInfo) (vInfo : V2VersionEntry) : v2RPMInfo :=
  { listData with stages := vInfo.stages, matchedVersion := vInfo.Version }

/-- Whether the run of the plugin type `pluginType` succeeds after the calls of
`tr`. -/
def stageOk (w : World) (tr : List Call) (pluginType library : Str) : Bool :=
  (w.pmRun tr pluginType library).2.isNone

/-- The run status written by the run of `pluginType` after the calls of `tr`. -/
def stageEntry (w : World) (tr : List Call) (pluginType library : Str) : RunStatus :=
  (w.pmRun tr pluginType library).1

/-- Whether `systemctl reboot` succeeds after the calls of `tr`. -/
def rebootOk (w : World) (tr : List Call) : Bool :=
  (w.exec tr "systemctl".toList ["reboot".toList]).2.isNone

/-! ## Specification vocabulary for the direct path -/

/-- The command line of the script run by `runCmdFromRPM` for a record. -/
def scriptCall (w : World) (action swType : Str) (rpmInfo : RPMInfo) : Call :=
  Call.exec "/bin/sh".toList [scriptOf action swType rpmInfo, "-output-file".toList,
    w.outputFile, "-output-format".toList, w.outputFormat]

/-- The package-manager commands that precede `rpm -Uvh` in an `install`, from
the trace `tr`: the query `rpm -q name`, and `rpm -e name` when the query
succeeds. -/
def cleanupCalls (w : World) (tr : List Call) (name : Str) : List Call :=
  Call.exec rpmCmd ["-q".toList, name] ::
    (if (w.exec tr rpmCmd ["-q".toList, name]).2.isNone then
      [Call.exec rpmCmd ["-e".toList, name]] else [])

/-- The package-manager commands that precede the script of an `install`: those
of `cleanupCalls`, then `rpm -Uvh path`. -/
def installCalls (w : World) (tr : List Call) (name path : Str) : List Call :=
  cleanupCalls w tr name ++ [Call.exec rpmCmd ["-Uvh".toList, path]]

/-! ## Sample environments -/

/-- The format with each `%v` replaced by the next operand, which is the text of
`fmt.Errorf` for a format that holds no other `%` and as many `%v` as there are
operands. -/
def substOperands : Str → List Str → Str
  | [], _ => []
  | '%' :: 'v' :: rest, a :: operands => a ++ substOperands rest operands
  | c :: rest, operands => c :: substOperands rest operands

/-- An environment in which the plugin types of `failPlugins` fail, the command
lines of `failExec` fail, every path exists and `listRepo` finds `files`. The
run status of a stage records the plugin type in `StdOutErr`; the error texts
are those of `substOperands`. -/
def sampleWorld (failPlugins : List Str) (failExec : List (List Str)) (files : List Str) :
    World where
  pmRun := fun _ pluginType _ =>
    if pluginType ∈ failPlugins then (⟨dStatusFail, pluginType⟩, some "exit status 1".toList)
    else (⟨dStatusOk, pluginType⟩, none)
  exec := fun _ cmd args =>
    if (cmd :: args) ∈ failExec then ([], some "exit status 1".toList) else ([], none)
  stat := fun _ _ => StatResult.ok
  listRepo := fun _ _ => (files, none)
  removeAll := fun _ _ => none
  Clean := fun path => path
  ToLower := fun text => text.map Char.toLower
  Errorf := substOperands
  outputFile := "out".toList
  outputFormat := "yaml".toList

/-- Collaborators for one V1 package `pkg` of version `1.2` whose `VersionInfo`
decodes to the single entry `1.0`. -/
def sampleExternals : Externals where
  GetRPMPackageInfo := fun _ => ("Version : 1.2\nVersionInfo : x".toList, none)
  jsonUnmarshal := fun _ => ([⟨"1.0".toList, "no".toList, "0".toList, "5".toList, "0".toList⟩], none)
  yamlUnmarshalInfo := fun _ d => d
  yamlUnmarshalCompat := fun _ => []
  Base := fun file => file

/-! # Properties -/

/-! ## `Compare` -/

theorem getD_eq_star_iff (l : List Str) (j : Nat) :
    l.getD j "0".toList = "*".toList ↔ l[j]? = some "*".toList := by
  rw [List.getD_eq_getElem?_getD]
  cases l[j]? with
  | none => simp
  | some x => simp

theorem compareLoop_iff (pn vn : List Str) (k : Nat) : ∀ i : Nat,
    compareLoop pn vn k i = true ↔
      ∀ j, i ≤ j → j < i + k →
        (∀ l, i ≤ l → l ≤ j → vn.getD l "0".toList ≠ "*".toList) →
        pn.getD j "0".toList = vn.getD j "0".toList := by
  induction k with
  | zero =>
    intro i
    simp only [compareLoop, true_iff]
    intro j h1 h2
    omega
  | succ k ih =>
    intro i
    unfold compareLoop
    by_cases hstar : vn.getD i "0".toList = "*".toList
    · simp only [hstar, if_true, true_iff]
      intro j h1 _ h3
      exact absurd hstar (h3 i (Nat.le_refl i) h1)
    · by_cases hne : pn.getD i "0".toList = vn.getD i "0".toList
      · simp only [hstar, if_false, hne, ne_eq, not_true_eq_false]
        rw [ih (i + 1)]
        constructor
        · intro h j h1 h2 h3
          rcases Nat.eq_or_lt_of_le h1 with heq | hlt
          · subst heq; exact hne
          · exact h j hlt (by omega) (fun l hl1 hl2 => h3 l (by omega) hl2)
        · intro h j h1 h2 h3
          refine h j (by omega) (by omega) (fun l hl1 hl2 => ?_)
          rcases Nat.eq_or_lt_of_le hl1 with heq | hlt
          · subst heq; exact hstar
          · exact h3 l hlt hl2
      · simp only [hstar, if_false, ne_eq, hne, not_false_eq_true, if_true]
        constructor
        · intro h; cases h
        · intro h
          exact absurd (h i (Nat.le_refl i) (by omega)
            (fun l hl1 hl2 => by
              have : l = i := by omega
              subst this; exact hstar)) hne

theorem compareLoop_self (l : List Str) (k : Nat) : ∀ i : Nat, compareLoop l l k i = true := by
  induction k with
  | zero => intro i; rfl
  | succ k ih =>
    intro i
    unfold compareLoop
    by_cases hstar : l.getD i "0".toList = "*".toList
    · simp only [hstar, if_true]
    · simp only [hstar, if_false, ne_eq, not_true_eq_false]
      exact ih (i + 1)

/-- C1. `Compare p pat` is true exactly when, with both strings split on `.` and
missing segments read as `"0"`, the product segment equals the pattern segment at
every position `i` below the larger segment count such that no pattern segment at
a position `≤ i` is `"*"` (the positions before the first `"*"` segment). -/
theorem Compare_iff (p pat : Str) :
    Compare p pat = true ↔
      ∀ i, i < max (Split p '.').length (Split pat '.').length →
        (∀ j, j ≤ i → (Split pat '.')[j]? ≠ some "*".toList) →
        (Split p '.').getD i "0".toList = (Split pat '.').getD i "0".toList := by
  have hmax : (if (Split pat '.').length > (Split p '.').length then (Split pat '.').length
      else (Split p '.').length) = max (Split p '.').length (Split pat '.').length := by
    split <;> omega
  unfold Compare
  simp only [hmax]
  rw [compareLoop_iff]
  constructor
  · intro h i hi hs
    refine h i (Nat.zero_le i) (by omega) (fun l _ hl2 hl => ?_)
    exact hs l hl2 ((getD_eq_star_iff _ _).1 hl)
  · intro h j _ hj hs
    refine h j (by omega) (fun l hl hl2 => ?_)
    exact hs l (Nat.zero_le l) hl ((getD_eq_star_iff _ _).2 hl2)

/-- C2. `Compare v v` is true for every string `v`. -/
theorem Compare_self (v : Str) : Compare v v = true := by
  unfold Compare
  exact compareLoop_self _ _ _

/-! ## `validateVersion` -/

theorem duplicateLoop_iff (arr : List V1VersionInfo) : ∀ versionSet : List Str,
    duplicateLoop arr versionSet = true ↔
      (¬ (arr.map V1VersionInfo.Version).Nodup ∨ ∃ x, x ∈ arr ∧ x.Version ∈ versionSet) := by
  induction arr with
  | nil => intro versionSet; simp [duplicateLoop]
  | cons a rest ih =>
    intro versionSet
    unfold duplicateLoop
    by_cases hmem : a.Version ∈ versionSet
    · simp only [hmem, if_true, true_iff]
      exact Or.inr ⟨a, List.mem_cons_self _ _, hmem⟩
    · simp only [hmem, if_false]
      rw [ih]
      simp only [List.map_cons, List.nodup_cons, List.mem_map, List.mem_cons, not_and_or,
        not_not]
      constructor
      · rintro (h | ⟨x, hx, hx2 | hx2⟩)
        · exact Or.inl (Or.inr h)
        · exact Or.inl (Or.inl ⟨x, hx, hx2⟩)
        · exact Or.inr ⟨x, Or.inr hx, hx2⟩
      · rintro ((⟨x, hx, hx2⟩ | h) | ⟨x, hx | hx, hx2⟩)
        · exact Or.inr ⟨x, hx, Or.inl hx2⟩
        · exact Or.inl h
        · subst hx; exact absurd hx2 hmem
        · exact Or.inr ⟨x, hx, Or.inr hx2⟩

theorem duplicateLoop_nil_iff (arr : List V1VersionInfo) :
    duplicateLoop arr [] = true ↔ ¬ (arr.map V1VersionInfo.Version).Nodup := by
  rw [duplicateLoop_iff]
  simp

theorem getLast?_cons_getD {α : Type} (a d : α) (l : List α) :
    ((a :: l).getLast?).getD d = (l.getLast?).getD a := by
  cases l with
  | nil => rfl
  | cons b l =>
    rw [List.getLast?_cons_cons]
    cases h : (b :: l).getLast? with
    | none => simp at h
    | some x => rfl

/-- The second loop of `validateVersion` computes an exact-match scan followed by
a scan keeping the last entry that `Compare` accepts. -/
theorem scanLoop_eq (pv : Str) (arr : List V1VersionInfo) : ∀ info : V1VersionInfo,
    scanLoop pv arr info =
      match arr.find? (fun e => decide (pv = e.Version)) with
      | some e => ScanExit.returned e
      | none => ScanExit.completed
          (((arr.filter (fun e => Compare pv e.Version)).getLast?).getD info) := by
  induction arr with
  | nil => intro info; rfl
  | cons a rest ih =>
    intro info
    unfold scanLoop
    by_cases hex : pv = a.Version
    · simp [hex]
    · by_cases hc : Compare pv a.Version = true
      · simp only [hex, if_false, hc, if_true, List.find?_cons, decide_False, List.filter_cons]
        rw [ih a, getLast?_cons_getD]
      · simp only [hex, if_false, hc, List.find?_cons, decide_False, List.filter_cons]
        rw [ih info]
        rfl

theorem getLast?_filter_some {α : Type} (p : α → Bool) (x : α) : ∀ l : List α,
    (l.filter p).getLast? = some x →
      ∃ pre post, l = pre ++ x :: post ∧ p x = true ∧ ∀ y, y ∈ post → p y = false := by
  intro l
  induction l using List.reverseRecOn with
  | nil => intro h; simp at h
  | append_singleton init a ih =>
    intro h
    rw [List.filter_append] at h
    by_cases hp : p a = true
    · have hf : List.filter p [a] = [a] := by simp [hp]
      rw [hf, List.getLast?_concat] at h
      cases h
      exact ⟨init, [], rfl, hp, by simp⟩
    · have hf : List.filter p [a] = [] := by simp [hp]
      rw [hf, List.append_nil] at h
      obtain ⟨pre, post, h1, h2, h3⟩ := ih h
      refine ⟨pre, post ++ [a], by simp [h1], h2, ?_⟩
      intro y hy
      rcases List.mem_append.1 hy with hy | hy
      · exact h3 y hy
      · simp at hy; subst hy; simpa using hp

theorem validateVersion_of_nodup (pv : Str) (arr : List V1VersionInfo)
    (hnd : (arr.map V1VersionInfo.Version).Nodup) :
    validateVersion pv arr =
      match scanLoop pv arr V1VersionInfo.zero with
      | ScanExit.returned versionInfo => (versionInfo, none)
      | ScanExit.completed info =>
        if info = V1VersionInfo.zero then (V1VersionInfo.zero, some (incompatibleError pv))
        else (info, none) := by
  have hd : duplicateLoop arr [] = false := by
    cases h : duplicateLoop arr [] with
    | false => rfl
    | true => exact absurd hnd ((duplicateLoop_nil_iff arr).1 h)
  unfold validateVersion
  simp only [hd]
  rfl

/-- C3. When two entries of the list carry the same `Version`, `validateVersion`
returns the zero-value entry together with an error, for every product version
and whatever the entries are. -/
theorem validateVersion_duplicate (pv : Str) (arr : List V1VersionInfo)
    (hdup : ¬ (arr.map V1VersionInfo.Version).Nodup) :
    validateVersion pv arr = (V1VersionInfo.zero, some (incompatibleError pv)) := by
  unfold validateVersion
  simp only [(duplicateLoop_nil_iff arr).2 hdup, if_true]

theorem validateVersion_duplicate_witness :
    ¬ (([⟨"1.0.0".toList, "yes".toList, [], [], []⟩, ⟨"1.0.0".toList, "no".toList, [], [], []⟩,
        ⟨"1.0.1.*".toList, [], [], [], []⟩] : List V1VersionInfo).map
        V1VersionInfo.Version).Nodup ∧
    validateVersion "1.0.0".toList
      [⟨"1.0.0".toList, "yes".toList, [], [], []⟩, ⟨"1.0.0".toList, "no".toList, [], [], []⟩,
        ⟨"1.0.1.*".toList, [], [], [], []⟩] =
      (V1VersionInfo.zero, some (incompatibleError "1.0.0".toList)) :=
  ⟨by decide, validateVersion_duplicate _ _ (by decide)⟩

/-- C4. On a list without duplicate versions: an entry whose `Version` is
string-equal to the product version is returned without error, wherever it
stands; when no entry is string-equal and `validateVersion` succeeds, the entry
returned is the last one in list order that `Compare` accepts; and the loop of
the code computes an exact-match scan followed by a last-match-wins scan. -/
theorem validateVersion_selects (pv : Str) (arr : List V1VersionInfo)
    (hnd : (arr.map V1VersionInfo.Version).Nodup) :
    (∀ e, e ∈ arr → e.Version = pv → validateVersion pv arr = (e, none)) ∧
    ((∀ e, e ∈ arr → e.Version ≠ pv) → ∀ info, validateVersion pv arr = (info, none) →
      ∃ pre post, arr = pre ++ info :: post ∧ Compare pv info.Version = true ∧
        ∀ x, x ∈ post → Compare pv x.Version = false) ∧
    (∀ info0, scanLoop pv arr info0 =
      match arr.find? (fun e => decide (pv = e.Version)) with
      | some e => ScanExit.returned e
      | none => ScanExit.completed
          (((arr.filter (fun e => Compare pv e.Version)).getLast?).getD info0)) := by
  refine ⟨?_, ?_, scanLoop_eq pv arr⟩
  · intro e he hev
    rw [validateVersion_of_nodup pv arr hnd, scanLoop_eq]
    cases hf : arr.find? (fun e => decide (pv = e.Version)) with
    | none =>
      have := List.find?_eq_none.1 hf e he
      simp [hev] at this
    | some e2 =>
      have h1 : e2 ∈ arr := List.mem_of_find?_eq_some hf
      have h2 : pv = e2.Version := by simpa using List.find?_some hf
      have : e2 = e := List.inj_on_of_nodup_map hnd h1 he (by rw [← h2, hev])
      simp [this]
  · intro hnone info hres
    rw [validateVersion_of_nodup pv arr hnd, scanLoop_eq] at hres
    have hf : arr.find? (fun e => decide (pv = e.Version)) = none := by
      rw [List.find?_eq_none]
      intro x hx
      simpa using fun h => hnone x hx h.symm
    rw [hf] at hres
    simp only at hres
    split at hres
    · simp at hres
    · rename_i hz
      cases hl : (arr.filter (fun e => Compare pv e.Version)).getLast? with
      | none => rw [hl] at hz; exact absurd rfl hz
      | some y =>
        rw [hl] at hres
        simp only [Option.getD_some, Prod.mk.injEq, and_true] at hres
        subst hres
        exact getLast?_filter_some (fun e => Compare pv e.Version) y arr hl

theorem validateVersion_selects_witness :
    (([⟨"1.0.1.*".toList, "a".toList, [], [], []⟩, ⟨"1.0.1.1".toList, "b".toList, [], [], []⟩] :
        List V1VersionInfo).map V1VersionInfo.Version).Nodup ∧
    validateVersion "1.0.1.1".toList
      [⟨"1.0.1.*".toList, "a".toList, [], [], []⟩, ⟨"1.0.1.1".toList, "b".toList, [], [], []⟩] =
      (⟨"1.0.1.1".toList, "b".toList, [], [], []⟩, none) :=
  ⟨by decide, (validateVersion_selects "1.0.1.1".toList
      [⟨"1.0.1.*".toList, "a".toList, [], [], []⟩, ⟨"1.0.1.1".toList, "b".toList, [], [], []⟩]
      (by decide)).1 ⟨"1.0.1.1".toList, "b".toList, [], [], []⟩ (by decide) rfl⟩

/-- C5 (the code at the failing input). The list holding the single zero-value
entry has no duplicate, `Compare` accepts that entry for the product version
`".0"`, and `validateVersion` nevertheless returns the error; for the product
version `""` the same list succeeds. -/
theorem validateVersion_zero_entry :
    (([V1VersionInfo.zero] : List V1VersionInfo).map V1VersionInfo.Version).Nodup ∧
    Compare ".0".toList V1VersionInfo.zero.Version = true ∧
    validateVersion ".0".toList [V1VersionInfo.zero] =
      (V1VersionInfo.zero, some (incompatibleError ".0".toList)) ∧
    validateVersion [] [V1VersionInfo.zero] = (V1VersionInfo.zero, none) := by
  decide

/-! ## Regular expressions: the matcher against the denotation -/

theorem Regex.nullable_iff (r : Regex) : r.nullable = true ↔ r.Matches [] := by
  induction r with
  | empty => simp [Regex.nullable, Regex.Matches]
  | eps => simp [Regex.nullable, Regex.Matches]
  | cls p => simp [Regex.nullable, Regex.Matches]
  | seq r s ihr ihs =>
    simp only [Regex.nullable, Regex.Matches, Bool.and_eq_true, ihr, ihs]
    constructor
    · rintro ⟨h1, h2⟩
      exact ⟨[], [], rfl, h1, h2⟩
    · rintro ⟨a, b, hab, h1, h2⟩
      obtain ⟨rfl, rfl⟩ := List.nil_eq_append_iff.1 hab
      exact ⟨h1, h2⟩
  | alt r s ihr ihs => simp only [Regex.nullable, Regex.Matches, Bool.or_eq_true, ihr, ihs]
  | star r _ =>
    simp only [Regex.nullable, Regex.Matches, true_iff]
    exact ⟨[], rfl, by simp⟩

theorem Regex.star_cons_iff (r : Regex) (c : Char) (x : Str) :
    (Regex.star r).Matches (c :: x) ↔
      ∃ a b, x = a ++ b ∧ r.Matches (c :: a) ∧ (Regex.star r).Matches b := by
  constructor
  · rintro ⟨L, hL, hall⟩
    induction L with
    | nil => simp at hL
    | cons y L ih =>
      cases y with
      | nil =>
        exact ih (by simpa using hL) (fun z hz => hall z (List.mem_cons_of_mem _ hz))
      | cons d y =>
        simp only [List.flatten_cons, List.cons_append, List.cons.injEq] at hL
        obtain ⟨rfl, rfl⟩ := hL
        exact ⟨y, L.flatten, rfl, hall _ (List.mem_cons_self _ _),
          L, rfl, fun z hz => hall z (List.mem_cons_of_mem _ hz)⟩
  · rintro ⟨a, b, rfl, ha, L, rfl, hall⟩
    refine ⟨(c :: a) :: L, by simp, ?_⟩
    intro z hz
    rcases List.mem_cons.1 hz with rfl | hz
    · exact ha
    · exact hall z hz

theorem Regex.deriv_iff (r : Regex) (c : Char) : ∀ x : Str,
    (r.deriv c).Matches x ↔ r.Matches (c :: x) := by
  induction r with
  | empty => intro x; simp [Regex.deriv, Regex.Matches]
  | eps => intro x; simp [Regex.deriv, Regex.Matches]
  | cls p =>
    intro x
    by_cases hp : p c = true
    · simp only [Regex.deriv, hp, if_true, Regex.Matches, List.cons.injEq]
      constructor
      · rintro rfl; exact ⟨c, ⟨rfl, rfl⟩, hp⟩
      · rintro ⟨d, ⟨_, h⟩, _⟩; exact h
    · simp only [Regex.deriv, hp, Regex.Matches, false_iff]
      rintro ⟨d, hd, hpd⟩
      simp only [List.cons.injEq] at hd
      exact hp (hd.1 ▸ hpd)
  | seq r s ihr ihs =>
    intro x
    have key : (∃ a b, x = a ++ b ∧ (r.deriv c).Matches a ∧ s.Matches b) ∨
        (r.Matches [] ∧ (s.deriv c).Matches x) ↔ (Regex.seq r s).Matches (c :: x) := by
      simp only [Regex.Matches]
      constructor
      · rintro (⟨a, b, rfl, ha, hb⟩ | ⟨h1, h2⟩)
        · exact ⟨c :: a, b, rfl, (ihr a).1 ha, hb⟩
        · exact ⟨[], c :: x, rfl, h1, (ihs x).1 h2⟩
      · rintro ⟨a, b, hab, ha, hb⟩
        rcases List.cons_eq_append_iff.1 hab with ⟨rfl, rfl⟩ | ⟨a2, rfl, rfl⟩
        · exact Or.inr ⟨ha, (ihs x).2 hb⟩
        · exact Or.inl ⟨a2, b, rfl, (ihr a2).2 ha, hb⟩
    rw [← key]
    by_cases hn : r.nullable = true
    · simp only [Regex.deriv, hn, if_true, Regex.Matches, (Regex.nullable_iff r).1 hn, true_and]
    · have hn2 : ¬ r.Matches [] := fun h => hn ((Regex.nullable_iff r).2 h)
      simp only [Regex.deriv, hn, Regex.Matches, hn2, false_and, or_false]
  | alt r s ihr ihs => intro x; simp only [Regex.deriv, Regex.Matches, ihr, ihs]
  | star r ih =>
    intro x
    rw [Regex.star_cons_iff]
    simp only [Regex.deriv]
    constructor
    · rintro ⟨a, b, hab, ha, hb⟩
      exact ⟨a, b, hab, (ih a).1 ha, hb⟩
    · rintro ⟨a, b, hab, ha, hb⟩
      exact ⟨a, b, hab, (ih a).2 ha, hb⟩

/-- The matcher answers `true` exactly when an initial part of the text is in
the denotation of the expression. -/
theorem MatchString_iff (x : Str) : ∀ r : Regex,
    MatchString r x = true ↔ ∃ a b, x = a ++ b ∧ r.Matches a := by
  induction x with
  | nil =>
    intro r
    simp only [MatchString, Regex.nullable_iff]
    constructor
    · intro h; exact ⟨[], [], rfl, h⟩
    · rintro ⟨a, b, hab, h⟩
      obtain ⟨rfl, rfl⟩ := List.nil_eq_append_iff.1 hab
      exact h
  | cons c x ih =>
    intro r
    simp only [MatchString, Bool.or_eq_true, Regex.nullable_iff, ih]
    constructor
    · rintro (h | ⟨a, b, rfl, h⟩)
      · exact ⟨[], c :: x, rfl, h⟩
      · exact ⟨c :: a, b, rfl, (Regex.deriv_iff r c a).1 h⟩
    · rintro ⟨a, b, hab, h⟩
      rcases List.cons_eq_append_iff.1 hab with ⟨rfl, rfl⟩ | ⟨a2, rfl, rfl⟩
      · exact Or.inl h
      · exact Or.inr ⟨a2, b, rfl, (Regex.deriv_iff r c a2).2 h⟩

/-! ## The pattern of `ParseMetaData` -/

theorem Regex.star_forall (r : Regex) (q : Char → Prop)
    (h : ∀ y, r.Matches y → ∀ c, c ∈ y → q c) (x : Str) (hx : (Regex.star r).Matches x) :
    ∀ c, c ∈ x → q c := by
  obtain ⟨L, rfl, hall⟩ := hx
  intro c hc
  obtain ⟨y, hy, hcy⟩ := List.mem_flatten.1 hc
  exact h y (hall y hy) c hcy

theorem Regex.star_of_singletons (r : Regex) (x : Str) (h : ∀ c, c ∈ x → r.Matches [c]) :
    (Regex.star r).Matches x := by
  induction x with
  | nil => exact ⟨[], rfl, by simp⟩
  | cons c x ih =>
    obtain ⟨L, hL, hall⟩ := ih (fun d hd => h d (List.mem_cons_of_mem _ hd))
    refine ⟨[c] :: L, by simp [hL], ?_⟩
    intro y hy
    rcases List.mem_cons.1 hy with rfl | hy
    · exact h c (List.mem_cons_self _ _)
    · exact hall y hy

theorem Regex.cls_forall (p : Char → Bool) (y : Str) (h : (Regex.cls p).Matches y) :
    ∀ c, c ∈ y → p c = true := by
  obtain ⟨d, rfl, hd⟩ := h
  intro c hc
  simp only [List.mem_singleton] at hc
  exact hc ▸ hd

/-- The pattern matches an initial part of a line exactly when the line is a key
line: a word character, then word and `\s` characters only, then a colon. -/
theorem MatchString_pattern_iff (line : Str) :
    MatchString pattern line = true ↔ IsKeyLine line := by
  rw [MatchString_iff]
  constructor
  · rintro ⟨a, b, rfl, h⟩
    unfold pattern at h
    obtain ⟨a1, a2, rfl, ⟨w1, w2, rfl, ⟨c, rfl, hc⟩, hw2⟩, m, t, rfl, hm, sp, col, rfl, hsp,
      ⟨d, rfl, hd⟩⟩ := h
    have hd2 : d = ':' := by simpa using hd
    subst hd2
    refine ⟨c, w2 ++ m ++ sp, b, by simp, hc, ?_⟩
    intro e he
    rcases List.mem_append.1 he with he | he
    · rcases List.mem_append.1 he with he | he
      · exact Or.inl (Regex.star_forall _ (fun e => perlWord e = true)
          (Regex.cls_forall perlWord) w2 hw2 e he)
      · refine Regex.star_forall _ (fun e => perlWord e = true ∨ perlSpace e = true) ?_ m hm e he
        rintro y ⟨y1, y2, rfl, hy1, hy2⟩ e he
        rcases List.mem_append.1 he with he | he
        · exact Or.inr (Regex.star_forall _ (fun e => perlSpace e = true)
            (Regex.cls_forall perlSpace) y1 hy1 e he)
        · exact Or.inl (Regex.star_forall _ (fun e => perlWord e = true)
            (Regex.cls_forall perlWord) y2 hy2 e he)
    · exact Or.inr (Regex.star_forall _ (fun e => perlSpace e = true)
        (Regex.cls_forall perlSpace) sp hsp e he)
  · rintro ⟨c, mid, post, rfl, hc, hmid⟩
    refine ⟨c :: mid ++ [':'], post, by simp, ?_⟩
    unfold pattern
    refine ⟨[c], mid ++ [':'], by simp, ⟨[c], [], rfl, ⟨c, rfl, hc⟩, ⟨[], rfl, by simp⟩⟩,
      mid, [':'], rfl, ?_, [], [':'], rfl, ⟨[], rfl, by simp⟩, ⟨':', rfl, by simp⟩⟩
    apply Regex.star_of_singletons
    intro d hd
    rcases hmid d hd with h | h
    · exact ⟨[], [d], rfl, ⟨[], rfl, by simp⟩,
        Regex.star_of_singletons _ [d] (fun e he => by
          simp only [List.mem_singleton] at he
          exact ⟨e, rfl, he ▸ h⟩)⟩
    · exact ⟨[d], [], rfl,
        Regex.star_of_singletons _ [d] (fun e he => by
          simp only [List.mem_singleton] at he
          exact ⟨e, rfl, he ▸ h⟩), ⟨[], rfl, by simp⟩⟩

/-! ## `strings.Split`, `strings.Join`, `strings.TrimSpace` -/

theorem splitAux_ne_nil (sep : Char) (s : Str) : ∀ cur : Str, splitAux sep s cur ≠ [] := by
  induction s with
  | nil => intro cur; simp [splitAux]
  | cons c cs ih =>
    intro cur
    unfold splitAux
    split
    · simp
    · exact ih _

theorem splitAux_append (sep : Char) (a b : Str) (h : sep ∉ a) : ∀ cur : Str,
    splitAux sep (a ++ sep :: b) cur = (cur.reverse ++ a) :: splitAux sep b [] := by
  induction a with
  | nil => intro cur; simp [splitAux]
  | cons c a ih =>
    intro cur
    have hc : c ≠ sep := fun e => h (e ▸ List.mem_cons_self _ _)
    have ha : sep ∉ a := fun e => h (List.mem_cons_of_mem _ e)
    rw [List.cons_append, splitAux, if_neg hc, ih ha]
    simp

theorem Split_append (sep : Char) (a b : Str) (h : sep ∉ a) :
    Split (a ++ sep :: b) sep = a :: Split b sep := by
  unfold Split
  rw [splitAux_append sep a b h]
  simp

theorem Join_cons_of_ne_nil (sep : Char) (p : Str) (l : List Str) (h : l ≠ []) :
    Join (p :: l) sep = p ++ sep :: Join l sep := by
  cases l with
  | nil => exact absurd rfl h
  | cons q rest => rfl

theorem Join_splitAux (sep : Char) (s : Str) : ∀ cur : Str,
    Join (splitAux sep s cur) sep = cur.reverse ++ s := by
  induction s with
  | nil => intro cur; simp [splitAux, Join]
  | cons c cs ih =>
    intro cur
    unfold splitAux
    split
    · rename_i hc
      rw [Join_cons_of_ne_nil sep _ _ (splitAux_ne_nil sep cs []), ih, hc]
      simp
    · rw [ih]
      simp

/-- Joining the pieces of a split gives the text back. -/
theorem Join_Split (sep : Char) (s : Str) : Join (Split s sep) sep = s := by
  unfold Split
  rw [Join_splitAux]
  simp

theorem takeWhile_ne_append (sep : Char) (a b : Str) (h : sep ∉ a) :
    (a ++ sep :: b).takeWhile (fun c => c ≠ sep) = a := by
  induction a with
  | nil => simp [List.takeWhile]
  | cons c a ih =>
    have hc : c ≠ sep := fun e => h (e ▸ List.mem_cons_self _ _)
    have ha : sep ∉ a := fun e => h (List.mem_cons_of_mem _ e)
    have hd : decide (c ≠ sep) = true := by simpa using hc
    rw [List.cons_append, List.takeWhile_cons]
    simp only [hd]
    rw [ih ha]
    exact if_pos trivial

theorem dropWhile_ne_append (sep : Char) (a b : Str) (h : sep ∉ a) :
    (a ++ sep :: b).dropWhile (fun c => c ≠ sep) = sep :: b := by
  induction a with
  | nil => simp [List.dropWhile]
  | cons c a ih =>
    have hc : c ≠ sep := fun e => h (e ▸ List.mem_cons_self _ _)
    have ha : sep ∉ a := fun e => h (List.mem_cons_of_mem _ e)
    have hd : decide (c ≠ sep) = true := by simpa using hc
    rw [List.cons_append, List.dropWhile_cons]
    simp only [hd]
    rw [if_pos trivial]
    exact ih ha

theorem TrimSpace_of_blank (s : Str) (h : ∀ c, c ∈ s → unicodeIsSpace c = true) :
    TrimSpace s = [] := by
  unfold TrimSpace
  rw [List.dropWhile_eq_nil_iff.2 h]
  rfl

theorem TrimSpace_ne_nil (c : Char) (t : Str) (h : unicodeIsSpace c = false) :
    TrimSpace (c :: t) ≠ [] := by
  unfold TrimSpace
  have h1 : (c :: t).dropWhile unicodeIsSpace = c :: t := by simp [List.dropWhile, h]
  rw [h1]
  intro hnil
  have h2 := List.reverse_eq_nil_iff.1 hnil
  have h3 := List.dropWhile_eq_nil_iff.1 h2 c (by simp)
  rw [h] at h3
  cases h3

theorem perlWord_not_space (c : Char) (h : perlWord c = true) : unicodeIsSpace c = false := by
  cases hs : unicodeIsSpace c with
  | false => rfl
  | true =>
    simp only [perlWord, unicodeIsSpace, Bool.or_eq_true, Bool.and_eq_true,
      decide_eq_true_eq] at h hs
    omega

theorem perlWord_ne_colon (c : Char) (h : perlWord c = true) : c ≠ ':' := by
  rintro rfl
  revert h
  decide

theorem perlSpace_ne_colon (c : Char) (h : perlSpace c = true) : c ≠ ':' := by
  rintro rfl
  revert h
  decide

/-! ## `ParseMetaData` -/

theorem IsKeyLine.decompose (line : Str) (h : IsKeyLine line) :
    ∃ c t post, line = (c :: t) ++ ':' :: post ∧ ':' ∉ c :: t ∧ perlWord c = true := by
  obtain ⟨c, mid, post, rfl, hc, hmid⟩ := h
  refine ⟨c, mid, post, rfl, ?_, hc⟩
  intro hmem
  rcases List.mem_cons.1 hmem with e | e
  · exact perlWord_ne_colon c hc e.symm
  · rcases hmid _ e with h | h
    · exact perlWord_ne_colon _ h rfl
    · exact perlSpace_ne_colon _ h rfl

theorem keyText_ne_nil (line : Str) (h : MatchString pattern line = true) :
    keyText line ≠ [] := by
  obtain ⟨c, t, post, rfl, hcol, hc⟩ := IsKeyLine.decompose line ((MatchString_pattern_iff line).1 h)
  unfold keyText
  rw [takeWhile_ne_append ':' (c :: t) post hcol]
  exact TrimSpace_ne_nil c t (perlWord_not_space c hc)

theorem parseLine_of_match (st : FieldMap × Str) (line : Str)
    (h : MatchString pattern line = true) :
    parseLine st line = (st.1.set (keyText line) (valueText line), keyText line) := by
  obtain ⟨c, t, post, rfl, hcol, _⟩ :=
    IsKeyLine.decompose line ((MatchString_pattern_iff line).1 h)
  have hlen : (Split post ':').length + 1 > 1 := by
    have := List.length_pos.2 (splitAux_ne_nil ':' post [])
    unfold Split
    omega
  unfold parseLine keyText valueText
  rw [if_pos h, takeWhile_ne_append ':' (c :: t) post hcol,
    dropWhile_ne_append ':' (c :: t) post hcol, Split_append ':' (c :: t) post hcol]
  simp only [List.headD_cons, List.length_cons, List.tail_cons, Join_Split, hlen, if_true]

theorem parseLine_of_not_match (st : FieldMap × Str) (line : Str)
    (h : MatchString pattern line = false) :
    parseLine st line = (st.1.set st.2 (st.1.get st.2 ++ TrimSpace line), st.2) := by
  unfold parseLine
  simp [h]

theorem FieldMap.set_self (m : FieldMap) (k v : Str) : (m.set k v) k = some v := by
  simp [FieldMap.set]

theorem FieldMap.set_ne (m : FieldMap) (k v k2 : Str) (h : k2 ≠ k) : (m.set k v) k2 = m k2 := by
  simp [FieldMap.set, h]

theorem FieldMap.set_set (m : FieldMap) (k v w : Str) : (m.set k v).set k w = m.set k w := by
  funext k2
  by_cases h : k2 = k <;> simp [FieldMap.set, h]

theorem FieldMap.get_set_self (m : FieldMap) (k v : Str) : (m.set k v).get k = v := by
  simp [FieldMap.get, FieldMap.set]

theorem parseLines_cons (l : Str) (ls : List Str) (st : FieldMap × Str) :
    parseLines (l :: ls) st = parseLines ls (parseLine st l) := rfl

theorem parseLines_append (ls ls2 : List Str) (st : FieldMap × Str) :
    parseLines (ls ++ ls2) st = parseLines ls2 (parseLines ls st) := by
  unfold parseLines
  rw [List.foldl_append]

/-- A run of continuation lines appends their trimmed contents, in order, to
the value of the active key and leaves the active key as it is. -/
theorem parseLines_continuations (conts : List Str)
    (hc : ∀ l, l ∈ conts → MatchString pattern l = false) : ∀ (m : FieldMap) (key : Str),
    parseLines conts (m, key) =
      (if conts = [] then m else m.set key (m.get key ++ (conts.map TrimSpace).flatten), key) := by
  induction conts with
  | nil => intro m key; rfl
  | cons l ls ih =>
    intro m key
    rw [parseLines_cons, parseLine_of_not_match _ l (hc l (List.mem_cons_self _ _)),
      ih (fun x hx => hc x (List.mem_cons_of_mem _ hx))]
    by_cases hls : ls = []
    · subst hls
      simp
    · simp only [hls, if_false, FieldMap.get_set_self, FieldMap.set_set, List.map_cons,
        List.flatten_cons, List.append_assoc]
      simp

/-- Lines processed while another key is active, none of them a key line for
`k`, leave the field `k` as it is. -/
theorem parseLines_frame (k : Str) (ls : List Str)
    (hk : ∀ l, l ∈ ls → MatchString pattern l = true → keyText l ≠ k) :
    ∀ (m : FieldMap) (key : Str), key ≠ k → (parseLines ls (m, key)).1 k = m k := by
  induction ls with
  | nil => intro m key _; rfl
  | cons l ls ih =>
    intro m key hkey
    have hk2 : ∀ x, x ∈ ls → MatchString pattern x = true → keyText x ≠ k :=
      fun x hx => hk x (List.mem_cons_of_mem _ hx)
    rw [parseLines_cons]
    cases hm : MatchString pattern l with
    | true =>
      have hne : keyText l ≠ k := hk l (List.mem_cons_self _ _) hm
      rw [parseLine_of_match _ l hm, ih hk2 _ _ hne]
      exact FieldMap.set_ne _ _ _ _ hne.symm
    | false =>
      rw [parseLine_of_not_match _ l hm, ih hk2 _ _ hkey]
      exact FieldMap.set_ne _ _ _ _ hkey.symm

/-- The same for lines that are empty or begin with a key line, whatever key is
active at their start. -/
theorem parseLines_frame_head (k : Str) (rest : List Str)
    (hrest : ∀ l, rest.head? = some l → MatchString pattern l = true)
    (hk : ∀ l, l ∈ rest → MatchString pattern l = true → keyText l ≠ k) :
    ∀ (m : FieldMap) (key : Str), (parseLines rest (m, key)).1 k = m k := by
  intro m key
  cases rest with
  | nil => rfl
  | cons r rs =>
    have hm : MatchString pattern r = true := hrest r rfl
    have hne : keyText r ≠ k := hk r (List.mem_cons_self _ _) hm
    rw [parseLines_cons, parseLine_of_match _ r hm,
      parseLines_frame k rs (fun x hx => hk x (List.mem_cons_of_mem _ hx)) _ _ hne]
    exact FieldMap.set_ne _ _ _ _ hne.symm

/-- C8. On a key line the loop body of `ParseMetaData` sets the field named by
the trimmed text before the first colon to the trimmed text after that colon
(later colons included), whatever the map held before, and makes that name the
active key. -/
theorem parseLine_key_line (parsedData : FieldMap) (key line : Str)
    (h : MatchString pattern line = true) :
    parseLine (parsedData, key) line =
      (parsedData.set (keyText line) (valueText line), keyText line) ∧
    (parseLine (parsedData, key) line).1 (keyText line) = some (valueText line) := by
  rw [parseLine_of_match _ line h]
  exact ⟨rfl, FieldMap.set_self _ _ _⟩

theorem parseLine_key_line_witness :
    MatchString pattern "URL : https://x".toList = true ∧
    (parseLine (FieldMap.empty.set "URL".toList "old".toList, "Name".toList)
      "URL : https://x".toList).1 "URL".toList = some "https://x".toList :=
  ⟨by decide, (parseLine_key_line (FieldMap.empty.set "URL".toList "old".toList) "Name".toList
    "URL : https://x".toList (by decide)).2⟩

/-- C9. If the lines of the text are `pre`, a key line `kl`, continuation lines
`conts`, and `rest`, where `rest` is empty or starts with a key line and holds
no key line for the key of `kl`, then the final value of that key is the trimmed
value of `kl` followed by the trimmed contents of `conts`, nothing in between;
a line of white space only is a continuation line whose trimmed content is
empty. -/
theorem ParseMetaData_continuation (metaData : Str) (pre conts rest : List Str) (kl : Str)
    (hsplit : Split metaData '\n' = pre ++ kl :: (conts ++ rest))
    (hkl : MatchString pattern kl = true)
    (hconts : ∀ l, l ∈ conts → MatchString pattern l = false)
    (hrest : ∀ l, rest.head? = some l → MatchString pattern l = true)
    (hlast : ∀ l, l ∈ rest → MatchString pattern l = true → keyText l ≠ keyText kl) :
    ParseMetaData metaData (keyText kl) =
      some (valueText kl ++ (conts.map TrimSpace).flatten) ∧
    (∀ l : Str, (∀ c, c ∈ l → unicodeIsSpace c = true) →
      MatchString pattern l = false ∧ TrimSpace l = []) := by
  constructor
  · unfold ParseMetaData
    rw [hsplit, parseLines_append, parseLines_cons, parseLine_of_match _ kl hkl,
      parseLines_append, parseLines_continuations conts hconts,
      parseLines_frame_head (keyText kl) rest hrest hlast]
    by_cases hc : conts = []
    · subst hc
      simp [FieldMap.set_self]
    · simp only [hc, if_false, FieldMap.get_set_self, FieldMap.set_self]
  · intro l hl
    refine ⟨?_, TrimSpace_of_blank l hl⟩
    cases hm : MatchString pattern l with
    | false => rfl
    | true =>
      obtain ⟨c, t, post, rfl, _, hc⟩ :=
        IsKeyLine.decompose l ((MatchString_pattern_iff l).1 hm)
      have h1 := hl c (by simp)
      rw [perlWord_not_space c hc] at h1
      cases h1

theorem ParseMetaData_continuation_witness :
    ParseMetaData "Name : foo\nDescription :\nline one\n\nline two\nType:Upgrade".toList
      "Description".toList = some "line oneline two".toList :=
  (ParseMetaData_continuation
    "Name : foo\nDescription :\nline one\n\nline two\nType:Upgrade".toList
    ["Name : foo".toList] ["line one".toList, [], "line two".toList] ["Type:Upgrade".toList]
    "Description :".toList (by decide) (by decide) (by decide) (by decide) (by decide)).1

/-- C10 (counterexample). The empty text does not yield the empty map: its one
line is a continuation line and creates the field named `""`; and a continuation
line standing before the first key line is kept under that name. -/
theorem ParseMetaData_leading_not_discarded :
    ParseMetaData [] ≠ FieldMap.empty ∧
    ParseMetaData "junk\nName : foo".toList [] = some "junk".toList := by
  constructor
  · intro h
    have h2 : ParseMetaData [] [] = FieldMap.empty [] := by rw [h]
    revert h2
    decide
  · decide

/-- C10 (amended). If the lines of the text are continuation lines `conts`
followed by `rest`, where `rest` is empty or starts with a key line, then the
field named `""` holds the trimmed contents of `conts` joined without separator
(it is absent only when `conts` is empty); and when `rest` is empty, so that the
text has no key line at all, the map has no other field. -/
theorem ParseMetaData_leading (metaData : Str) (conts rest : List Str)
    (hsplit : Split metaData '\n' = conts ++ rest)
    (hconts : ∀ l, l ∈ conts → MatchString pattern l = false)
    (hrest : ∀ l, rest.head? = some l → MatchString pattern l = true) :
    ParseMetaData metaData [] =
      (if conts = [] then none else some ((conts.map TrimSpace).flatten)) ∧
    (rest = [] → ∀ k : Str, k ≠ [] → ParseMetaData metaData k = none) := by
  constructor
  · unfold ParseMetaData
    rw [hsplit, parseLines_append, parseLines_continuations conts hconts,
      parseLines_frame_head [] rest hrest (fun l _ hm => keyText_ne_nil l hm)]
    by_cases hc : conts = []
    · simp [hc, FieldMap.empty]
    · simp [hc, FieldMap.set_self, FieldMap.get, FieldMap.empty]
  · intro hr k hk
    unfold ParseMetaData
    rw [hsplit, hr, List.append_nil, parseLines_continuations conts hconts]
    by_cases hc : conts = []
    · simp [hc, FieldMap.empty]
    · simp only [hc, if_false]
      rw [FieldMap.set_ne _ _ _ _ hk]
      rfl

theorem ParseMetaData_leading_witness :
    ParseMetaData " first\nsecond \nName : foo\nmore".toList [] = some "firstsecond".toList :=
  (ParseMetaData_leading " first\nsecond \nName : foo\nmore".toList
    [" first".toList, "second ".toList] ["Name : foo".toList, "more".toList]
    (by decide) (by decide) (by decide)).1

/-! ## `ListRPMFilesInfo` -/

theorem listLoop_error (ext : Externals) (pv : Str) (files : List Str) : ∀ info : List RPMInfo,
    (listLoop ext pv files info).2 ≠ none →
      ∃ f, f ∈ files ∧ (ext.GetRPMPackageInfo f).2 ≠ none := by
  induction files with
  | nil => intro info h; exact absurd rfl h
  | cons file rest ih =>
    intro info h
    unfold listLoop at h
    cases hq : (ext.GetRPMPackageInfo file).2 with
    | some e => exact ⟨file, List.mem_cons_self _ _, by rw [hq]; simp⟩
    | none =>
      rw [hq] at h
      obtain ⟨f, hf, hf2⟩ := ih _ h
      exact ⟨f, List.mem_cons_of_mem _ hf, hf2⟩

theorem listLoop_mem (ext : Externals) (pv : Str) (files : List Str) : ∀ (info : List RPMInfo)
    (r : RPMInfo), r ∈ (listLoop ext pv files info).1 →
      r ∈ info ∨ ∃ f, f ∈ files ∧
        r = buildRPMInfo ext f (ParseMetaData (ext.GetRPMPackageInfo f).1) pv := by
  induction files with
  | nil => intro info r h; exact Or.inl h
  | cons file rest ih =>
    intro info r h
    unfold listLoop at h
    cases hq : (ext.GetRPMPackageInfo file).2 with
    | some e =>
      rw [hq] at h
      exact Or.inl h
    | none =>
      rw [hq] at h
      rcases ih _ r h with h1 | ⟨f, hf, hf2⟩
      · rcases List.mem_append.1 h1 with h2 | h2
        · exact Or.inl h2
        · exact Or.inr ⟨file, List.mem_cons_self _ _, by simpa using h2⟩
      · exact Or.inr ⟨f, List.mem_cons_of_mem _ hf, hf2⟩

/-- C6 (the code at the failing input). `ListRPMFilesInfo` returns an error only
when the package query of some file fails, so never because of the
compatibility list; for the package of `duplicateExternals`, whose list holds
the version `1.0` twice, and the product version `1.0` it returns no error and
a record that has selected the second of the two entries. -/
theorem ListRPMFilesInfo_duplicate_v2 :
    (∀ (ext : Externals) (files : List Str) (pv : Str),
      (ListRPMFilesInfo ext files pv).2 ≠ none →
        ∃ f, f ∈ files ∧ (ext.GetRPMPackageInfo f).2 ≠ none) ∧
    ¬ (duplicateEntries.map V2VersionEntry.Version).Nodup ∧
    ListRPMFilesInfo duplicateExternals ["pkg.rpm".toList] "1.0".toList =
      ([RPMInfo.v2
          { Name := "pkg".toList, FileName := "pkg.rpm".toList, Description := [], RPMType := [],
            URL := [], Version := [], Release := [], matchedVersion := "1.0".toList,
            stages := ⟨⟨[], 20, true, false⟩, ⟨[], 0, false⟩, ⟨[], 0⟩⟩ }], none) := by
  refine ⟨fun ext files pv h => listLoop_error ext pv files [] h, by decide, ?_⟩
  decide

/-- C7. The record built for a parsed field map is a V1 record exactly when the
map has no field `ASUM RPM Format Version` and a V2 record exactly when it has
one, whatever its value; a V1 record depends neither on the YAML decoders nor on
the field `RPM Info`; and every record returned by `ListRPMFilesInfo` is built
this way from the parsed metadata of one of the files. -/
theorem buildRPMInfo_shape (ext : Externals) (file : Str) (parsedData : FieldMap) (pv : Str) :
    (parsedData FormatVersionName = none ↔
      buildRPMInfo ext file parsedData pv = RPMInfo.v1 (buildV1 ext file parsedData pv)) ∧
    ((∃ v, parsedData FormatVersionName = some v) ↔
      buildRPMInfo ext file parsedData pv = RPMInfo.v2 (buildV2 ext file parsedData pv)) ∧
    (∀ (yi : Str → v2RPMInfo → v2RPMInfo) (yc : Str → List V2VersionEntry) (rpmInfo : Option Str),
      buildV1 { ext with yamlUnmarshalInfo := yi, yamlUnmarshalCompat := yc } file
          (fun k => if k = "RPM Info".toList then rpmInfo else parsedData k) pv =
        buildV1 ext file parsedData pv) ∧
    (∀ (files : List Str) (r : RPMInfo), r ∈ (ListRPMFilesInfo ext files pv).1 →
      ∃ f, f ∈ files ∧ r = buildRPMInfo ext f (ParseMetaData (ext.GetRPMPackageInfo f).1) pv) := by
  refine ⟨?_, ?_, ?_, ?_⟩
  · unfold buildRPMInfo
    cases h : parsedData FormatVersionName with
    | none => simp
    | some v => simp
  · unfold buildRPMInfo
    cases h : parsedData FormatVersionName with
    | none => simp
    | some v => simp
  · intro yi yc rpmInfo
    have hne : ∀ k : Str, k ≠ "RPM Info".toList →
        FieldMap.get (fun k => if k = "RPM Info".toList then rpmInfo else parsedData k) k =
          FieldMap.get parsedData k := by
      intro k hk
      show (if k = "RPM Info".toList then rpmInfo else parsedData k).getD [] =
        (parsedData k).getD []
      rw [if_neg hk]
    unfold buildV1
    rw [hne _ (by decide), hne _ (by decide), hne _ (by decide), hne _ (by decide),
      hne _ (by decide), hne _ (by decide)]
  · intro files r hr
    rcases listLoop_mem ext pv files [] r hr with h | h
    · simp at h
    · exact h

/-! ## The repository's own test tables, run on the embedding -/

/-- The cases of `TestCompare` (`version_test.go`). -/
theorem TestCompare :
    Compare "2".toList "2".toList = true ∧
    Compare "2".toList "*".toList = true ∧
    Compare "2".toList "3".toList = false ∧
    Compare "2.0".toList "2.0".toList = true ∧
    Compare "2.0".toList "2.*".toList = true ∧
    Compare "2.0".toList "2.2".toList = false ∧
    Compare "1.2.3".toList "1.2.3".toList = true ∧
    Compare "2.0".toList "2.0.0.*".toList = true ∧
    Compare "2.0.0.9".toList "2.0.0.*".toList = true := by
  decide

/-- The cases of `Test_validateVersion` (`version_test.go`): the matched version
and whether an error is returned. -/
theorem Test_validateVersion :
    (validateVersion "1.0.0".toList
      [⟨"1.0.0".toList, [], [], [], []⟩, ⟨"1.0.1.1".toList, [], [], [], []⟩,
        ⟨"1.0.1.*".toList, [], [], [], []⟩]) = (⟨"1.0.0".toList, [], [], [], []⟩, none) ∧
    (validateVersion "1.0.1.1".toList
      [⟨"1.0.0".toList, [], [], [], []⟩, ⟨"1.0.1.1".toList, [], [], [], []⟩,
        ⟨"1.0.1.*".toList, [], [], [], []⟩]) = (⟨"1.0.1.1".toList, [], [], [], []⟩, none) ∧
    (validateVersion "1.0.1".toList
      [⟨"1.0.0".toList, [], [], [], []⟩, ⟨"1.0.1.1".toList, [], [], [], []⟩,
        ⟨"1.0.1.*".toList, [], [], [], []⟩]) = (⟨"1.0.1.*".toList, [], [], [], []⟩, none) ∧
    (validateVersion "1.0.1.".toList
      [⟨"1.0.0".toList, [], [], [], []⟩, ⟨"1.0.1.1".toList, [], [], [], []⟩,
        ⟨"1.0.1.*".toList, [], [], [], []⟩]) = (⟨"1.0.1.*".toList, [], [], [], []⟩, none) ∧
    (validateVersion "1.0.1.2".toList
      [⟨"1.0.0".toList, [], [], [], []⟩, ⟨"1.0.1.1".toList, [], [], [], []⟩,
        ⟨"1.0.1.*".toList, [], [], [], []⟩]) = (⟨"1.0.1.*".toList, [], [], [], []⟩, none) ∧
    (validateVersion "1.0.1.1a".toList
      [⟨"1.0.0".toList, [], [], [], []⟩, ⟨"1.0.1.1".toList, [], [], [], []⟩,
        ⟨"1.0.1.*".toList, [], [], [], []⟩]) = (⟨"1.0.1.*".toList, [], [], [], []⟩, none) ∧
    (validateVersion "1.0.10".toList
      [⟨"1.0.0".toList, [], [], [], []⟩, ⟨"1.0.1.1".toList, [], [], [], []⟩,
        ⟨"1.0.1.*".toList, [], [], [], []⟩]) =
      (V1VersionInfo.zero, some (incompatibleError "1.0.10".toList)) ∧
    (validateVersion "1.0.10".toList
      [⟨"1.0.0".toList, [], [], [], []⟩, ⟨"1.0.0".toList, [], [], [], []⟩,
        ⟨"1.0.1.*".toList, [], [], [], []⟩]) =
      (V1VersionInfo.zero, some (incompatibleError "1.0.10".toList)) := by
  decide

/-- Part of the first case of `Test_ParseMetaData` (`rpm_test.go`): one-line
fields, a value with further colons, a multi-line field and adjacent colons. -/
theorem Test_ParseMetaData :
    ParseMetaData ("Name        : platformx-upgrade\nInstall Date: (not installed)\n" ++
      "URL         : https://www.veritas.com\nDescription :\nPlatform Upgrade Package.\n" ++
      "Type:Upgrade\n").toList "Name".toList = some "platformx-upgrade".toList ∧
    ParseMetaData ("Name        : platformx-upgrade\nInstall Date: (not installed)\n" ++
      "URL         : https://www.veritas.com\nDescription :\nPlatform Upgrade Package.\n" ++
      "Type:Upgrade\n").toList "Install Date".toList = some "(not installed)".toList ∧
    ParseMetaData ("Name        : platformx-upgrade\nInstall Date: (not installed)\n" ++
      "URL         : https://www.veritas.com\nDescription :\nPlatform Upgrade Package.\n" ++
      "Type:Upgrade\n").toList "URL".toList = some "https://www.veritas.com".toList ∧
    ParseMetaData ("Name        : platformx-upgrade\nInstall Date: (not installed)\n" ++
      "URL         : https://www.veritas.com\nDescription :\nPlatform Upgrade Package.\n" ++
      "Type:Upgrade\n").toList "Description".toList = some "Platform Upgrade Package.".toList ∧
    ParseMetaData ("Name        : platformx-upgrade\nInstall Date: (not installed)\n" ++
      "URL         : https://www.veritas.com\nDescription :\nPlatform Upgrade Package.\n" ++
      "Type:Upgrade\n").toList "Type".toList = some "Upgrade".toList := by
  decide

/-- On a list without duplicate versions `validateVersion` returns its error
exactly when no entry is string-equal to the product version and the last entry
accepted by `Compare` is missing or is the zero value. -/
theorem validateVersion_error_iff (pv : Str) (arr : List V1VersionInfo)
    (hnd : (arr.map V1VersionInfo.Version).Nodup) :
    (validateVersion pv arr).2 ≠ none ↔
      (∀ e, e ∈ arr → e.Version ≠ pv) ∧
      ((arr.filter (fun e => Compare pv e.Version)).getLast?).getD V1VersionInfo.zero =
        V1VersionInfo.zero := by
  rw [validateVersion_of_nodup pv arr hnd, scanLoop_eq]
  cases hf : arr.find? (fun e => decide (pv = e.Version)) with
  | some e =>
    have h1 : e ∈ arr := List.mem_of_find?_eq_some hf
    have h2 : pv = e.Version := by simpa using List.find?_some hf
    simp only [ne_eq, not_true_eq_false, false_iff, not_and]
    intro h
    exact absurd h2.symm (h e h1)
  | none =>
    have h1 : ∀ e, e ∈ arr → e.Version ≠ pv := by
      intro e he h
      have := List.find?_eq_none.1 hf e he
      simp [h] at this
    simp only
    split
    · rename_i hz
      exact ⟨fun _ => ⟨h1, hz⟩, fun _ h => by cases h⟩
    · rename_i hz
      exact ⟨fun h => absurd rfl h, fun h => absurd h.2 hz⟩

/-! ## `ParseMetaData` on the fixture block -/

/-- C11 (counterexample). On the fixture block the field `Description` is
`"line oneline two"`: trimming keeps the blank inside `line two`, so the map is
not the one with `"line onelinetwo"`. -/
theorem ParseMetaData_fixture_inner_space :
    ParseMetaData "Name : foo\nDescription :\nline one\nline two\n".toList ≠
      (fun k => if k = "Name".toList then some "foo".toList
        else if k = "Description".toList then some "line onelinetwo".toList else none) := by
  intro h
  have h2 := congrFun h "Description".toList
  revert h2
  decide

/-- C11 (amended). On the fixture block `ParseMetaData` returns exactly the map
with the two fields `Name = "foo"` and `Description = "line oneline two"`. -/
theorem ParseMetaData_fixture :
    ParseMetaData "Name : foo\nDescription :\nline one\nline two\n".toList =
      (fun k => if k = "Name".toList then some "foo".toList
        else if k = "Description".toList then some "line oneline two".toList else none) := by
  funext k
  by_cases h1 : k = "Name".toList
  · subst h1; decide
  · by_cases h2 : k = "Description".toList
    · subst h2; decide
    · by_cases h3 : k = []
      · subst h3; decide
      · have hs : Split "Name : foo\nDescription :\nline one\nline two\n".toList '\n' =
            ["Name : foo".toList, "Description :".toList, "line one".toList,
              "line two".toList, []] := by decide
        have hk : ∀ l, l ∈ ["Name : foo".toList, "Description :".toList, "line one".toList,
            "line two".toList, ([] : Str)] → MatchString pattern l = true →
            keyText l = "Name".toList ∨ keyText l = "Description".toList := by decide
        have hf := parseLines_frame k _ (fun l hl hm => by
          rcases hk l hl hm with e | e
          · rw [e]; exact fun h => h1 h.symm
          · rw [e]; exact fun h => h2 h.symm) FieldMap.empty [] (fun h => h3 h.symm)
        unfold ParseMetaData
        rw [hs, hf]
        simp only [h1, h2, if_false]
        rfl

/-! ## The staged operations -/

/-- C12. When `preinstall` fails, and when `preinstall` succeeds and `install`
fails, `Install` returns `false` with the status `Failed`; the `Install` bucket
has gained the entries of the stages attempted followed by one entry for the
`rollback` run, whose own error is not looked at, and these are the only calls
made. -/
theorem Install_failure (w : World) (result : Status) (library : Str) (tr : List Call) :
    (∀ e, (w.pmRun tr "preinstall".toList library).2 = some e →
      Install w result library tr =
        (false,
          { result with
            Install := result.Install ++
              [(w.pmRun tr "preinstall".toList library).1,
                (w.pmRun (tr ++ [Call.pmRun "preinstall".toList library])
                  "rollback".toList library).1]
            Status := dStatusFail },
          tr ++ [Call.pmRun "preinstall".toList library, Call.pmRun "rollback".toList library])) ∧
    ((w.pmRun tr "preinstall".toList library).2 = none →
      ∀ e, (w.pmRun (tr ++ [Call.pmRun "preinstall".toList library])
          "install".toList library).2 = some e →
      Install w result library tr =
        (false,
          { result with
            Install := result.Install ++
              [(w.pmRun tr "preinstall".toList library).1,
                (w.pmRun (tr ++ [Call.pmRun "preinstall".toList library])
                  "install".toList library).1,
                (w.pmRun (tr ++ [Call.pmRun "preinstall".toList library,
                  Call.pmRun "install".toList library]) "rollback".toList library).1]
            Status := dStatusFail },
          tr ++ [Call.pmRun "preinstall".toList library, Call.pmRun "install".toList library,
            Call.pmRun "rollback".toList library])) := by
  constructor
  · intro e he
    simp only [Install, installLoop, runPM, he, List.append_assoc, List.cons_append, List.nil_append]
  · intro h1 e he
    simp only [Install, installLoop, runPM, h1, he, List.append_assoc, List.cons_append, List.nil_append]

theorem Install_failure_witness :
    Install (sampleWorld ["install".toList] [] []) Status.zero "lib".toList [] =
      (false,
        { Status.zero with
          Install := [⟨dStatusOk, "preinstall".toList⟩, ⟨dStatusFail, "install".toList⟩,
            ⟨dStatusOk, "rollback".toList⟩]
          Status := dStatusFail },
        [Call.pmRun "preinstall".toList "lib".toList, Call.pmRun "install".toList "lib".toList,
          Call.pmRun "rollback".toList "lib".toList]) :=
  (Install_failure (sampleWorld ["install".toList] [] []) Status.zero "lib".toList []).2
    rfl "exit status 1".toList rfl

/-- C13. In `Commit` and in `Rollback` a failing stage ends the operation with
`false` at once: the bucket has gained the entries of the stages attempted so
far and nothing else of the status changes, and the only calls made are the
runs of those stages (no later stage, no `rollback` run). -/
theorem Commit_Rollback_abort (w : World) (result : Status) (library : Str) (tr : List Call) :
    (∀ e, (w.pmRun tr "commit-precheck".toList library).2 = some e →
      Commit w result library tr =
        (false,
          { result with
            Commit := result.Commit ++ [(w.pmRun tr "commit-precheck".toList library).1] },
          tr ++ [Call.pmRun "commit-precheck".toList library])) ∧
    ((w.pmRun tr "commit-precheck".toList library).2 = none →
      ∀ e, (w.pmRun (tr ++ [Call.pmRun "commit-precheck".toList library])
          "commit".toList library).2 = some e →
      Commit w result library tr =
        (false,
          { result with
            Commit := result.Commit ++
              [(w.pmRun tr "commit-precheck".toList library).1,
                (w.pmRun (tr ++ [Call.pmRun "commit-precheck".toList library])
                  "commit".toList library).1] },
          tr ++ [Call.pmRun "commit-precheck".toList library,
            Call.pmRun "commit".toList library])) ∧
    (∀ e, (w.pmRun tr "rollback-precheck".toList library).2 = some e →
      Rollback w result library tr =
        (false,
          { result with
            Rollback := result.Rollback ++ [(w.pmRun tr "rollback-precheck".toList library).1] },
          tr ++ [Call.pmRun "rollback-precheck".toList library])) ∧
    ((w.pmRun tr "rollback-precheck".toList library).2 = none →
      ∀ e, (w.pmRun (tr ++ [Call.pmRun "rollback-precheck".toList library])
          "prerollback".toList library).2 = some e →
      Rollback w result library tr =
        (false,
          { result with
            Rollback := result.Rollback ++
              [(w.pmRun tr "rollback-precheck".toList library).1,
                (w.pmRun (tr ++ [Call.pmRun "rollback-precheck".toList library])
                  "prerollback".toList library).1] },
          tr ++ [Call.pmRun "rollback-precheck".toList library,
            Call.pmRun "prerollback".toList library])) := by
  refine ⟨?_, ?_, ?_, ?_⟩
  · intro e he
    simp only [Commit, commitLoop, runPM, he]
  · intro h1 e he
    simp only [Commit, commitLoop, runPM, h1, he, List.append_assoc, List.cons_append,
      List.nil_append]
  · intro e he
    simp only [Rollback, rollbackLoop, runPM, he]
    rfl
  · intro h1 e he
    simp only [Rollback, rollbackLoop, runPM, h1, he, List.append_assoc, List.cons_append,
      List.nil_append]
    rfl

theorem Commit_Rollback_abort_witness :
    Commit (sampleWorld ["commit".toList] [] []) Status.zero "lib".toList [] =
      (false,
        { Status.zero with
          Commit := [⟨dStatusOk, "commit-precheck".toList⟩, ⟨dStatusFail, "commit".toList⟩] },
        [Call.pmRun "commit-precheck".toList "lib".toList,
          Call.pmRun "commit".toList "lib".toList]) :=
  (Commit_Rollback_abort (sampleWorld ["commit".toList] [] []) Status.zero "lib".toList []).2.1
    rfl "exit status 1".toList rfl

/-- C14. When `prereboot` fails, `Reboot` returns `false`; the `Reboot` bucket
has gained the `prereboot` entry and one entry for the `rollback` run, whose own
error is not looked at; the status is `Failed`; and the two runs are the only
calls made, so `systemctl reboot` is not executed. -/
theorem Reboot_prereboot_failure (w : World) (result : Status) (library : Str)
    (tr : List Call) (e : Str) (he : (w.pmRun tr "prereboot".toList library).2 = some e) :
    Reboot w result library tr =
      (false,
        { result with
          Reboot := result.Reboot ++
            [(w.pmRun tr "prereboot".toList library).1,
              (w.pmRun (tr ++ [Call.pmRun "prereboot".toList library])
                "rollback".toList library).1]
          Status := dStatusFail
          StdOutErr := e },
        tr ++ [Call.pmRun "prereboot".toList library, Call.pmRun "rollback".toList library]) := by
  simp only [Reboot, rebootLoop, runPM, he, List.append_assoc, List.cons_append,
    List.nil_append]
  rfl

theorem Reboot_prereboot_failure_witness :
    Reboot (sampleWorld ["prereboot".toList, "rollback".toList] [] []) Status.zero
        "lib".toList [] =
      (false,
        { Status.zero with
          Reboot := [⟨dStatusFail, "prereboot".toList⟩, ⟨dStatusFail, "rollback".toList⟩]
          Status := dStatusFail
          StdOutErr := "exit status 1".toList },
        [Call.pmRun "prereboot".toList "lib".toList, Call.pmRun "rollback".toList "lib".toList]) :=
  Reboot_prereboot_failure (sampleWorld ["prereboot".toList, "rollback".toList] [] [])
    Status.zero "lib".toList [] "exit status 1".toList rfl

/-- When `prereboot` succeeds and `systemctl reboot` fails, `Reboot` returns
`false` with the `prereboot` entry as the only new entry and records the text
`Failed to reboot the system.`; it leaves the field `Status` as it was. -/
theorem Reboot_primitive_failure (w : World) (result : Status) (library : Str)
    (tr : List Call) (e : Str) (h1 : (w.pmRun tr "prereboot".toList library).2 = none)
    (he : (w.exec (tr ++ [Call.pmRun "prereboot".toList library]) "systemctl".toList
      ["reboot".toList]).2 = some e) :
    Reboot w result library tr =
      (false,
        { result with
          Reboot := result.Reboot ++ [(w.pmRun tr "prereboot".toList library).1]
          StdOutErr := "Failed to reboot the system.".toList },
        tr ++ [Call.pmRun "prereboot".toList library,
          Call.exec "systemctl".toList ["reboot".toList]]) := by
  simp only [Reboot, rebootLoop, runPM, h1, he, List.append_assoc, List.cons_append,
    List.nil_append]
  rfl

/-- After a reboot command without software name, whenever `Reboot` returns
`false` the status written to the output has the text
`Failed to reboot the update.`, whatever `Reboot` recorded. -/
theorem ScanCommandOptions_reboot_failed (w : World) (ext : Externals)
    (cmdOptions : CmdOptions) (library : Str) (tr : List Call)
    (hn : cmdOptions.softwareName = [])
    (hf : (Reboot w Status.zero library tr).1 = false) :
    ScanCommandOptions w ext "reboot".toList cmdOptions library tr =
      (some "Failed to reboot the update.".toList,
        (Reboot w Status.zero library tr).2.2 ++
          [Call.writeStatus
            { (Reboot w Status.zero library tr).2.1 with
              Status := dStatusFail
              StdOutErr := "Failed to reboot the update.".toList }]) := by
  have h1 : ("reboot".toList = "commit".toList) = False := by decide
  have h2 : ("reboot".toList = "install".toList) = False := by decide
  simp only [ScanCommandOptions, hn, ne_eq, not_true_eq_false, if_false, h1, h2, if_true, hf]
  rfl

/-- C15 (the code at the failing input). With `prereboot` succeeding and
`systemctl reboot` failing, `Reboot` records `Failed to reboot the system.` and
adds the `prereboot` entry only; the status then written to the output is
`Failed`, has that one entry, and carries the text
`Failed to reboot the update.` in place of the recorded one. -/
theorem ScanCommandOptions_reboot_diagnostic :
    (Reboot (sampleWorld [] [["systemctl".toList, "reboot".toList]] []) Status.zero
        "lib".toList []).2.1 =
      { Status.zero with
        Reboot := [⟨dStatusOk, "prereboot".toList⟩]
        StdOutErr := "Failed to reboot the system.".toList } ∧
    ScanCommandOptions (sampleWorld [] [["systemctl".toList, "reboot".toList]] [])
        sampleExternals "reboot".toList ⟨[], [], []⟩ "lib".toList [] =
      (some "Failed to reboot the update.".toList,
        [Call.pmRun "prereboot".toList "lib".toList,
          Call.exec "systemctl".toList ["reboot".toList],
          Call.writeStatus
            { Status.zero with
              Reboot := [⟨dStatusOk, "prereboot".toList⟩]
              Status := dStatusFail
              StdOutErr := "Failed to reboot the update.".toList }]) := by
  constructor
  · rfl
  · rfl

/-! ## The direct single-artifact path -/

theorem repoList_trace (w : World) (ext : Externals) (params : FieldMap) (tr : List Call) :
    ∀ c, c ∈ (repoList w ext params tr).2 →
      c ∈ tr ∨ (∃ a b d, c = Call.listRepo a b d) ∨ ∃ info, c = Call.writeInfo info := by
  intro c hc
  unfold repoList at hc
  simp only at hc
  split at hc
  · simp only [List.mem_append, List.mem_singleton] at hc
    rcases hc with h | h
    · exact Or.inl h
    · exact Or.inr (Or.inl ⟨_, _, _, h⟩)
  · split at hc
    · simp only [List.mem_append, List.mem_singleton] at hc
      rcases hc with h | h
      · exact Or.inl h
      · exact Or.inr (Or.inl ⟨_, _, _, h⟩)
    · simp only [List.mem_append, List.mem_singleton] at hc
      rcases hc with (h | h) | h
      · exact Or.inl h
      · exact Or.inr (Or.inl ⟨_, _, _, h⟩)
      · exact Or.inr (Or.inr ⟨_, h⟩)

/-- With a name and a type, an existing file and a lookup that returns exactly
one record without error, the direct path continues with that record. -/
theorem runCmdFromRPM_single (w : World) (ext : Externals)
    (action swName swType : Str) (params : FieldMap) (tr : List Call) (rpmInfo : RPMInfo)
    (hn : swName ≠ []) (ht : swType ≠ [])
    (hs : w.stat tr (absSwPathOf w params swType swName) = StatResult.ok)
    (hl : (repoList w ext (lookupParams params swName swType)
      (tr ++ [Call.stat (absSwPathOf w params swType swName)])).1 = ([rpmInfo], none)) :
    runCmdFromRPM w ext action swName swType params tr =
      runAction w action swType (absSwPathOf w params swType swName) rpmInfo
        (repoList w ext (lookupParams params swName swType)
          (tr ++ [Call.stat (absSwPathOf w params swType swName)])).2 := by
  have h1 : (repoList w ext (lookupParams params swName swType)
      (tr ++ [Call.stat (absSwPathOf w params swType swName)])).1.2 = none := by rw [hl]
  have h2 : (repoList w ext (lookupParams params swName swType)
      (tr ++ [Call.stat (absSwPathOf w params swType swName)])).1.1 = [rpmInfo] := by rw [hl]
  unfold runCmdFromRPM
  simp only [hn, ht, if_false, hs, h1, h2]

/-- C16. With a name and a type, an existing file and a lookup that returns
without error a number of records other than one, `runCmdFromRPM` returns the
error `Failed to get details of ... software.`; its calls are those of the
lookup, and it executes no command (no package-manager command, no script). -/
theorem runCmdFromRPM_lookup_not_single (w : World) (ext : Externals)
    (action swName swType : Str) (params : FieldMap) (tr : List Call) (listInfo : List RPMInfo)
    (hn : swName ≠ []) (ht : swType ≠ [])
    (hs : w.stat tr (absSwPathOf w params swType swName) = StatResult.ok)
    (hl : (repoList w ext (lookupParams params swName swType)
      (tr ++ [Call.stat (absSwPathOf w params swType swName)])).1 = (listInfo, none))
    (hlen : listInfo.length ≠ 1) :
    runCmdFromRPM w ext action swName swType params tr =
      (some ("Failed to get details of ".toList ++ swName ++ " software.".toList),
        (repoList w ext (lookupParams params swName swType)
          (tr ++ [Call.stat (absSwPathOf w params swType swName)])).2) ∧
    ∀ cmd args, Call.exec cmd args ∈ (runCmdFromRPM w ext action swName swType params tr).2 →
      Call.exec cmd args ∈ tr := by
  have h1 : (repoList w ext (lookupParams params swName swType)
      (tr ++ [Call.stat (absSwPathOf w params swType swName)])).1.2 = none := by rw [hl]
  have h2 : (repoList w ext (lookupParams params swName swType)
      (tr ++ [Call.stat (absSwPathOf w params swType swName)])).1.1 = listInfo := by rw [hl]
  have heq2 : runCmdFromRPM w ext action swName swType params tr =
      (some ("Failed to get details of ".toList ++ swName ++ " software.".toList),
        (repoList w ext (lookupParams params swName swType)
          (tr ++ [Call.stat (absSwPathOf w params swType swName)])).2) := by
    unfold runCmdFromRPM
    simp only [hn, ht, if_false, hs, h1, h2]
    clear hl h2
    match listInfo, hlen with
    | [], _ => rfl
    | [_], h => exact absurd rfl h
    | _ :: _ :: _, _ => rfl
  refine ⟨heq2, ?_⟩
  intro cmd args hmem
  rw [heq2] at hmem
  rcases repoList_trace w ext _ _ _ hmem with h | ⟨a, b, d, h⟩ | ⟨info, h⟩
  · simp only [List.mem_append, List.mem_singleton] at h
    rcases h with h | h
    · exact h
    · cases h
  · cases h
  · cases h

theorem runCmdFromRPM_lookup_not_single_witness :
    runCmdFromRPM (sampleWorld [] [] ["a.rpm".toList, "b.rpm".toList]) sampleExternals
        "install".toList "a.rpm".toList "update".toList FieldMap.empty [] =
      (some "Failed to get details of a.rpm software.".toList,
        [Call.stat "/system/software/repository//update/a.rpm".toList,
          Call.listRepo "a.rpm".toList [] "update".toList,
          Call.writeInfo
            (ListRPMFilesInfo sampleExternals ["a.rpm".toList, "b.rpm".toList] []).1]) :=
  (runCmdFromRPM_lookup_not_single (sampleWorld [] [] ["a.rpm".toList, "b.rpm".toList])
    sampleExternals "install".toList "a.rpm".toList "update".toList FieldMap.empty []
    (ListRPMFilesInfo sampleExternals ["a.rpm".toList, "b.rpm".toList] []).1
    (by decide) (by decide) rfl rfl (by decide)).1

/-- C17. After a lookup that found the single record `rpmInfo`: for `install`,
the package is queried and, when installed, uninstalled before `rpm -Uvh`; if
`rpm -Uvh` fails an error is returned and no script is run; if the script fails
the package is uninstalled and an error is returned; otherwise the script is the
last call. For any other action the script is the only call, whether it
succeeds or fails. -/
theorem runCmdFromRPM_actions (w : World) (ext : Externals) (swName swType : Str)
    (params : FieldMap) (tr : List Call) (rpmInfo : RPMInfo) (path : Str) (tr1 : List Call)
    (hn : swName ≠ []) (ht : swType ≠ [])
    (hp : path = absSwPathOf w params swType swName)
    (hs : w.stat tr path = StatResult.ok)
    (hl : (repoList w ext (lookupParams params swName swType) (tr ++ [Call.stat path])).1 =
      ([rpmInfo], none))
    (ht1 : tr1 = (repoList w ext (lookupParams params swName swType)
      (tr ++ [Call.stat path])).2) :
    ((w.exec (tr1 ++ cleanupCalls w tr1 rpmInfo.GetRPMName) rpmCmd
        ["-Uvh".toList, path]).2 ≠ none →
      runCmdFromRPM w ext "install".toList swName swType params tr =
        (some "Failed to install software.".toList,
          tr1 ++ installCalls w tr1 rpmInfo.GetRPMName path)) ∧
    ((w.exec (tr1 ++ cleanupCalls w tr1 rpmInfo.GetRPMName) rpmCmd
        ["-Uvh".toList, path]).2 = none →
      (w.exec (tr1 ++ installCalls w tr1 rpmInfo.GetRPMName path) "/bin/sh".toList
        [scriptOf "install".toList swType rpmInfo, "-output-file".toList, w.outputFile,
          "-output-format".toList, w.outputFormat]).2 ≠ none →
      runCmdFromRPM w ext "install".toList swName swType params tr =
        (some "Failed to install software.".toList,
          tr1 ++ installCalls w tr1 rpmInfo.GetRPMName path ++
            [scriptCall w "install".toList swType rpmInfo,
              Call.exec rpmCmd ["-e".toList, rpmInfo.GetRPMName]])) ∧
    ((w.exec (tr1 ++ cleanupCalls w tr1 rpmInfo.GetRPMName) rpmCmd
        ["-Uvh".toList, path]).2 = none →
      (w.exec (tr1 ++ installCalls w tr1 rpmInfo.GetRPMName path) "/bin/sh".toList
        [scriptOf "install".toList swType rpmInfo, "-output-file".toList, w.outputFile,
          "-output-format".toList, w.outputFormat]).2 = none →
      runCmdFromRPM w ext "install".toList swName swType params tr =
        (none,
          tr1 ++ installCalls w tr1 rpmInfo.GetRPMName path ++
            [scriptCall w "install".toList swType rpmInfo])) ∧
    (∀ action : Str, action ≠ "install".toList →
      runCmdFromRPM w ext action swName swType params tr =
        (if (w.exec tr1 "/bin/sh".toList
            [scriptOf action swType rpmInfo, "-output-file".toList, w.outputFile,
              "-output-format".toList, w.outputFormat]).2.isSome
          then some ("Failed to ".toList ++ action ++ " software.".toList) else none,
          tr1 ++ [scriptCall w action swType rpmInfo])) := by
  subst hp
  have hrun : ∀ action, runCmdFromRPM w ext action swName swType params tr =
      runAction w action swType (absSwPathOf w params swType swName) rpmInfo tr1 := by
    intro action
    rw [ht1]
    exact runCmdFromRPM_single w ext action swName swType params tr rpmInfo hn ht hs hl
  have hclean : (if (rpmIsInstalled w tr1 rpmInfo.GetRPMName).1 = true then
        (rpmUninstall w (rpmIsInstalled w tr1 rpmInfo.GetRPMName).2 rpmInfo.GetRPMName).2
      else (rpmIsInstalled w tr1 rpmInfo.GetRPMName).2) =
      tr1 ++ cleanupCalls w tr1 rpmInfo.GetRPMName := by
    unfold rpmIsInstalled rpmUninstall cleanupCalls
    split <;> (rename_i h; simp [h])
  refine ⟨?_, ?_, ?_, ?_⟩
  · intro hi
    rw [hrun]
    unfold runAction
    simp only [if_true, hclean]
    unfold rpmInstall installCalls
    cases hx : (w.exec (tr1 ++ cleanupCalls w tr1 rpmInfo.GetRPMName) rpmCmd
        ["-Uvh".toList, absSwPathOf w params swType swName]).2 with
    | none => exact absurd hx hi
    | some e => simp only [List.append_assoc]
  · intro hi hsc
    rw [hrun]
    unfold runAction
    simp only [if_true, hclean]
    unfold rpmInstall
    simp only [hi]
    unfold runScript installCalls scriptCall rpmUninstall
    simp only [List.append_assoc]
    cases hx : (w.exec (tr1 ++ (cleanupCalls w tr1 rpmInfo.GetRPMName ++
        [Call.exec rpmCmd ["-Uvh".toList, absSwPathOf w params swType swName]]))
        "/bin/sh".toList [scriptOf "install".toList swType rpmInfo, "-output-file".toList,
          w.outputFile, "-output-format".toList, w.outputFormat]).2 with
    | none =>
      unfold installCalls at hsc
      exact absurd hx hsc
    | some e =>
      simp only [if_true, List.append_assoc, List.cons_append, List.nil_append]
      rfl
  · intro hi hsc
    rw [hrun]
    unfold runAction
    simp only [if_true, hclean]
    unfold rpmInstall
    simp only [hi]
    unfold installCalls at hsc
    unfold runScript installCalls scriptCall
    simp only [hsc, List.append_assoc, List.cons_append, List.nil_append]
  · intro action ha
    rw [hrun]
    unfold runAction
    simp only [ha.symm, if_false]
    unfold runScript scriptCall
    cases hx : (w.exec tr1 "/bin/sh".toList [scriptOf action swType rpmInfo,
        "-output-file".toList, w.outputFile, "-output-format".toList, w.outputFormat]).2 with
    | none => simp only [hx, Option.isSome_none, Bool.false_eq_true, if_false]
    | some e => simp only [hx, ha.symm, if_false, Option.isSome_some, if_true]

theorem runCmdFromRPM_actions_witness :
    runCmdFromRPM
        (sampleWorld []
          [["/bin/sh".toList, "/system/upgrade/repository/update/a.rpm-1.2-/install".toList,
            "-output-file".toList, "out".toList, "-output-format".toList, "yaml".toList]]
          ["a.rpm".toList])
        sampleExternals "install".toList "a.rpm".toList "update".toList FieldMap.empty [] =
      (some "Failed to install software.".toList,
        [Call.stat "/system/software/repository//update/a.rpm".toList,
          Call.listRepo "a.rpm".toList [] "update".toList,
          Call.writeInfo (ListRPMFilesInfo sampleExternals ["a.rpm".toList] []).1,
          Call.exec rpmCmd ["-q".toList, "a.rpm".toList],
          Call.exec rpmCmd ["-e".toList, "a.rpm".toList],
          Call.exec rpmCmd ["-Uvh".toList, "/system/software/repository//update/a.rpm".toList],
          Call.exec "/bin/sh".toList
            ["/system/upgrade/repository/update/a.rpm-1.2-/install".toList,
              "-output-file".toList, "out".toList, "-output-format".toList, "yaml".toList],
          Call.exec rpmCmd ["-e".toList, "a.rpm".toList]]) :=
  (runCmdFromRPM_actions
    (sampleWorld []
      [["/bin/sh".toList, "/system/upgrade/repository/update/a.rpm-1.2-/install".toList,
        "-output-file".toList, "out".toList, "-output-format".toList, "yaml".toList]]
      ["a.rpm".toList])
    sampleExternals "a.rpm".toList "update".toList FieldMap.empty []
    (buildRPMInfo sampleExternals "a.rpm".toList
      (ParseMetaData "Version : 1.2\nVersionInfo : x".toList) [])
    "/system/software/repository//update/a.rpm".toList
    [Call.stat "/system/software/repository//update/a.rpm".toList,
      Call.listRepo "a.rpm".toList [] "update".toList,
      Call.writeInfo (ListRPMFilesInfo sampleExternals ["a.rpm".toList] []).1]
    (by decide) (by decide) rfl rfl rfl rfl).2.1 rfl (by decide)

theorem runAction_trace (w : World) (action swType path : Str) (rpmInfo : RPMInfo)
    (tr : List Call) : ∀ args, Call.exec "/bin/sh".toList args ∈
      (runAction w action swType path rpmInfo tr).2 →
      Call.exec "/bin/sh".toList args ∈ tr ∨
        args = [scriptOf action swType rpmInfo, "-output-file".toList, w.outputFile,
          "-output-format".toList, w.outputFormat] := by
  have hne : rpmCmd ≠ "/bin/sh".toList := by decide
  have hscript : ∀ (t : List Call) (args : List Str),
      Call.exec "/bin/sh".toList args ∈ (runScript w action swType rpmInfo t).2 →
      Call.exec "/bin/sh".toList args ∈ t ∨
        args = [scriptOf action swType rpmInfo, "-output-file".toList, w.outputFile,
          "-output-format".toList, w.outputFormat] := by
    intro t args h
    unfold runScript rpmUninstall at h
    simp only at h
    split at h
    · split at h
      · simp only [List.mem_append, List.mem_singleton, Call.exec.injEq] at h
        rcases h with (h | h) | h
        · exact Or.inl h
        · exact Or.inr h.2
        · exact absurd h.1.symm hne
      · simp only [List.mem_append, List.mem_singleton, Call.exec.injEq] at h
        rcases h with h | h
        · exact Or.inl h
        · exact Or.inr h.2
    · simp only [List.mem_append, List.mem_singleton, Call.exec.injEq] at h
      rcases h with h | h
      · exact Or.inl h
      · exact Or.inr h.2
  have hclean : ∀ args, Call.exec "/bin/sh".toList args ∈
      (if (rpmIsInstalled w tr rpmInfo.GetRPMName).1 = true then
        (rpmUninstall w (rpmIsInstalled w tr rpmInfo.GetRPMName).2 rpmInfo.GetRPMName).2
      else (rpmIsInstalled w tr rpmInfo.GetRPMName).2) ++
        [Call.exec rpmCmd ["-Uvh".toList, path]] →
      Call.exec "/bin/sh".toList args ∈ tr := by
    intro args h
    unfold rpmIsInstalled rpmUninstall at h
    split at h
    · simp only [List.mem_append, List.mem_singleton, Call.exec.injEq] at h
      rcases h with ((h | h) | h) | h
      · exact h
      · exact absurd h.1.symm hne
      · exact absurd h.1.symm hne
      · exact absurd h.1.symm hne
    · simp only [List.mem_append, List.mem_singleton, Call.exec.injEq] at h
      rcases h with (h | h) | h
      · exact h
      · exact absurd h.1.symm hne
      · exact absurd h.1.symm hne
  intro args h
  unfold runAction at h
  split at h
  · simp only at h
    unfold rpmInstall at h
    simp only at h
    split at h
    · exact Or.inl (hclean args h)
    · rcases hscript _ args h with h2 | h2
      · exact Or.inl (hclean args h2)
      · exact Or.inr h2
  · exact hscript tr args h

/-- The outcome of `runScript`: the script is run after the calls made so far,
its failure gives the error `Failed to ... software.`, and the package is
uninstalled after a failed `install` script. -/
theorem runScript_eq (w : World) (action swType : Str) (rpmInfo : RPMInfo) (t : List Call) :
    runScript w action swType rpmInfo t =
      (if (w.exec t "/bin/sh".toList [scriptOf action swType rpmInfo, "-output-file".toList,
            w.outputFile, "-output-format".toList, w.outputFormat]).2 = none
        then none else some ("Failed to ".toList ++ action ++ " software.".toList),
        t ++ scriptCall w action swType rpmInfo ::
          (if action = "install".toList ∧
              (w.exec t "/bin/sh".toList [scriptOf action swType rpmInfo,
                "-output-file".toList, w.outputFile, "-output-format".toList,
                w.outputFormat]).2 ≠ none
            then [Call.exec rpmCmd ["-e".toList, rpmInfo.GetRPMName]] else [])) := by
  unfold runScript scriptCall rpmUninstall
  cases hx : (w.exec t "/bin/sh".toList [scriptOf action swType rpmInfo,
      "-output-file".toList, w.outputFile, "-output-format".toList, w.outputFormat]).2 with
  | none =>
    simp only [hx, if_true, ne_eq, not_true_eq_false, and_false, if_false]
  | some e =>
    by_cases ha : action = "install".toList
    · subst ha
      simp only [hx, if_true, ne_eq, not_false_eq_true, and_self, if_false,
        List.append_assoc, List.cons_append, List.nil_append, reduceCtorEq]
    · have ha2 : ¬ "install".toList = action := fun h => ha h.symm
      simp only [hx, ha, ha2, if_false, ne_eq, false_and, reduceCtorEq]

/-- Once the record is known and, for `install`, `rpm -Uvh` succeeded,
`runAction` runs the script: after the package-manager commands for `install`,
at once for any other action. -/
theorem runAction_script (w : World) (action swType path : Str) (rpmInfo : RPMInfo)
    (tr1 : List Call)
    (hi : action = "install".toList →
      (w.exec (tr1 ++ cleanupCalls w tr1 rpmInfo.GetRPMName) rpmCmd
        ["-Uvh".toList, path]).2 = none) :
    runAction w action swType path rpmInfo tr1 =
      runScript w action swType rpmInfo
        (tr1 ++ if action = "install".toList
          then installCalls w tr1 rpmInfo.GetRPMName path else []) := by
  have hclean : (if (rpmIsInstalled w tr1 rpmInfo.GetRPMName).1 = true then
        (rpmUninstall w (rpmIsInstalled w tr1 rpmInfo.GetRPMName).2 rpmInfo.GetRPMName).2
      else (rpmIsInstalled w tr1 rpmInfo.GetRPMName).2) =
      tr1 ++ cleanupCalls w tr1 rpmInfo.GetRPMName := by
    unfold rpmIsInstalled rpmUninstall cleanupCalls
    split <;> (rename_i h; simp [h])
  by_cases ha : action = "install".toList
  · have hu := hi ha
    subst ha
    unfold runAction
    simp only [if_true, hclean]
    unfold rpmInstall
    simp only [hu]
    unfold installCalls
    simp only [List.append_assoc]
  · have ha2 : ¬ "install".toList = action := fun h => ha h.symm
    unfold runAction
    simp only [ha, ha2, if_false, List.append_nil]

/-- C18. The script string is the install root, the artifact type, `/`, then
name, version and release of the record joined by `-`, then `/` and the action;
every `/bin/sh` command that `runCmdFromRPM` adds to the trace runs exactly this
script for the single record found by the lookup; for a V1 record, which has no
release, the directory part ends in `-`; and the script is invoked: with a name
and a type, an existing file, a lookup that found the single record `rpmInfo`
and, for `install`, a successful `rpm -Uvh`, the calls of `runCmdFromRPM` are
those made up to there (`pre`), then `/bin/sh` with this string as its first
argument, then the uninstall that follows a failed `install` script, and the
error returned is decided by the outcome of that command. -/
theorem runCmdFromRPM_script (w : World) (ext : Externals) (action swName swType : Str)
    (params : FieldMap) (tr : List Call) :
    (∀ rpmInfo : RPMInfo, scriptOf action swType rpmInfo =
      "/system/upgrade/repository/".toList ++ swType ++ "/".toList ++ rpmInfo.GetRPMName ++
        "-".toList ++ rpmInfo.GetRPMVersion ++ "-".toList ++ rpmInfo.GetRPMRelease ++
        "/".toList ++ action) ∧
    (∀ args, Call.exec "/bin/sh".toList args ∈
        (runCmdFromRPM w ext action swName swType params tr).2 →
      Call.exec "/bin/sh".toList args ∈ tr ∨
        ∃ rpmInfo,
          (repoList w ext (lookupParams params swName swType)
            (tr ++ [Call.stat (absSwPathOf w params swType swName)])).1 = ([rpmInfo], none) ∧
          args = [scriptOf action swType rpmInfo, "-output-file".toList, w.outputFile,
            "-output-format".toList, w.outputFormat]) ∧
    (∀ d : v1RPMInfo, scriptOf action swType (RPMInfo.v1 d) =
      "/system/upgrade/repository/".toList ++ swType ++ "/".toList ++ d.Name ++
        "-".toList ++ d.Version ++ "-/".toList ++ action) ∧
    (∀ (rpmInfo : RPMInfo) (path script : Str) (tr1 pre : List Call),
      swName ≠ [] → swType ≠ [] →
      path = absSwPathOf w params swType swName →
      w.stat tr path = StatResult.ok →
      (repoList w ext (lookupParams params swName swType) (tr ++ [Call.stat path])).1 =
        ([rpmInfo], none) →
      tr1 = (repoList w ext (lookupParams params swName swType) (tr ++ [Call.stat path])).2 →
      (action = "install".toList →
        (w.exec (tr1 ++ cleanupCalls w tr1 rpmInfo.GetRPMName) rpmCmd
          ["-Uvh".toList, path]).2 = none) →
      pre = tr1 ++ (if action = "install".toList
        then installCalls w tr1 rpmInfo.GetRPMName path else []) →
      script = "/system/upgrade/repository/".toList ++ swType ++ "/".toList ++
        rpmInfo.GetRPMName ++ "-".toList ++ rpmInfo.GetRPMVersion ++ "-".toList ++
        rpmInfo.GetRPMRelease ++ "/".toList ++ action →
      (runCmdFromRPM w ext action swName swType params tr).2 =
        pre ++ Call.exec "/bin/sh".toList [script, "-output-file".toList, w.outputFile,
            "-output-format".toList, w.outputFormat] ::
          (if action = "install".toList ∧
              (w.exec pre "/bin/sh".toList [script, "-output-file".toList, w.outputFile,
                "-output-format".toList, w.outputFormat]).2 ≠ none
            then [Call.exec rpmCmd ["-e".toList, rpmInfo.GetRPMName]] else []) ∧
      (runCmdFromRPM w ext action swName swType params tr).1 =
        if (w.exec pre "/bin/sh".toList [script, "-output-file".toList, w.outputFile,
            "-output-format".toList, w.outputFormat]).2 = none
          then none else some ("Failed to ".toList ++ action ++ " software.".toList)) := by
  have hstr : ∀ rpmInfo : RPMInfo, scriptOf action swType rpmInfo =
      "/system/upgrade/repository/".toList ++ swType ++ "/".toList ++ rpmInfo.GetRPMName ++
        "-".toList ++ rpmInfo.GetRPMVersion ++ "-".toList ++ rpmInfo.GetRPMRelease ++
        "/".toList ++ action := by
    intro rpmInfo
    simp only [scriptOf, RPMInstallRepoPath, List.append_assoc]
  refine ⟨hstr, ?_, ?_, ?_⟩
  · intro args h
    have hpre : ∀ _ : List Call, Call.exec "/bin/sh".toList args ∈
        (repoList w ext (lookupParams params swName swType)
          (tr ++ [Call.stat (absSwPathOf w params swType swName)])).2 →
        Call.exec "/bin/sh".toList args ∈ tr := by
      intro _ hm
      rcases repoList_trace w ext _ _ _ hm with h1 | ⟨a, b, d, h1⟩ | ⟨info, h1⟩
      · simp only [List.mem_append, List.mem_singleton] at h1
        rcases h1 with h1 | h1
        · exact h1
        · cases h1
      · cases h1
      · cases h1
    unfold runCmdFromRPM at h
    split at h
    · exact Or.inl h
    · split at h
      · exact Or.inl h
      · simp only at h
        split at h
        · split at h
          · exact Or.inl (hpre [] h)
          · rename_i herr
            split at h
            · rename_i rpmInfo hone
              rcases runAction_trace w action swType _ rpmInfo _ args h with h2 | h2
              · exact Or.inl (hpre [] h2)
              · refine Or.inr ⟨rpmInfo, ?_, h2⟩
                exact Prod.ext hone herr
            · exact Or.inl (hpre [] h)
        · simp only [List.mem_append, List.mem_singleton] at h
          rcases h with h | h
          · exact Or.inl h
          · cases h
  · intro d
    simp only [scriptOf, RPMInstallRepoPath, RPMInfo.GetRPMName, RPMInfo.GetRPMVersion,
      RPMInfo.GetRPMRelease, List.append_assoc, List.append_nil]
    rfl
  · intro rpmInfo path script tr1 pre hn ht hp hs hl ht1 hi hpre hscript
    subst hp
    have hrun : runCmdFromRPM w ext action swName swType params tr =
        runAction w action swType (absSwPathOf w params swType swName) rpmInfo tr1 := by
      rw [ht1]
      exact runCmdFromRPM_single w ext action swName swType params tr rpmInfo hn ht hs hl
    rw [hrun, runAction_script w action swType _ rpmInfo tr1 hi, ← hpre, runScript_eq,
      hscript, ← hstr rpmInfo]
    exact ⟨rfl, rfl⟩

theorem runCmdFromRPM_script_witness :
    runCmdFromRPM
        (sampleWorld [] [["/usr/bin/rpm".toList, "-q".toList, "a.rpm".toList]]
          ["a.rpm".toList])
        sampleExternals "install".toList "a.rpm".toList "update".toList FieldMap.empty [] =
      (none,
        [Call.stat "/system/software/repository//update/a.rpm".toList,
          Call.listRepo "a.rpm".toList [] "update".toList,
          Call.writeInfo (ListRPMFilesInfo sampleExternals ["a.rpm".toList] []).1,
          Call.exec rpmCmd ["-q".toList, "a.rpm".toList],
          Call.exec rpmCmd ["-Uvh".toList, "/system/software/repository//update/a.rpm".toList],
          Call.exec "/bin/sh".toList
            ["/system/upgrade/repository/update/a.rpm-1.2-/install".toList,
              "-output-file".toList, "out".toList, "-output-format".toList, "yaml".toList]]) :=
  Prod.ext
    ((runCmdFromRPM_script
      (sampleWorld [] [["/usr/bin/rpm".toList, "-q".toList, "a.rpm".toList]] ["a.rpm".toList])
      sampleExternals "install".toList "a.rpm".toList "update".toList FieldMap.empty []).2.2.2
      (buildRPMInfo sampleExternals "a.rpm".toList
        (ParseMetaData "Version : 1.2\nVersionInfo : x".toList) [])
      "/system/software/repository//update/a.rpm".toList
      "/system/upgrade/repository/update/a.rpm-1.2-/install".toList
      [Call.stat "/system/software/repository//update/a.rpm".toList,
        Call.listRepo "a.rpm".toList [] "update".toList,
        Call.writeInfo (ListRPMFilesInfo sampleExternals ["a.rpm".toList] []).1]
      [Call.stat "/system/software/repository//update/a.rpm".toList,
        Call.listRepo "a.rpm".toList [] "update".toList,
        Call.writeInfo (ListRPMFilesInfo sampleExternals ["a.rpm".toList] []).1,
        Call.exec rpmCmd ["-q".toList, "a.rpm".toList],
        Call.exec rpmCmd ["-Uvh".toList, "/system/software/repository//update/a.rpm".toList]]
      (by decide) (by decide) rfl rfl rfl rfl (fun _ => rfl) (by decide) (by decide)).2
    ((runCmdFromRPM_script
      (sampleWorld [] [["/usr/bin/rpm".toList, "-q".toList, "a.rpm".toList]] ["a.rpm".toList])
      sampleExternals "install".toList "a.rpm".toList "update".toList FieldMap.empty []).2.2.2
      (buildRPMInfo sampleExternals "a.rpm".toList
        (ParseMetaData "Version : 1.2\nVersionInfo : x".toList) [])
      "/system/software/repository//update/a.rpm".toList
      "/system/upgrade/repository/update/a.rpm-1.2-/install".toList
      [Call.stat "/system/software/repository//update/a.rpm".toList,
        Call.listRepo "a.rpm".toList [] "update".toList,
        Call.writeInfo (ListRPMFilesInfo sampleExternals ["a.rpm".toList] []).1]
      [Call.stat "/system/software/repository//update/a.rpm".toList,
        Call.listRepo "a.rpm".toList [] "update".toList,
        Call.writeInfo (ListRPMFilesInfo sampleExternals ["a.rpm".toList] []).1,
        Call.exec rpmCmd ["-q".toList, "a.rpm".toList],
        Call.exec rpmCmd ["-Uvh".toList, "/system/software/repository//update/a.rpm".toList]]
      (by decide) (by decide) rfl rfl rfl rfl (fun _ => rfl) (by decide) (by decide)).1

/-! ## `isRPMCompatibile` and the V1 defaults -/

/-- C19 (the code at the failing input). For the product version `".0"` and the
V1 package of `sampleExternals`, whose duplicate-free list holds the single
entry `1.0`: no entry is string-equal to the product version or accepted by
`Compare`, the record's matched version is empty, and `isRPMCompatibile`
returns no error, because `Compare(".0", "")` is true. -/
theorem isRPMCompatibile_unmatched :
    ((sampleExternals.jsonUnmarshal "x".toList).1.map V1VersionInfo.Version).Nodup ∧
    (∀ e, e ∈ (sampleExternals.jsonUnmarshal "x".toList).1 →
      ".0".toList ≠ e.Version ∧ Compare ".0".toList e.Version = false) ∧
    (ListRPMFilesInfo sampleExternals ["pkg.rpm".toList] ".0".toList).1.map
      RPMInfo.GetMatchedVersion = [[]] ∧
    Compare ".0".toList [] = true ∧
    isRPMCompatibile (sampleWorld [] [] []) sampleExternals ".0".toList "pkg.rpm".toList [] =
      (none, [Call.stat "pkg.rpm".toList]) := by
  decide

/-- C20. A V1 record built with the empty product version has the estimate
`"0"`, `"0"`, `"0"`, the reboot indicator `"n/a"` and an empty matched version;
it depends neither on the JSON decoder nor on the field `VersionInfo`. -/
theorem buildV1_no_product_version (ext : Externals) (file : Str) (parsedData : FieldMap) :
    (buildV1 ext file parsedData []).Hours = "0".toList ∧
    (buildV1 ext file parsedData []).Minutes = "0".toList ∧
    (buildV1 ext file parsedData []).Seconds = "0".toList ∧
    (buildV1 ext file parsedData []).Reboot = "n/a".toList ∧
    (buildV1 ext file parsedData []).matchedVersion = [] ∧
    (∀ (ju : Str → List V1VersionInfo × Option Str) (versionInfo : Option Str),
      buildV1 { ext with jsonUnmarshal := ju } file
          (fun k => if k = "VersionInfo".toList then versionInfo else parsedData k) [] =
        buildV1 ext file parsedData []) ∧
    (parsedData FormatVersionName = none →
      buildRPMInfo ext file parsedData [] = RPMInfo.v1 (buildV1 ext file parsedData [])) := by
  refine ⟨rfl, rfl, rfl, rfl, rfl, ?_, ?_⟩
  · intro ju versionInfo
    have hne : ∀ k : Str, k ≠ "VersionInfo".toList →
        FieldMap.get (fun k => if k = "VersionInfo".toList then versionInfo else parsedData k) k =
          FieldMap.get parsedData k := by
      intro k hk
      show (if k = "VersionInfo".toList then versionInfo else parsedData k).getD [] =
        (parsedData k).getD []
      rw [if_neg hk]
    unfold buildV1
    rw [hne _ (by decide), hne _ (by decide), hne _ (by decide), hne _ (by decide),
      hne _ (by decide)]
    rfl
  · intro h
    unfold buildRPMInfo
    rw [h]

theorem buildV1_no_product_version_witness :
    buildRPMInfo sampleExternals "pkg.rpm".toList
        (ParseMetaData "Version : 1.2\nVersionInfo : x".toList) [] =
      RPMInfo.v1 (buildV1 sampleExternals "pkg.rpm".toList
        (ParseMetaData "Version : 1.2\nVersionInfo : x".toList) []) :=
  (buildV1_no_product_version sampleExternals "pkg.rpm".toList
    (ParseMetaData "Version : 1.2\nVersionInfo : x".toList)).2.2.2.2.2.2 (by decide)

/-- On a list without duplicate versions, `Compare` accepts the version of the
entry returned by `validateVersion` (the zero value on failure) exactly when it
accepts some entry of the list or accepts the empty version. -/
theorem Compare_validateVersion_iff (pv : Str) (arr : List V1VersionInfo)
    (hnd : (arr.map V1VersionInfo.Version).Nodup) :
    Compare pv (validateVersion pv arr).1.Version = true ↔
      (∃ e, e ∈ arr ∧ Compare pv e.Version = true) ∨ Compare pv [] = true := by
  rw [validateVersion_of_nodup pv arr hnd, scanLoop_eq]
  cases hf : arr.find? (fun e => decide (pv = e.Version)) with
  | some e =>
    have h1 : e ∈ arr := List.mem_of_find?_eq_some hf
    have h2 : pv = e.Version := by simpa using List.find?_some hf
    have h3 : Compare pv e.Version = true := by
      rw [← h2]
      unfold Compare
      exact compareLoop_self _ _ _
    simp only [h3, true_iff]
    exact Or.inl ⟨e, h1, h3⟩
  | none =>
    simp only
    cases hl : (arr.filter (fun e => Compare pv e.Version)).getLast? with
    | none =>
      have hnil : arr.filter (fun e => Compare pv e.Version) = [] :=
        List.getLast?_eq_none_iff.1 hl
      have hz : V1VersionInfo.zero.Version = [] := rfl
      simp only [Option.getD_none, if_true, hz]
      constructor
      · exact fun h => Or.inr h
      · rintro (⟨e, he, hc⟩ | h)
        · have : e ∈ arr.filter (fun e => Compare pv e.Version) :=
            List.mem_filter.2 ⟨he, hc⟩
          rw [hnil] at this
          cases this
        · exact h
    | some y =>
      obtain ⟨pre, post, hy1, hy2, _⟩ :=
        getLast?_filter_some (fun e => Compare pv e.Version) y arr hl
      have hmem : y ∈ arr := by rw [hy1]; simp
      simp only [Option.getD_some]
      split
      · rename_i hz
        have hz2 : V1VersionInfo.zero.Version = y.Version := by rw [hz]
        rw [hz2]
        simp only [hy2, true_iff]
        exact Or.inl ⟨y, hmem, hy2⟩
      · simp only [hy2, true_iff]
        exact Or.inl ⟨y, hmem, hy2⟩

/-- For an existing V1 package whose `VersionInfo` decodes without error to a
list free of duplicate versions, and a non-empty product version,
`isRPMCompatibile` succeeds exactly when `Compare` accepts some entry of the
list or accepts the empty version. -/
theorem isRPMCompatibile_v1_iff (w : World) (ext : Externals) (pv rpmFile : Str)
    (tr : List Call) (arr : List V1VersionInfo)
    (hstat : w.stat tr rpmFile ≠ StatResult.notExist)
    (hq : (ext.GetRPMPackageInfo rpmFile).2 = none)
    (hv1 : ParseMetaData (ext.GetRPMPackageInfo rpmFile).1 FormatVersionName = none)
    (hjson : ext.jsonUnmarshal
      ((ParseMetaData (ext.GetRPMPackageInfo rpmFile).1).get "VersionInfo".toList) = (arr, none))
    (hnd : (arr.map V1VersionInfo.Version).Nodup) (hpv : pv ≠ []) :
    (isRPMCompatibile w ext pv rpmFile tr).1 = none ↔
      (∃ e, e ∈ arr ∧ Compare pv e.Version = true) ∨ Compare pv [] = true := by
  have hfile : (fileExists w tr rpmFile).1 = none := by
    unfold fileExists
    cases hs : w.stat tr rpmFile with
    | ok => rfl
    | notExist => exact absurd hs hstat
    | failed => rfl
  have hlist : ListRPMFilesInfo ext [rpmFile] pv =
      ([RPMInfo.v1 (buildV1 ext rpmFile (ParseMetaData (ext.GetRPMPackageInfo rpmFile).1) pv)],
        none) := by
    unfold ListRPMFilesInfo listLoop
    simp only [hq, buildRPMInfo, hv1]
    rfl
  have hmatched : (buildV1 ext rpmFile (ParseMetaData (ext.GetRPMPackageInfo rpmFile).1)
      pv).matchedVersion = (validateVersion pv arr).1.Version := by
    unfold buildV1 GetCompatibileVersionInfo validateJSONFormat
    simp only [hpv, ne_eq, not_false_eq_true, if_true, hjson]
    cases (validateVersion pv arr).2 <;> rfl
  rw [← Compare_validateVersion_iff pv arr hnd, ← hmatched]
  unfold isRPMCompatibile
  simp only [hfile, hlist, RPMInfo.GetMatchedVersion]
  by_cases hc : Compare pv (buildV1 ext rpmFile
      (ParseMetaData (ext.GetRPMPackageInfo rpmFile).1) pv).matchedVersion = true
  · simp [hc]
  · simp [hc]

/-! ## `Compare` and trailing zero segments -/

theorem splitAux_append_sep (sep : Char) (a b : Str) : ∀ cur : Str,
    splitAux sep (a ++ sep :: b) cur = splitAux sep a cur ++ splitAux sep b [] := by
  induction a with
  | nil => intro cur; simp [splitAux]
  | cons c a ih =>
    intro cur
    by_cases hc : c = sep
    · rw [List.cons_append, splitAux, if_pos hc, splitAux, if_pos hc, ih]
      rfl
    · rw [List.cons_append, splitAux, if_neg hc, splitAux, if_neg hc, ih]

/-- Splitting a text that has a separator in the middle gives the pieces of the
two parts. -/
theorem Split_append_sep (sep : Char) (a b : Str) :
    Split (a ++ sep :: b) sep = Split a sep ++ Split b sep := by
  unfold Split
  exact splitAux_append_sep sep a b []

theorem getD_append_zero (l : List Str) : ∀ j : Nat,
    (l ++ ["0".toList]).getD j "0".toList = l.getD j "0".toList := by
  induction l with
  | nil =>
    intro j
    cases j with
    | zero => rfl
    | succ j => rfl
  | cons a l ih =>
    intro j
    cases j with
    | zero => rfl
    | succ j => exact ih j

/-- With a bound that covers both segment lists the loop of `Compare` tests all
positions, the padded ones included. -/
theorem compareLoop_iff_unbounded (pn vn : List Str) (k : Nat)
    (hk : max pn.length vn.length ≤ k) :
    compareLoop pn vn k 0 = true ↔
      ∀ j, (∀ l, l ≤ j → vn.getD l "0".toList ≠ "*".toList) →
        pn.getD j "0".toList = vn.getD j "0".toList := by
  rw [compareLoop_iff]
  constructor
  · intro h j hs
    by_cases hj : j < k
    · exact h j (Nat.zero_le j) (by omega) (fun l _ hl => hs l hl)
    · rw [List.getD_eq_default _ _ (by omega), List.getD_eq_default _ _ (by omega)]
  · intro h j _ _ hs
    exact h j (fun l hl => hs l (Nat.zero_le l) hl)

theorem Compare_true_iff (p pat : Str) :
    Compare p pat = true ↔
      ∀ j, (∀ l, l ≤ j → (Split pat '.').getD l "0".toList ≠ "*".toList) →
        (Split p '.').getD j "0".toList = (Split pat '.').getD j "0".toList := by
  unfold Compare
  apply compareLoop_iff_unbounded
  split <;> omega

/-- C29. Appending `.0` to the product version or to the pattern does not change
the result of `Compare`; in particular `Compare("2", "2.0.0")` and
`Compare("2.0.0", "2")` are true. -/
theorem Compare_append_zero (p pat : Str) :
    Compare (p ++ ".0".toList) pat = Compare p pat ∧
    Compare p (pat ++ ".0".toList) = Compare p pat ∧
    Compare "2".toList "2.0.0".toList = true ∧
    Compare "2.0.0".toList "2".toList = true := by
  have hs : ∀ s : Str, Split (s ++ ".0".toList) '.' = Split s '.' ++ ["0".toList] := by
    intro s
    exact Split_append_sep '.' s "0".toList
  refine ⟨?_, ?_, by decide, by decide⟩
  · rw [Bool.eq_iff_iff, Compare_true_iff, Compare_true_iff, hs]
    simp only [getD_append_zero]
  · rw [Bool.eq_iff_iff, Compare_true_iff, Compare_true_iff, hs]
    simp only [getD_append_zero]

/-! ## Selection failures in the V1 branch, selection in the V2 branch -/

theorem validateVersion_error_zero (pv : Str) (arr : List V1VersionInfo)
    (h : (validateVersion pv arr).2 ≠ none) :
    (validateVersion pv arr).1 = V1VersionInfo.zero := by
  unfold validateVersion at h ⊢
  simp only at h ⊢
  split
  · rfl
  · rename_i hd
    simp only [hd] at h
    split
    · rename_i v hv
      rw [hv] at h
      exact absurd rfl h
    · rename_i info hv
      rw [hv] at h
      simp only at h
      split
      · rfl
      · rename_i hz
        rw [if_neg hz] at h
        exact absurd rfl h

theorem GetCompatibileVersionInfo_error_zero (ju : Str → List V1VersionInfo × Option Str)
    (pv s : Str) (h : (GetCompatibileVersionInfo ju pv s).2 ≠ none) :
    (GetCompatibileVersionInfo ju pv s).1 = V1VersionInfo.zero := by
  unfold GetCompatibileVersionInfo at h ⊢
  simp only at h ⊢
  split
  · rfl
  · rename_i hj
    rw [hj] at h
    simp only at h
    split
    · rename_i e he
      exact validateVersion_error_zero pv _ (by rw [he]; simp)
    · rename_i he
      rw [he] at h
      exact absurd rfl h

/-- The three ways the selection fails: the decoder reports an error, two
entries carry the same version, or `Compare` accepts no entry. -/
theorem GetCompatibileVersionInfo_fails (ju : Str → List V1VersionInfo × Option Str)
    (pv s : Str)
    (h : (ju s).2 ≠ none ∨ ¬ ((ju s).1.map V1VersionInfo.Version).Nodup ∨
      ∀ e, e ∈ (ju s).1 → Compare pv e.Version = false) :
    (GetCompatibileVersionInfo ju pv s).2 ≠ none := by
  unfold GetCompatibileVersionInfo validateJSONFormat
  simp only
  cases hj : (ju s).2 with
  | some e => simp
  | none =>
    simp only
    have hv : (validateVersion pv (ju s).1).2 ≠ none := by
      rcases h with h | h | h
      · exact absurd hj h
      · unfold validateVersion
        simp [(duplicateLoop_nil_iff _).2 h]
      · by_cases hnd : ((ju s).1.map V1VersionInfo.Version).Nodup
        · rw [validateVersion_error_iff pv _ hnd]
          have hnil : (ju s).1.filter (fun e => Compare pv e.Version) = [] := by
            rw [List.filter_eq_nil_iff]
            intro e he
            simp [h e he]
          refine ⟨?_, by rw [hnil]; rfl⟩
          intro e he hev
          have hc : Compare pv e.Version = true := by
            rw [hev]
            unfold Compare
            exact compareLoop_self _ _ _
          rw [h e he] at hc
          cases hc
        · unfold validateVersion
          simp [(duplicateLoop_nil_iff _).2 hnd]
    cases hv2 : (validateVersion pv (ju s).1).2 with
    | none => exact absurd hv2 hv
    | some e => simp

/-- C21. For a package whose query succeeds, whose metadata has no format
version field, and a non-empty product version: when the selection returns an
error, `ListRPMFilesInfo` returns no error and one V1 record whose matched
version, reboot indicator and estimate are all empty; and the selection returns
an error when the decoder fails, when two entries carry the same version, and
when `Compare` accepts no entry. -/
theorem ListRPMFilesInfo_selection_failure (ext : Externals) (file pv : Str)
    (hq : (ext.GetRPMPackageInfo file).2 = none)
    (hv1 : ParseMetaData (ext.GetRPMPackageInfo file).1 FormatVersionName = none)
    (hpv : pv ≠ [])
    (hfail : (GetCompatibileVersionInfo ext.jsonUnmarshal pv
      ((ParseMetaData (ext.GetRPMPackageInfo file).1).get "VersionInfo".toList)).2 ≠ none) :
    (∃ r : v1RPMInfo, ListRPMFilesInfo ext [file] pv = ([RPMInfo.v1 r], none) ∧
      r.matchedVersion = [] ∧ r.Reboot = [] ∧ r.Hours = [] ∧ r.Minutes = [] ∧
      r.Seconds = []) ∧
    (∀ (ju : Str → List V1VersionInfo × Option Str) (s : Str),
      ((ju s).2 ≠ none ∨ ¬ ((ju s).1.map V1VersionInfo.Version).Nodup ∨
        ∀ e, e ∈ (ju s).1 → Compare pv e.Version = false) →
      (GetCompatibileVersionInfo ju pv s).2 ≠ none) := by
  refine ⟨?_, fun ju s h => GetCompatibileVersionInfo_fails ju pv s h⟩
  have hz := GetCompatibileVersionInfo_error_zero _ _ _ hfail
  refine ⟨buildV1 ext file (ParseMetaData (ext.GetRPMPackageInfo file).1) pv, ?_, ?_⟩
  · unfold ListRPMFilesInfo listLoop
    simp only [hq, buildRPMInfo, hv1]
    rfl
  · unfold buildV1
    simp only [hpv, ne_eq, not_false_eq_true, if_true, hz]
    exact ⟨rfl, rfl, rfl, rfl, rfl⟩

theorem ListRPMFilesInfo_selection_failure_witness :
    ∃ r : v1RPMInfo, ListRPMFilesInfo sampleExternals ["pkg.rpm".toList] "9.9".toList =
        ([RPMInfo.v1 r], none) ∧
      r.matchedVersion = [] ∧ r.Reboot = [] ∧ r.Hours = [] ∧ r.Minutes = [] ∧ r.Seconds = [] :=
  (ListRPMFilesInfo_selection_failure sampleExternals "pkg.rpm".toList "9.9".toList
    rfl (by decide) (by decide) (by decide)).1

theorem applyEntry_applyEntry (d : v2RPMInfo) (e e2 : V2VersionEntry) :
    applyEntry (applyEntry d e) e2 = applyEntry d e2 := rfl

/-- A loop that assigns from every entry satisfying `q` ends with the
assignment from the last such entry, or with the record it started from. -/
theorem foldl_select (q : V2VersionEntry → Bool) (step : v2RPMInfo → V2VersionEntry → v2RPMInfo)
    (hstep : ∀ d e, step d e = if q e = true then applyEntry d e else d)
    (d : v2RPMInfo) : ∀ entries : List V2VersionEntry,
    entries.foldl step d =
      match (entries.filter q).getLast? with
      | none => d
      | some e => applyEntry d e := by
  intro entries
  induction entries using List.reverseRecOn with
  | nil => rfl
  | append_singleton init a ih =>
    rw [List.foldl_append, List.filter_append, ih]
    simp only [List.foldl_cons, List.foldl_nil, hstep]
    by_cases hq : q a = true
    · have hf : List.filter q [a] = [a] := by simp [hq]
      rw [hf, List.getLast?_concat, if_pos hq]
      cases (init.filter q).getLast? with
      | none => rfl
      | some e => rfl
    · have hf : List.filter q [a] = [] := by simp [hq]
      rw [hf, List.append_nil, if_neg hq]

theorem getLast?_filter_of_split {α : Type} (q : α → Bool) (pre post : List α) (e : α)
    (he : q e = true) (hpost : ∀ x, x ∈ post → q x = false) :
    ((pre ++ e :: post).filter q).getLast? = some e := by
  have h1 : post.filter q = [] := by
    rw [List.filter_eq_nil_iff]
    intro x hx
    simp [hpost x hx]
  have h2 : (pre ++ e :: post).filter q = pre.filter q ++ [e] := by
    rw [List.filter_append, List.filter_cons, if_pos he, h1]
  rw [h2, List.getLast?_concat]

/-- C25. For a non-empty product version and a record whose matched version is
still empty: if an entry carries the product version, `selectV2` assigns the
stages of such an entry (the last one) and the matched version is the product
version, whatever `Compare` accepts; if none does, it assigns the stages and the
version of the last entry that `Compare` accepts; if `Compare` accepts no entry
the record is left as it is. The V2 branch applies `selectV2` to the decoded
compatibility list and a record with an empty matched version. -/
theorem selectV2_policy (pv : Str) (entries : List V2VersionEntry) (d : v2RPMInfo)
    (hpv : pv ≠ []) (hd : d.matchedVersion = []) :
    ((∃ e, e ∈ entries ∧ e.Version = pv) →
      ∃ e, e ∈ entries ∧ e.Version = pv ∧ selectV2 pv entries d = applyEntry d e ∧
        (selectV2 pv entries d).matchedVersion = pv ∧
        (selectV2 pv entries d).stages = e.stages) ∧
    ((∀ e, e ∈ entries → e.Version ≠ pv) →
      ∀ pre e post, entries = pre ++ e :: post → Compare pv e.Version = true →
        (∀ x, x ∈ post → Compare pv x.Version = false) →
        selectV2 pv entries d = applyEntry d e ∧
          (selectV2 pv entries d).matchedVersion = e.Version ∧
          (selectV2 pv entries d).stages = e.stages) ∧
    ((∀ e, e ∈ entries → Compare pv e.Version = false) →
      selectV2 pv entries d = d ∧ (selectV2 pv entries d).matchedVersion = [] ∧
        (selectV2 pv entries d).stages = d.stages) ∧
    (∀ (ext : Externals) (file : Str) (parsedData : FieldMap),
      (buildV2 ext file parsedData []).matchedVersion = [] ∧
        buildV2 ext file parsedData pv =
          selectV2 pv (ext.yamlUnmarshalCompat (parsedData.get "RPM Info".toList))
            (buildV2 ext file parsedData [])) := by
  have hexact := foldl_select (fun e => decide (pv = e.Version)) (exactStep pv)
    (fun d e => by unfold exactStep applyEntry; by_cases h : pv = e.Version <;> simp [h]) d entries
  have hpat := foldl_select (fun e => Compare pv e.Version) (patternStep pv)
    (fun d e => by unfold patternStep applyEntry; rfl) d entries
  refine ⟨?_, ?_, ?_, ?_⟩
  · rintro ⟨e0, he0, hv0⟩
    cases hl : (entries.filter (fun e => decide (pv = e.Version))).getLast? with
    | none =>
      have hnil := List.getLast?_eq_none_iff.1 hl
      have : e0 ∈ entries.filter (fun e => decide (pv = e.Version)) :=
        List.mem_filter.2 ⟨he0, by simp [hv0]⟩
      rw [hnil] at this
      cases this
    | some e =>
      have hmem : e ∈ entries.filter (fun e => decide (pv = e.Version)) :=
        List.mem_of_getLast?_eq_some hl
      have hev : e.Version = pv := by
        have := (List.mem_filter.1 hmem).2
        simp only [decide_eq_true_eq] at this
        exact this.symm
      have hsel : selectV2 pv entries d = applyEntry d e := by
        unfold selectV2
        simp only
        rw [hexact, hl]
        simp only
        have hne : ¬ (applyEntry d e).matchedVersion = [] := by
          show ¬ e.Version = []
          rw [hev]
          exact hpv
        rw [if_neg hne]
      refine ⟨e, (List.mem_filter.1 hmem).1, hev, hsel, ?_, ?_⟩
      · rw [hsel]; exact hev
      · rw [hsel]; rfl
  · intro hnone pre e post hsplit hc hpost
    have hnil : entries.filter (fun e => decide (pv = e.Version)) = [] := by
      rw [List.filter_eq_nil_iff]
      intro x hx
      simp only [decide_eq_true_eq]
      exact fun h => hnone x hx h.symm
    have hsel : selectV2 pv entries d = applyEntry d e := by
      unfold selectV2
      simp only
      rw [hexact, hnil]
      simp only [List.getLast?_nil, hd, if_true]
      rw [hpat, hsplit, getLast?_filter_of_split (fun e => Compare pv e.Version) pre post e hc hpost]
    refine ⟨hsel, ?_, ?_⟩
    · rw [hsel]; rfl
    · rw [hsel]; rfl
  · intro hno
    have hnil : entries.filter (fun e => decide (pv = e.Version)) = [] := by
      rw [List.filter_eq_nil_iff]
      intro x hx
      simp only [decide_eq_true_eq]
      intro h
      have hc : Compare pv x.Version = true := by
        rw [← h]
        unfold Compare
        exact compareLoop_self _ _ _
      rw [hno x hx] at hc
      cases hc
    have hnil2 : entries.filter (fun e => Compare pv e.Version) = [] := by
      rw [List.filter_eq_nil_iff]
      intro x hx
      simp [hno x hx]
    have hsel : selectV2 pv entries d = d := by
      unfold selectV2
      simp only
      rw [hexact, hnil]
      simp only [List.getLast?_nil, hd, if_true]
      rw [hpat, hnil2]
      rfl
    refine ⟨hsel, ?_, ?_⟩
    · rw [hsel]; exact hd
    · rw [hsel]
  · intro ext file parsedData
    refine ⟨rfl, ?_⟩
    unfold buildV2
    simp only [hpv, ne_eq, not_false_eq_true, if_true, not_true_eq_false, if_false]

theorem selectV2_policy_witness :
    selectV2 "1.0".toList
        [⟨"1.*".toList, ⟨⟨[], 1, false, false⟩, ⟨[], 0, false⟩, ⟨[], 0⟩⟩⟩,
          ⟨"1.0".toList, ⟨⟨[], 2, false, false⟩, ⟨[], 0, false⟩, ⟨[], 0⟩⟩⟩,
          ⟨"*".toList, ⟨⟨[], 3, false, false⟩, ⟨[], 0, false⟩, ⟨[], 0⟩⟩⟩]
        ⟨[], [], [], [], [], [], [], [], v2productVersion.zero⟩ =
      ⟨[], [], [], [], [], [], [], "1.0".toList,
        ⟨⟨[], 2, false, false⟩, ⟨[], 0, false⟩, ⟨[], 0⟩⟩⟩ ∧
    selectV2 "1.1".toList
        [⟨"1.*".toList, ⟨⟨[], 1, false, false⟩, ⟨[], 0, false⟩, ⟨[], 0⟩⟩⟩,
          ⟨"1.0".toList, ⟨⟨[], 2, false, false⟩, ⟨[], 0, false⟩, ⟨[], 0⟩⟩⟩,
          ⟨"*".toList, ⟨⟨[], 3, false, false⟩, ⟨[], 0, false⟩, ⟨[], 0⟩⟩⟩]
        ⟨[], [], [], [], [], [], [], [], v2productVersion.zero⟩ =
      applyEntry ⟨[], [], [], [], [], [], [], [], v2productVersion.zero⟩
        ⟨"*".toList, ⟨⟨[], 3, false, false⟩, ⟨[], 0, false⟩, ⟨[], 0⟩⟩⟩ :=
  ⟨by decide,
    ((selectV2_policy "1.1".toList
      [⟨"1.*".toList, ⟨⟨[], 1, false, false⟩, ⟨[], 0, false⟩, ⟨[], 0⟩⟩⟩,
        ⟨"1.0".toList, ⟨⟨[], 2, false, false⟩, ⟨[], 0, false⟩, ⟨[], 0⟩⟩⟩,
        ⟨"*".toList, ⟨⟨[], 3, false, false⟩, ⟨[], 0, false⟩, ⟨[], 0⟩⟩⟩]
      ⟨[], [], [], [], [], [], [], [], v2productVersion.zero⟩ (by decide) rfl).2.1
      (by decide)
      [⟨"1.*".toList, ⟨⟨[], 1, false, false⟩, ⟨[], 0, false⟩, ⟨[], 0⟩⟩⟩,
        ⟨"1.0".toList, ⟨⟨[], 2, false, false⟩, ⟨[], 0, false⟩, ⟨[], 0⟩⟩⟩]
      ⟨"*".toList, ⟨⟨[], 3, false, false⟩, ⟨[], 0, false⟩, ⟨[], 0⟩⟩⟩ [] rfl (by decide)
      (by decide)).1⟩

/-! ## The direct path fails fast -/

/-- C23. Without a software name, and with a name but without a type,
`runCmdFromRPM` returns an `Invalid usage` error and makes no call at all; when
`os.Stat` fails on the artifact path it returns the `not found` error and that
`os.Stat` is the only call made. -/
theorem runCmdFromRPM_fail_fast (w : World) (ext : Externals) (action swName swType : Str)
    (params : FieldMap) (tr : List Call) :
    (swName = [] →
      runCmdFromRPM w ext action swName swType params tr =
        (some "Invalid usage. Software name must be specified.".toList, tr)) ∧
    (swName ≠ [] → swType = [] →
      runCmdFromRPM w ext action swName swType params tr =
        (some "Invalid usage. Software type must be specified.".toList, tr)) ∧
    (swName ≠ [] → swType ≠ [] →
      w.stat tr (absSwPathOf w params swType swName) ≠ StatResult.ok →
      runCmdFromRPM w ext action swName swType params tr =
        (some ("Unable to install ".toList ++ swType ++ " software ".toList ++ swName ++
          ". Specified software not found.".toList),
          tr ++ [Call.stat (absSwPathOf w params swType swName)])) := by
  refine ⟨?_, ?_, ?_⟩
  · intro hn
    unfold runCmdFromRPM
    rw [if_pos hn]
  · intro hn ht
    unfold runCmdFromRPM
    rw [if_neg hn, if_pos ht]
  · intro hn ht hs
    unfold runCmdFromRPM
    rw [if_neg hn, if_neg ht]
    cases hst : w.stat tr (absSwPathOf w params swType swName) with
    | ok => exact absurd hst hs
    | notExist => simp only [hst]
    | failed => simp only [hst]

theorem runCmdFromRPM_fail_fast_witness :
    runCmdFromRPM (sampleWorld [] [] ["a.rpm".toList]) sampleExternals "install".toList
        "a.rpm".toList [] FieldMap.empty [] =
      (some "Invalid usage. Software type must be specified.".toList, []) :=
  (runCmdFromRPM_fail_fast (sampleWorld [] [] ["a.rpm".toList]) sampleExternals
    "install".toList "a.rpm".toList [] FieldMap.empty []).2.1 (by decide) rfl

/-! ## The staged operations: order, outcome, frame -/

theorem stageOk_none (w : World) (tr : List Call) (pt library : Str)
    (h : (w.pmRun tr pt library).2 = none) : stageOk w tr pt library = true := by
  unfold stageOk; rw [h]; rfl

theorem stageOk_some (w : World) (tr : List Call) (pt library e : Str)
    (h : (w.pmRun tr pt library).2 = some e) : stageOk w tr pt library = false := by
  unfold stageOk; rw [h]; rfl

/-- The result of `Commit` in each of its three courses. -/
theorem Commit_eq (w : World) (result : Status) (library : Str) (tr : List Call) :
    Commit w result library tr =
      if stageOk w tr "commit-precheck".toList library = true then
        (stageOk w (tr ++ [Call.pmRun "commit-precheck".toList library]) "commit".toList library,
          { result with
            Commit := result.Commit ++
              [stageEntry w tr "commit-precheck".toList library,
                stageEntry w (tr ++ [Call.pmRun "commit-precheck".toList library])
                  "commit".toList library] },
          tr ++ [Call.pmRun "commit-precheck".toList library,
            Call.pmRun "commit".toList library])
      else
        (false,
          { result with
            Commit := result.Commit ++ [stageEntry w tr "commit-precheck".toList library] },
          tr ++ [Call.pmRun "commit-precheck".toList library]) := by
  cases h1 : (w.pmRun tr "commit-precheck".toList library).2 with
  | some e =>
    rw [stageOk_some w tr _ library e h1]
    simp only [Commit, commitLoop, runPM, h1, stageEntry]
    rfl
  | none =>
    rw [stageOk_none w tr _ library h1]
    cases h2 : (w.pmRun (tr ++ [Call.pmRun "commit-precheck".toList library])
        "commit".toList library).2 with
    | some e =>
      rw [stageOk_some w _ _ library e h2]
      simp only [Commit, commitLoop, runPM, h1, h2, stageEntry, List.append_assoc,
        List.cons_append, List.nil_append]
      rfl
    | none =>
      rw [stageOk_none w _ _ library h2]
      simp only [Commit, commitLoop, runPM, h1, h2, stageEntry, List.append_assoc,
        List.cons_append, List.nil_append]
      rfl

/-- The result of `Rollback` in each of its three courses. -/
theorem Rollback_eq (w : World) (result : Status) (library : Str) (tr : List Call) :
    Rollback w result library tr =
      if stageOk w tr "rollback-precheck".toList library = true then
        if stageOk w (tr ++ [Call.pmRun "rollback-precheck".toList library])
            "prerollback".toList library = true then
          (true,
            { result with
              Rollback := result.Rollback ++
                [stageEntry w tr "rollback-precheck".toList library,
                  stageEntry w (tr ++ [Call.pmRun "rollback-precheck".toList library])
                    "prerollback".toList library]
              Status := dStatusOk },
            tr ++ [Call.pmRun "rollback-precheck".toList library,
              Call.pmRun "prerollback".toList library])
        else
          (false,
            { result with
              Rollback := result.Rollback ++
                [stageEntry w tr "rollback-precheck".toList library,
                  stageEntry w (tr ++ [Call.pmRun "rollback-precheck".toList library])
                    "prerollback".toList library] },
            tr ++ [Call.pmRun "rollback-precheck".toList library,
              Call.pmRun "prerollback".toList library])
      else
        (false,
          { result with
            Rollback := result.Rollback ++ [stageEntry w tr "rollback-precheck".toList library] },
          tr ++ [Call.pmRun "rollback-precheck".toList library]) := by
  cases h1 : (w.pmRun tr "rollback-precheck".toList library).2 with
  | some e =>
    rw [stageOk_some w tr _ library e h1]
    simp only [Rollback, rollbackLoop, runPM, h1, stageEntry]
    rfl
  | none =>
    rw [stageOk_none w tr _ library h1]
    cases h2 : (w.pmRun (tr ++ [Call.pmRun "rollback-precheck".toList library])
        "prerollback".toList library).2 with
    | some e =>
      rw [stageOk_some w _ _ library e h2]
      simp only [Rollback, rollbackLoop, runPM, h1, h2, stageEntry, List.append_assoc,
        List.cons_append, List.nil_append]
      rfl
    | none =>
      rw [stageOk_none w _ _ library h2]
      simp only [Rollback, rollbackLoop, runPM, h1, h2, stageEntry, List.append_assoc,
        List.cons_append, List.nil_append]
      rfl

/-- The result of `Install` in each of its three courses. -/
theorem Install_eq (w : World) (result : Status) (library : Str) (tr : List Call) :
    Install w result library tr =
      if stageOk w tr "preinstall".toList library = true then
        if stageOk w (tr ++ [Call.pmRun "preinstall".toList library])
            "install".toList library = true then
          (true,
            { result with
              Install := result.Install ++
                [stageEntry w tr "preinstall".toList library,
                  stageEntry w (tr ++ [Call.pmRun "preinstall".toList library])
                    "install".toList library]
              Status := dStatusOk },
            tr ++ [Call.pmRun "preinstall".toList library, Call.pmRun "install".toList library])
        else
          (false,
            { result with
              Install := result.Install ++
                [stageEntry w tr "preinstall".toList library,
                  stageEntry w (tr ++ [Call.pmRun "preinstall".toList library])
                    "install".toList library,
                  stageEntry w (tr ++ [Call.pmRun "preinstall".toList library,
                    Call.pmRun "install".toList library]) "rollback".toList library]
              Status := dStatusFail },
            tr ++ [Call.pmRun "preinstall".toList library, Call.pmRun "install".toList library,
              Call.pmRun "rollback".toList library])
      else
        (false,
          { result with
            Install := result.Install ++
              [stageEntry w tr "preinstall".toList library,
                stageEntry w (tr ++ [Call.pmRun "preinstall".toList library])
                  "rollback".toList library]
            Status := dStatusFail },
          tr ++ [Call.pmRun "preinstall".toList library, Call.pmRun "rollback".toList library]) := by
  cases h1 : (w.pmRun tr "preinstall".toList library).2 with
  | some e =>
    rw [stageOk_some w tr _ library e h1]
    simp only [Install, installLoop, runPM, h1, stageEntry, List.append_assoc,
      List.cons_append, List.nil_append]
    rfl
  | none =>
    rw [stageOk_none w tr _ library h1]
    cases h2 : (w.pmRun (tr ++ [Call.pmRun "preinstall".toList library])
        "install".toList library).2 with
    | some e =>
      rw [stageOk_some w _ _ library e h2]
      simp only [Install, installLoop, runPM, h1, h2, stageEntry, List.append_assoc,
        List.cons_append, List.nil_append]
      rfl
    | none =>
      rw [stageOk_none w _ _ library h2]
      simp only [Install, installLoop, runPM, h1, h2, stageEntry, List.append_assoc,
        List.cons_append, List.nil_append]
      rfl

/-- The result of `Reboot` in each of its three courses. -/
theorem Reboot_eq (w : World) (result : Status) (library : Str) (tr : List Call) :
    Reboot w result library tr =
      if stageOk w tr "prereboot".toList library = true then
        if rebootOk w (tr ++ [Call.pmRun "prereboot".toList library]) = true then
          (true,
            { result with
              Reboot := result.Reboot ++ [stageEntry w tr "prereboot".toList library] },
            tr ++ [Call.pmRun "prereboot".toList library,
              Call.exec "systemctl".toList ["reboot".toList]])
        else
          (false,
            { result with
              Reboot := result.Reboot ++ [stageEntry w tr "prereboot".toList library]
              StdOutErr := "Failed to reboot the system.".toList },
            tr ++ [Call.pmRun "prereboot".toList library,
              Call.exec "systemctl".toList ["reboot".toList]])
      else
        (false,
          { result with
            Reboot := result.Reboot ++
              [stageEntry w tr "prereboot".toList library,
                stageEntry w (tr ++ [Call.pmRun "prereboot".toList library])
                  "rollback".toList library]
            Status := dStatusFail
            StdOutErr := ((w.pmRun tr "prereboot".toList library).2).getD [] },
          tr ++ [Call.pmRun "prereboot".toList library, Call.pmRun "rollback".toList library]) := by
  cases h1 : (w.pmRun tr "prereboot".toList library).2 with
  | some e =>
    rw [stageOk_some w tr _ library e h1]
    simp only [Reboot, rebootLoop, runPM, h1, stageEntry, List.append_assoc,
      List.cons_append, List.nil_append]
    rfl
  | none =>
    rw [stageOk_none w tr _ library h1]
    cases h2 : (w.exec (tr ++ [Call.pmRun "prereboot".toList library]) "systemctl".toList
        ["reboot".toList]).2 with
    | some e =>
      have hr : rebootOk w (tr ++ [Call.pmRun "prereboot".toList library]) = false := by
        unfold rebootOk; rw [h2]; rfl
      rw [hr]
      simp only [Reboot, rebootLoop, runPM, h1, h2, stageEntry, List.append_assoc,
        List.cons_append, List.nil_append]
      rfl
    | none =>
      have hr : rebootOk w (tr ++ [Call.pmRun "prereboot".toList library]) = true := by
        unfold rebootOk; rw [h2]; rfl
      rw [hr]
      simp only [Reboot, rebootLoop, runPM, h1, h2, stageEntry, List.append_assoc,
        List.cons_append, List.nil_append]
      rfl

/-- C26. For every environment: the calls of each operation are its declared
stages in declared order, a stage (and for `Reboot` the command
`systemctl reboot`) being called only when all earlier stages succeeded, with a
`rollback` run after a failed stage of `Install` and `Reboot` only; the value
returned is `true` exactly when all declared stages (and the reboot command)
succeeded; and then the bucket has gained the entries of the declared stages in
order and nothing else. -/
theorem staged_operations_order (w : World) (result : Status) (library : Str)
    (tr : List Call) :
    ((Commit w result library tr).2.2 =
        tr ++ Call.pmRun "commit-precheck".toList library ::
          (if stageOk w tr "commit-precheck".toList library = true then
            [Call.pmRun "commit".toList library] else []) ∧
      (Commit w result library tr).1 =
        (stageOk w tr "commit-precheck".toList library &&
          stageOk w (tr ++ [Call.pmRun "commit-precheck".toList library])
            "commit".toList library) ∧
      ((Commit w result library tr).1 = true →
        (Commit w result library tr).2.1 =
          { result with
            Commit := result.Commit ++
              [stageEntry w tr "commit-precheck".toList library,
                stageEntry w (tr ++ [Call.pmRun "commit-precheck".toList library])
                  "commit".toList library] })) ∧
    ((Install w result library tr).2.2 =
        tr ++ Call.pmRun "preinstall".toList library ::
          (if stageOk w tr "preinstall".toList library = true then
            Call.pmRun "install".toList library ::
              (if stageOk w (tr ++ [Call.pmRun "preinstall".toList library])
                  "install".toList library = true then []
                else [Call.pmRun "rollback".toList library])
          else [Call.pmRun "rollback".toList library]) ∧
      (Install w result library tr).1 =
        (stageOk w tr "preinstall".toList library &&
          stageOk w (tr ++ [Call.pmRun "preinstall".toList library])
            "install".toList library) ∧
      ((Install w result library tr).1 = true →
        (Install w result library tr).2.1 =
          { result with
            Install := result.Install ++
              [stageEntry w tr "preinstall".toList library,
                stageEntry w (tr ++ [Call.pmRun "preinstall".toList library])
                  "install".toList library]
            Status := dStatusOk })) ∧
    ((Reboot w result library tr).2.2 =
        tr ++ Call.pmRun "prereboot".toList library ::
          (if stageOk w tr "prereboot".toList library = true then
            [Call.exec "systemctl".toList ["reboot".toList]]
          else [Call.pmRun "rollback".toList library]) ∧
      (Reboot w result library tr).1 =
        (stageOk w tr "prereboot".toList library &&
          rebootOk w (tr ++ [Call.pmRun "prereboot".toList library])) ∧
      ((Reboot w result library tr).1 = true →
        (Reboot w result library tr).2.1 =
          { result with
            Reboot := result.Reboot ++ [stageEntry w tr "prereboot".toList library] })) ∧
    ((Rollback w result library tr).2.2 =
        tr ++ Call.pmRun "rollback-precheck".toList library ::
          (if stageOk w tr "rollback-precheck".toList library = true then
            [Call.pmRun "prerollback".toList library] else []) ∧
      (Rollback w result library tr).1 =
        (stageOk w tr "rollback-precheck".toList library &&
          stageOk w (tr ++ [Call.pmRun "rollback-precheck".toList library])
            "prerollback".toList library) ∧
      ((Rollback w result library tr).1 = true →
        (Rollback w result library tr).2.1 =
          { result with
            Rollback := result.Rollback ++
              [stageEntry w tr "rollback-precheck".toList library,
                stageEntry w (tr ++ [Call.pmRun "rollback-precheck".toList library])
                  "prerollback".toList library]
            Status := dStatusOk })) := by
  refine ⟨?_, ?_, ?_, ?_⟩
  · rw [Commit_eq]
    cases stageOk w tr "commit-precheck".toList library
    · simp
    · cases stageOk w (tr ++ [Call.pmRun "commit-precheck".toList library])
        "commit".toList library <;> simp
  · rw [Install_eq]
    cases stageOk w tr "preinstall".toList library
    · simp
    · cases stageOk w (tr ++ [Call.pmRun "preinstall".toList library])
        "install".toList library <;> simp
  · rw [Reboot_eq]
    cases stageOk w tr "prereboot".toList library
    · simp
    · cases rebootOk w (tr ++ [Call.pmRun "prereboot".toList library]) <;> simp
  · rw [Rollback_eq]
    cases stageOk w tr "rollback-precheck".toList library
    · simp
    · cases stageOk w (tr ++ [Call.pmRun "rollback-precheck".toList library])
        "prerollback".toList library <;> simp

/-- C27. Each operation leaves the three other buckets as they are and extends
its own bucket at the end; and when `Install` returns `false`, and when the
`prereboot` stage of `Reboot` fails, the last call is the `rollback` run and its
run status is the last entry of the `Install`, respectively `Reboot`, bucket. -/
theorem staged_operations_frame (w : World) (result : Status) (library : Str)
    (tr : List Call) :
    ((∃ l, (Commit w result library tr).2.1.Commit = result.Commit ++ l) ∧
      (Commit w result library tr).2.1.Install = result.Install ∧
      (Commit w result library tr).2.1.Reboot = result.Reboot ∧
      (Commit w result library tr).2.1.Rollback = result.Rollback) ∧
    ((∃ l, (Install w result library tr).2.1.Install = result.Install ++ l) ∧
      (Install w result library tr).2.1.Commit = result.Commit ∧
      (Install w result library tr).2.1.Reboot = result.Reboot ∧
      (Install w result library tr).2.1.Rollback = result.Rollback) ∧
    ((∃ l, (Reboot w result library tr).2.1.Reboot = result.Reboot ++ l) ∧
      (Reboot w result library tr).2.1.Commit = result.Commit ∧
      (Reboot w result library tr).2.1.Install = result.Install ∧
      (Reboot w result library tr).2.1.Rollback = result.Rollback) ∧
    ((∃ l, (Rollback w result library tr).2.1.Rollback = result.Rollback ++ l) ∧
      (Rollback w result library tr).2.1.Commit = result.Commit ∧
      (Rollback w result library tr).2.1.Install = result.Install ∧
      (Rollback w result library tr).2.1.Reboot = result.Reboot) ∧
    ((Install w result library tr).1 = false →
      ∃ tr2, (Install w result library tr).2.2 = tr2 ++ [Call.pmRun "rollback".toList library] ∧
        (Install w result library tr).2.1.Install.getLast? =
          some (stageEntry w tr2 "rollback".toList library)) ∧
    (stageOk w tr "prereboot".toList library = false →
      (Reboot w result library tr).2.2 =
        tr ++ [Call.pmRun "prereboot".toList library, Call.pmRun "rollback".toList library] ∧
      (Reboot w result library tr).2.1.Reboot.getLast? =
        some (stageEntry w (tr ++ [Call.pmRun "prereboot".toList library])
          "rollback".toList library)) := by
  refine ⟨?_, ?_, ?_, ?_, ?_, ?_⟩
  · rw [Commit_eq]
    split
    · exact ⟨⟨_, rfl⟩, rfl, rfl, rfl⟩
    · exact ⟨⟨_, rfl⟩, rfl, rfl, rfl⟩
  · rw [Install_eq]
    split
    · split
      · exact ⟨⟨_, rfl⟩, rfl, rfl, rfl⟩
      · exact ⟨⟨_, rfl⟩, rfl, rfl, rfl⟩
    · exact ⟨⟨_, rfl⟩, rfl, rfl, rfl⟩
  · rw [Reboot_eq]
    split
    · split
      · exact ⟨⟨_, rfl⟩, rfl, rfl, rfl⟩
      · exact ⟨⟨_, rfl⟩, rfl, rfl, rfl⟩
    · exact ⟨⟨_, rfl⟩, rfl, rfl, rfl⟩
  · rw [Rollback_eq]
    split
    · split
      · exact ⟨⟨_, rfl⟩, rfl, rfl, rfl⟩
      · exact ⟨⟨_, rfl⟩, rfl, rfl, rfl⟩
    · exact ⟨⟨_, rfl⟩, rfl, rfl, rfl⟩
  · rw [Install_eq]
    split
    · split
      · intro h; cases h
      · intro _
        refine ⟨tr ++ [Call.pmRun "preinstall".toList library,
          Call.pmRun "install".toList library], by simp, ?_⟩
        simp
    · intro _
      refine ⟨tr ++ [Call.pmRun "preinstall".toList library], by simp, ?_⟩
      simp
  · intro h
    rw [Reboot_eq, h]
    simp

/-! ## `strings.Contains` and trimming -/

theorem Contains_iff (s t : Str) : Contains s t = true ↔ t <:+: s := by
  induction s with
  | nil =>
    simp only [Contains, List.isPrefixOf_iff_prefix, List.prefix_nil, List.infix_nil]
  | cons c cs ih =>
    simp only [Contains, Bool.or_eq_true, List.isPrefixOf_iff_prefix, ih, List.infix_cons_iff]

theorem TrimSpace_within (s : Str) : TrimSpace s <:+: s :=
  List.IsInfix.trans
    (List.IsPrefix.isInfix
      ( List.rdropWhile_prefix unicodeIsSpace (s.dropWhile unicodeIsSpace)))
    (List.IsSuffix.isInfix ( List.dropWhile_suffix unicodeIsSpace))

theorem dropWhile_append_cons (p : Char → Bool) (x : Char) (c : Str) (hx : p x = false) :
    ∀ a : Str, (a ++ x :: c).dropWhile p = a.dropWhile p ++ x :: c := by
  intro a
  induction a with
  | nil => simp [List.dropWhile, hx]
  | cons y a ih =>
    by_cases hy : p y = true
    · rw [List.cons_append, List.dropWhile_cons_of_pos hy, List.dropWhile_cons_of_pos hy, ih]
    · rw [List.cons_append, List.dropWhile_cons_of_neg hy, List.dropWhile_cons_of_neg hy]
      rfl

/-- A text that begins and ends with a character that is not white space is
contained in a string exactly when it is contained in the trimmed string. -/
theorem infix_TrimSpace_iff (s t1 : Str) (x y : Char) (hx : unicodeIsSpace x = false)
    (hy : unicodeIsSpace y = false) :
    (x :: t1 ++ [y]) <:+: TrimSpace s ↔ (x :: t1 ++ [y]) <:+: s := by
  constructor
  · intro h
    exact h.trans (TrimSpace_within s)
  · rintro ⟨a, b, hs⟩
    have h1 : s.dropWhile unicodeIsSpace =
        a.dropWhile unicodeIsSpace ++ x :: (t1 ++ [y] ++ b) := by
      rw [← hs]
      have : a ++ (x :: t1 ++ [y]) ++ b = a ++ x :: (t1 ++ [y] ++ b) := by simp
      rw [this, dropWhile_append_cons unicodeIsSpace x _ hx]
    have h2 : (a.dropWhile unicodeIsSpace ++ x :: (t1 ++ [y] ++ b)).reverse =
        b.reverse ++ y :: (t1.reverse ++ x :: (a.dropWhile unicodeIsSpace).reverse) := by
      simp
    refine ⟨a.dropWhile unicodeIsSpace, (b.reverse.dropWhile unicodeIsSpace).reverse, ?_⟩
    unfold TrimSpace
    rw [h1, h2, dropWhile_append_cons unicodeIsSpace y _ hy]
    simp

theorem Contains_TrimSpace_none (s : Str) :
    Contains (TrimSpace s) "(none)".toList = Contains s "(none)".toList := by
  rw [Bool.eq_iff_iff, Contains_iff, Contains_iff]
  exact infix_TrimSpace_iff s "none".toList '(' ')' (by decide) (by decide)

/-! ## `validateSignature` and `Remove` -/

theorem fileExists_trace (w : World) (tr : List Call) (f : Str) :
    (fileExists w tr f).2 = tr ++ [Call.stat f] := rfl

/-- C22. `validateSignature` returns no error exactly when `fileExists` returns
none, the query command succeeds with an output that does not contain `(none)`,
and `rpm -Kv` succeeds. When the query succeeds with an output containing
`(none)` the error is the `is not signed` one and `rpm -Kv` is not executed;
when `rpm -Kv` fails the error is the `Signature validation failed` one. -/
theorem validateSignature_iff (w : World) (rpmFile : Str) (tr : List Call) :
    ((validateSignature w rpmFile tr).1 = none ↔
      (fileExists w tr rpmFile).1 = none ∧
      (w.exec (tr ++ [Call.stat rpmFile]) "sh".toList ["-c".toList, signCommand rpmFile]).2 =
        none ∧
      Contains (w.exec (tr ++ [Call.stat rpmFile]) "sh".toList
        ["-c".toList, signCommand rpmFile]).1 "(none)".toList = false ∧
      (w.exec (tr ++ [Call.stat rpmFile,
        Call.exec "sh".toList ["-c".toList, signCommand rpmFile]]) "rpm".toList
        ["-Kv".toList, rpmFile]).2 = none) ∧
    ((fileExists w tr rpmFile).1 = none →
      (w.exec (tr ++ [Call.stat rpmFile]) "sh".toList ["-c".toList, signCommand rpmFile]).2 =
        none →
      Contains (w.exec (tr ++ [Call.stat rpmFile]) "sh".toList
        ["-c".toList, signCommand rpmFile]).1 "(none)".toList = true →
      validateSignature w rpmFile tr =
        (some ("RPM file ".toList ++ rpmFile ++ (" is not signed. Only install updates that " ++
          "have been downloaded from or provided by Veritas").toList),
          tr ++ [Call.stat rpmFile,
            Call.exec "sh".toList ["-c".toList, signCommand rpmFile]])) ∧
    ((fileExists w tr rpmFile).1 = none →
      (w.exec (tr ++ [Call.stat rpmFile]) "sh".toList ["-c".toList, signCommand rpmFile]).2 =
        none →
      Contains (w.exec (tr ++ [Call.stat rpmFile]) "sh".toList
        ["-c".toList, signCommand rpmFile]).1 "(none)".toList = false →
      ∀ e, (w.exec (tr ++ [Call.stat rpmFile,
          Call.exec "sh".toList ["-c".toList, signCommand rpmFile]]) "rpm".toList
          ["-Kv".toList, rpmFile]).2 = some e →
      validateSignature w rpmFile tr =
        (some ("Signature validation failed for ".toList ++ rpmFile ++
          (". Only install updates that have been downloaded from or provided by " ++
            "Veritas. Error ").toList ++ e),
          tr ++ [Call.stat rpmFile,
            Call.exec "sh".toList ["-c".toList, signCommand rpmFile],
            Call.exec "rpm".toList ["-Kv".toList, rpmFile]])) := by
  have happ : tr ++ [Call.stat rpmFile] ++
      [Call.exec "sh".toList ["-c".toList, signCommand rpmFile]] =
      tr ++ [Call.stat rpmFile, Call.exec "sh".toList ["-c".toList, signCommand rpmFile]] := by
    simp
  refine ⟨?_, ?_, ?_⟩
  · unfold validateSignature
    simp only [fileExists_trace]
    cases hf : (fileExists w tr rpmFile).1 with
    | some e => simp
    | none =>
      simp only [true_and]
      unfold isSigned
      simp only [Contains_TrimSpace_none, happ]
      cases hq : (w.exec (tr ++ [Call.stat rpmFile]) "sh".toList
          ["-c".toList, signCommand rpmFile]).2 with
      | some e => simp
      | none =>
        simp only [true_and]
        cases hc : Contains (w.exec (tr ++ [Call.stat rpmFile]) "sh".toList
            ["-c".toList, signCommand rpmFile]).1 "(none)".toList with
        | true => simp
        | false =>
          simp only [Bool.false_eq_true, if_false, true_and]
          unfold verifySign
          simp only
          cases hv : (w.exec (tr ++ [Call.stat rpmFile,
              Call.exec "sh".toList ["-c".toList, signCommand rpmFile]]) "rpm".toList
              ["-Kv".toList, rpmFile]).2 with
          | some e => simp
          | none => simp
  · intro hf hq hc
    unfold validateSignature
    simp only [fileExists_trace, hf]
    unfold isSigned
    simp only [Contains_TrimSpace_none, happ, hq, hc, if_true]
  · intro hf hq hc e hv
    unfold validateSignature
    simp only [fileExists_trace, hf]
    unfold isSigned
    simp only [Contains_TrimSpace_none, happ, hq, hc, Bool.false_eq_true, if_false]
    unfold verifySign
    simp only [hv, List.append_assoc, List.cons_append, List.nil_append]

theorem validateSignature_iff_witness :
    validateSignature
        (sampleWorld [] [["rpm".toList, "-Kv".toList, "asum.rpm".toList]] []) "asum.rpm".toList
        [] =
      (some ("Signature validation failed for asum.rpm. Only install updates that have " ++
        "been downloaded from or provided by Veritas. Error exit status 1").toList,
        [Call.stat "asum.rpm".toList,
          Call.exec "sh".toList ["-c".toList, signCommand "asum.rpm".toList],
          Call.exec "rpm".toList ["-Kv".toList, "asum.rpm".toList]]) :=
  (validateSignature_iff (sampleWorld [] [["rpm".toList, "-Kv".toList, "asum.rpm".toList]] [])
    "asum.rpm".toList []).2.2 rfl rfl rfl "exit status 1".toList rfl

/-- C24. With an empty repository path `Remove` returns the error that ends in
`Failed to determine software repository.`, whatever the name and the type;
with a repository path, a name and no type it returns the error that ends in
`Software type must be specified when software name is specified.`; in both
cases it makes no call. -/
theorem Remove_invalid_usage (w : World) (swName swType swRepo : Str) (tr : List Call) :
    (swRepo = [] →
      Remove w swName swType swRepo tr =
        (some ("Unable to remove ".toList ++ swType ++ " software ".toList ++ swName ++
          ". Failed to determine software repository.".toList), tr) ∧
      Contains ("Unable to remove ".toList ++ swType ++ " software ".toList ++ swName ++
          ". Failed to determine software repository.".toList)
        "Failed to determine software repository.".toList = true) ∧
    (swRepo ≠ [] → swName ≠ [] → swType = [] →
      Remove w swName swType swRepo tr =
        (some ("Invalid usage. Software type must be specified when software name " ++
          "is specified.").toList, tr) ∧
      Contains ("Invalid usage. Software type must be specified when software name " ++
          "is specified.").toList
        "Software type must be specified when software name is specified.".toList = true) := by
  constructor
  · intro hr
    refine ⟨?_, ?_⟩
    · unfold Remove
      rw [if_pos hr]
    · rw [Contains_iff]
      exact ⟨"Unable to remove ".toList ++ swType ++ " software ".toList ++ swName ++
        ". ".toList, [], by simp⟩
  · intro hr hn ht
    refine ⟨?_, by decide⟩
    unfold Remove
    rw [if_neg hr, if_pos ⟨hn, ht⟩]

theorem Remove_invalid_usage_witness :
    Remove (sampleWorld [] [] []) "ab.rpm".toList [] "/tmp/software/repository/".toList [] =
      (some ("Invalid usage. Software type must be specified when software name " ++
        "is specified.").toList, []) :=
  ((Remove_invalid_usage (sampleWorld [] [] []) "ab.rpm".toList []
    "/tmp/software/repository/".toList []).2 (by decide) (by decide) rfl).1

/-! ## Key lines -/

theorem Regex.star_cls_of_forall (p : Char → Bool) (x : Str) (h : ∀ c, c ∈ x → p c = true) :
    (Regex.star (Regex.cls p)).Matches x :=
  Regex.star_of_singletons _ x (fun c hc => ⟨c, rfl, h c hc⟩)

theorem Regex.plus_cls_of_forall (p : Char → Bool) (x : Str) (hne : x ≠ [])
    (h : ∀ c, c ∈ x → p c = true) :
    (Regex.seq (Regex.cls p) (Regex.star (Regex.cls p))).Matches x := by
  cases x with
  | nil => exact absurd rfl hne
  | cons c x =>
    exact ⟨[c], x, rfl, ⟨c, rfl, h c (List.mem_cons_self _ _)⟩,
      Regex.star_cls_of_forall p x (fun d hd => h d (List.mem_cons_of_mem _ hd))⟩

theorem Regex.plus_cls_forall (p : Char → Bool) (x : Str)
    (h : (Regex.seq (Regex.cls p) (Regex.star (Regex.cls p))).Matches x) :
    ∀ c, c ∈ x → p c = true := by
  obtain ⟨a, b, rfl, ⟨d, rfl, hd⟩, hb⟩ := h
  intro c hc
  rcases List.mem_append.1 hc with h1 | h1
  · simp only [List.mem_singleton] at h1
    exact h1 ▸ hd
  · exact Regex.star_forall _ (fun e => p e = true) (Regex.cls_forall p) b hb c h1

/-- A text of word and `\s` characters splits into word characters, groups of
`\s` characters followed by word characters, and `\s` characters. -/
theorem spec_parse (mid : Str) (h : ∀ d, d ∈ mid → perlWord d = true ∨ perlSpace d = true) :
    ∃ (W : Str) (Lp : List Str) (S : Str), mid = W ++ Lp.flatten ++ S ∧
      (∀ c, c ∈ W → perlWord c = true) ∧
      (∀ g, g ∈ Lp → ∃ S1 W1, g = S1 ++ W1 ∧ S1 ≠ [] ∧ W1 ≠ [] ∧
        (∀ c, c ∈ S1 → perlSpace c = true) ∧ (∀ c, c ∈ W1 → perlWord c = true)) ∧
      (∀ c, c ∈ S → perlSpace c = true) := by
  induction mid with
  | nil => exact ⟨[], [], [], rfl, by simp, by simp, by simp⟩
  | cons d mid ih =>
    obtain ⟨W, Lp, S, hmid, hW, hLp, hS⟩ := ih (fun x hx => h x (List.mem_cons_of_mem _ hx))
    rcases h d (List.mem_cons_self _ _) with hd | hd
    · refine ⟨d :: W, Lp, S, by rw [hmid]; simp, ?_, hLp, hS⟩
      intro c hc
      rcases List.mem_cons.1 hc with rfl | hc
      · exact hd
      · exact hW c hc
    · cases W with
      | cons w1 W1 =>
        refine ⟨[], ([d] ++ w1 :: W1) :: Lp, S, by rw [hmid]; simp, by simp, ?_, hS⟩
        intro g hg
        rcases List.mem_cons.1 hg with rfl | hg
        · refine ⟨[d], w1 :: W1, rfl, by simp, by simp, ?_, hW⟩
          intro c hc
          simp only [List.mem_singleton] at hc
          exact hc ▸ hd
        · exact hLp g hg
      | nil =>
        cases Lp with
        | nil =>
          refine ⟨[], [], d :: S, by rw [hmid]; simp, by simp, by simp, ?_⟩
          intro c hc
          rcases List.mem_cons.1 hc with rfl | hc
          · exact hd
          · exact hS c hc
        | cons g Lp2 =>
          obtain ⟨S1, W1, hg, hS1, hW1, hS1a, hW1a⟩ := hLp g (List.mem_cons_self _ _)
          refine ⟨[], (d :: S1 ++ W1) :: Lp2, S, by rw [hmid, hg]; simp, by simp, ?_, hS⟩
          intro g2 hg2
          rcases List.mem_cons.1 hg2 with rfl | hg2
          · refine ⟨d :: S1, W1, rfl, by simp, hW1, ?_, hW1a⟩
            intro c hc
            rcases List.mem_cons.1 hc with rfl | hc
            · exact hd
            · exact hS1a c hc
          · exact hLp g2 (List.mem_cons_of_mem _ hg2)

/-- The grammar of the spec matches an initial part of a line exactly when the
line is a key line. -/
theorem MatchString_specPattern_iff (line : Str) :
    MatchString specPattern line = true ↔ IsKeyLine line := by
  rw [MatchString_iff]
  constructor
  · rintro ⟨a, b, rfl, h⟩
    unfold specPattern at h
    obtain ⟨a1, a2, rfl, ⟨w1, w2, rfl, ⟨c, rfl, hc⟩, hw2⟩, m, t, rfl, hm, sp, col, rfl, hsp,
      ⟨d, rfl, hd⟩⟩ := h
    have hd2 : d = ':' := by simpa using hd
    subst hd2
    refine ⟨c, w2 ++ m ++ sp, b, by simp, hc, ?_⟩
    intro e he
    rcases List.mem_append.1 he with he | he
    · rcases List.mem_append.1 he with he | he
      · exact Or.inl (Regex.star_forall _ (fun e => perlWord e = true)
          (Regex.cls_forall perlWord) w2 hw2 e he)
      · refine Regex.star_forall _ (fun e => perlWord e = true ∨ perlSpace e = true) ?_ m hm e he
        rintro y ⟨y1, y2, rfl, hy1, hy2⟩ e he
        rcases List.mem_append.1 he with he | he
        · exact Or.inr (Regex.plus_cls_forall perlSpace y1 hy1 e he)
        · exact Or.inl (Regex.plus_cls_forall perlWord y2 hy2 e he)
    · exact Or.inr (Regex.star_forall _ (fun e => perlSpace e = true)
        (Regex.cls_forall perlSpace) sp hsp e he)
  · rintro ⟨c, mid, post, rfl, hc, hmid⟩
    obtain ⟨W, Lp, S, rfl, hW, hLp, hS⟩ := spec_parse mid hmid
    refine ⟨c :: (W ++ Lp.flatten ++ S) ++ [':'], post, by simp, ?_⟩
    unfold specPattern
    refine ⟨c :: W, Lp.flatten ++ (S ++ [':']), by simp,
      ⟨[c], W, rfl, ⟨c, rfl, hc⟩, Regex.star_cls_of_forall perlWord W hW⟩,
      Lp.flatten, S ++ [':'], rfl, ⟨Lp, rfl, ?_⟩, S, [':'], rfl,
      Regex.star_cls_of_forall perlSpace S hS, ⟨':', rfl, by simp⟩⟩
    intro g hg
    obtain ⟨S1, W1, rfl, hS1, hW1, hS1a, hW1a⟩ := hLp g hg
    exact ⟨S1, W1, rfl, Regex.plus_cls_of_forall perlSpace S1 hS1 hS1a,
      Regex.plus_cls_of_forall perlWord W1 hW1 hW1a⟩

theorem mem_split_takeWhile (sep : Char) (line : Str) (h : sep ∈ line) :
    ∃ post, line = line.takeWhile (fun c => c ≠ sep) ++ sep :: post := by
  induction line with
  | nil => cases h
  | cons c line ih =>
    by_cases hc : c = sep
    · subst hc
      exact ⟨line, by simp [List.takeWhile]⟩
    · have hm : sep ∈ line := by
        rcases List.mem_cons.1 h with e | e
        · exact absurd e.symm hc
        · exact e
      obtain ⟨post, hp⟩ := ih hm
      refine ⟨post, ?_⟩
      have hd : decide (c ≠ sep) = true := by simpa using hc
      rw [List.takeWhile_cons]
      simp only [hd]
      rw [if_pos trivial, List.cons_append, ← hp]

/-- C28. The pattern of `ParseMetaData` accepts a line exactly when the line
starts with a word character, contains a colon, and has only word characters
and `\s` characters before its first colon; the grammar of the spec accepts the
same lines; a line that is accepted sets the active key, and any other line is
appended to the value of the active key. -/
theorem key_line_iff (line : Str) :
    (MatchString pattern line = true ↔
      (∃ c rest, line = c :: rest ∧ perlWord c = true) ∧ ':' ∈ line ∧
        ∀ d, d ∈ line.takeWhile (fun c => c ≠ ':') → perlWord d = true ∨ perlSpace d = true) ∧
    MatchString specPattern line = MatchString pattern line ∧
    (MatchString pattern line = true →
      ∀ st : FieldMap × Str,
        parseLine st line = (st.1.set (keyText line) (valueText line), keyText line)) ∧
    (MatchString pattern line = false →
      ∀ st : FieldMap × Str,
        parseLine st line = (st.1.set st.2 (st.1.get st.2 ++ TrimSpace line), st.2)) := by
  refine ⟨?_, ?_, fun h st => parseLine_of_match st line h,
    fun h st => parseLine_of_not_match st line h⟩
  · rw [MatchString_pattern_iff]
    constructor
    · intro h
      obtain ⟨c, t, post, rfl, hcol, hc⟩ := IsKeyLine.decompose _ h
      obtain ⟨c2, mid, post2, heq, _, hmid⟩ := h
      have hcol2 : ':' ∉ c2 :: mid := by
        intro hmem
        rcases List.mem_cons.1 hmem with e | e
        · rename_i hc2
          exact perlWord_ne_colon c2 hc2 e.symm
        · rcases hmid _ e with h1 | h1
          · exact perlWord_ne_colon _ h1 rfl
          · exact perlSpace_ne_colon _ h1 rfl
      refine ⟨⟨c, t ++ ':' :: post, rfl, hc⟩, by simp, ?_⟩
      have ht : (c :: t ++ ':' :: post).takeWhile (fun c => c ≠ ':') = c2 :: mid := by
        rw [heq]
        exact takeWhile_ne_append ':' (c2 :: mid) post2 hcol2
      rw [ht]
      intro d hd
      rcases List.mem_cons.1 hd with rfl | hd
      · rename_i hc2
        exact Or.inl hc2
      · exact hmid d hd
    · rintro ⟨⟨c, rest, rfl, hc⟩, hmem, hall⟩
      obtain ⟨post, hp⟩ := mem_split_takeWhile ':' (c :: rest) hmem
      have hd : decide (c ≠ ':') = true := by simpa using perlWord_ne_colon c hc
      have ht : (c :: rest).takeWhile (fun c => c ≠ ':') =
          c :: rest.takeWhile (fun c => c ≠ ':') := by
        rw [List.takeWhile_cons]
        simp only [hd]
        exact if_pos trivial
      rw [ht] at hp hall
      exact ⟨c, rest.takeWhile (fun c => c ≠ ':'), post, hp, hc,
        fun d hd => hall d (List.mem_cons_of_mem _ hd)⟩
  · rw [Bool.eq_iff_iff, MatchString_specPattern_iff, MatchString_pattern_iff]

theorem key_line_iff_witness :
    parseLine (FieldMap.empty, "Name".toList) "Build Date  : Wed 25".toList =
      (FieldMap.empty.set "Build Date".toList "Wed 25".toList, "Build Date".toList) ∧
    parseLine (FieldMap.empty, "Name".toList) " Build Date : Wed 25".toList =
      (FieldMap.empty.set "Name".toList "Build Date : Wed 25".toList, "Name".toList) :=
  ⟨(key_line_iff "Build Date  : Wed 25".toList).2.2.1 (by decide) (FieldMap.empty, "Name".toList),
    (key_line_iff " Build Date : Wed 25".toList).2.2.2 (by decide)
      (FieldMap.empty, "Name".toList)⟩

/-! ## The shape of the parsed keys and values -/

theorem Trimmed_nil : Trimmed [] := by
  constructor <;> intro c h <;> cases h

theorem Trimmed_TrimSpace (s : Str) : Trimmed (TrimSpace s) := by
  constructor
  · intro c hc
    obtain ⟨u, hu⟩ := List.rdropWhile_prefix unicodeIsSpace (s.dropWhile unicodeIsSpace)
    have hnot := List.head?_dropWhile_not unicodeIsSpace s
    have hts : TrimSpace s = List.rdropWhile unicodeIsSpace (s.dropWhile unicodeIsSpace) := rfl
    rw [hts] at hc
    cases hr : List.rdropWhile unicodeIsSpace (s.dropWhile unicodeIsSpace) with
    | nil => rw [hr] at hc; cases hc
    | cons x r =>
      rw [hr] at hc hu
      simp only [List.head?_cons, Option.some.injEq] at hc
      subst hc
      rw [← hu] at hnot
      simpa using hnot
  · intro c hc
    have hts : TrimSpace s = List.rdropWhile unicodeIsSpace (s.dropWhile unicodeIsSpace) := rfl
    rw [hts] at hc
    have hne : List.rdropWhile unicodeIsSpace (s.dropWhile unicodeIsSpace) ≠ [] := by
      intro h
      rw [h] at hc
      cases hc
    rw [List.getLast?_eq_getLast _ hne] at hc
    have hl := List.rdropWhile_last_not unicodeIsSpace (s.dropWhile unicodeIsSpace) hne
    simp only [Option.some.injEq] at hc
    rw [hc] at hl
    simpa using hl

theorem Trimmed_append (a b : Str) (ha : Trimmed a) (hb : Trimmed b) : Trimmed (a ++ b) := by
  constructor
  · intro c hc
    cases a with
    | nil => exact hb.1 c hc
    | cons x a => exact ha.1 c hc
  · intro c hc
    rw [List.getLast?_append] at hc
    cases hbl : b.getLast? with
    | none =>
      rw [hbl] at hc
      exact ha.2 c hc
    | some y =>
      rw [hbl] at hc
      simp only [Option.or_some, Option.some.injEq] at hc
      exact hb.2 c (hc ▸ hbl)

theorem TrimSpace_head (c : Char) (t : Str) (h : unicodeIsSpace c = false) :
    ∃ rest, TrimSpace (c :: t) = c :: rest := by
  have hne := TrimSpace_ne_nil c t h
  have hd : (c :: t).dropWhile unicodeIsSpace = c :: t := by simp [List.dropWhile, h]
  have hts : TrimSpace (c :: t) = List.rdropWhile unicodeIsSpace (c :: t) := by
    show List.rdropWhile unicodeIsSpace ((c :: t).dropWhile unicodeIsSpace) = _
    rw [hd]
  obtain ⟨u, hu⟩ := List.rdropWhile_prefix unicodeIsSpace (c :: t)
  rw [← hts] at hu
  cases hr : TrimSpace (c :: t) with
  | nil => exact absurd hr hne
  | cons x r =>
    rw [hr] at hu
    simp only [List.cons_append, List.cons.injEq] at hu
    exact ⟨r, by rw [hu.1]⟩

theorem keyText_shaped (line : Str) (h : MatchString pattern line = true) :
    KeyShaped (keyText line) := by
  obtain ⟨c, t, post, rfl, hcol, hc⟩ :=
    IsKeyLine.decompose line ((MatchString_pattern_iff line).1 h)
  unfold keyText
  rw [takeWhile_ne_append ':' (c :: t) post hcol]
  obtain ⟨rest, hrest⟩ := TrimSpace_head c t (perlWord_not_space c hc)
  refine Or.inr ⟨⟨c, rest, hrest, hc⟩, ?_, Trimmed_TrimSpace _⟩
  intro hmem
  exact hcol ((TrimSpace_within (c :: t)).subset hmem)

/-- One iteration of the loop keeps every stored value trimmed and every stored
key, and the active key, of the shape `KeyShaped`. -/
theorem parseLine_shape (st : FieldMap × Str) (line : Str)
    (hm : ∀ k v, st.1 k = some v → Trimmed v ∧ KeyShaped k) (hk : KeyShaped st.2) :
    (∀ k v, (parseLine st line).1 k = some v → Trimmed v ∧ KeyShaped k) ∧
      KeyShaped (parseLine st line).2 := by
  cases hmatch : MatchString pattern line with
  | true =>
    rw [parseLine_of_match st line hmatch]
    refine ⟨?_, keyText_shaped line hmatch⟩
    intro k v hkv
    by_cases hkk : k = keyText line
    · subst hkk
      dsimp only at hkv
      rw [FieldMap.set_self] at hkv
      simp only [Option.some.injEq] at hkv
      subst hkv
      exact ⟨Trimmed_TrimSpace _, keyText_shaped line hmatch⟩
    · dsimp only at hkv
      rw [FieldMap.set_ne _ _ _ _ hkk] at hkv
      exact hm k v hkv
  | false =>
    rw [parseLine_of_not_match st line hmatch]
    refine ⟨?_, hk⟩
    intro k v hkv
    by_cases hkk : k = st.2
    · subst hkk
      dsimp only at hkv
      rw [FieldMap.set_self] at hkv
      simp only [Option.some.injEq] at hkv
      subst hkv
      refine ⟨Trimmed_append _ _ ?_ (Trimmed_TrimSpace _), hk⟩
      unfold FieldMap.get
      cases hv : st.1 st.2 with
      | none => exact Trimmed_nil
      | some v0 => exact (hm _ v0 hv).1
    · dsimp only at hkv
      rw [FieldMap.set_ne _ _ _ _ hkk] at hkv
      exact hm k v hkv

theorem parseLines_shape (lines : List Str) : ∀ st : FieldMap × Str,
    (∀ k v, st.1 k = some v → Trimmed v ∧ KeyShaped k) → KeyShaped st.2 →
    ∀ k v, (parseLines lines st).1 k = some v → Trimmed v ∧ KeyShaped k := by
  induction lines with
  | nil => intro st hm _ k v h; exact hm k v h
  | cons l ls ih =>
    intro st hm hk
    rw [parseLines_cons]
    exact ih _ (parseLine_shape st l hm hk).1 (parseLine_shape st l hm hk).2

/-- C30. Every value of the map returned by `ParseMetaData` has no white space
at its start or end, and every key other than the empty string starts with a
word character, contains no colon and has no white space at its start or
end. -/
theorem ParseMetaData_shape (metaData k v : Str) (h : ParseMetaData metaData k = some v) :
    Trimmed v ∧
      (k ≠ [] → (∃ c rest, k = c :: rest ∧ perlWord c = true) ∧ ':' ∉ k ∧ Trimmed k) := by
  have hs := parseLines_shape (Split metaData '\n') (FieldMap.empty, [])
    (fun k v hkv => by cases hkv) (Or.inl rfl) k v h
  refine ⟨hs.1, fun hk => ?_⟩
  rcases hs.2 with h0 | h1
  · exact absurd h0 hk
  · exact h1

theorem ParseMetaData_shape_witness :
    ParseMetaData " lead \nBuild Date  :  Wed : 25 \n more ".toList "Build Date".toList =
        some "Wed : 25more".toList ∧
      Trimmed "Wed : 25more".toList :=
  ⟨by decide,
    (ParseMetaData_shape " lead \nBuild Date  :  Wed : 25 \n more ".toList "Build Date".toList
      "Wed : 25more".toList (by decide)).1⟩


end SUM
